import Mathlib

/-!
# Assembly SDK: the mock ledger, the REST encoding, the gateway, the client and the scanner

A shallow embedding of `mock/mock.go` (the in-memory ledger), `api/errors.go`
(the typed errors), `api/rest/encoding.go` (the wire encoding of transactions),
`api/rest/rest.go` (the handlers of the gateway), `client/rest/client.go` (the
parameters of a read call and what the client makes of a response) and
`client/scanner/scanner.go` (the loop of `Scan`), with the properties of the
ledger's log, hash chain, seed check, reads and wake-ups, of the encode/decode
round trip and its checks, of the status codes, seed header and count limit of
the gateway, of the client's checks and deadlines, and of the scanner.

Conventions of the embedding:

* a Go `[]byte` is a `List Byte`; a `nil` slice and an empty slice are both `[]`
  (the code only ever looks at `len` and `bytes.Equal`, which do not tell them
  apart);
* a Go `string` is its byte sequence, so `[]byte(s)` is the identity;
* `int64` and `int` values are `Int` (`int` is taken to be 64 bits wide, so
  `int(req.Count)` is the identity). The only arithmetic on them is `len + 1`,
  `index - 1`, `len - i` and `i + count`; for operands in the `int64` range a
  wrapped result either equals the exact one or occurs on a path where the
  slice expression fails in both readings: `index - 1` wraps only for the
  least `int64`, and then the lower bound `i` exceeds the capacity; `len - i`
  wraps only for a negative `i`, which is out of range already; and with
  `0 ≤ i ≤ len` neither `len - i` nor `i + count` wraps after the clipping;
* a call that returns `(result, nil)` is `Outcome.ok`, one that returns
  `(nil, err)` is `Outcome.error`, a run-time panic is `Outcome.panic`;
* the ledger is passed explicitly: every operation returns the ledger after it;
* what runs under the ledger's mutex between `Lock` and `Unlock` is one
  operation, and the calls of concurrent goroutines are a list of operations, in
  the order in which they take the mutex; a closed channel stays closed, so a
  select statement that can proceed at some moment can proceed at any later one;
* times and durations are nanoseconds; a context is what the call reads of it:
  whether it is done (the ledger), its timeout (the gateway's call of the
  ledger), its deadline (the client); where the client computes with
  durations, they are `int64` values: a sum wraps around and `Time.Sub`
  saturates;
* a slice of pointers that the JSON decoder fills is a list of options, a nil
  pointer being `none`;
* HTTP and JSON are outside: a handler is given the decoded query, the value of
  the seed header and the JSON-decoded body of its request, the client is given
  the status, the seed header and the JSON-decoded body of the response;
* the loop of `Scan` runs on fuel, one unit for each read.
-/

set_option maxRecDepth 100000

abbrev Byte := Fin 256

abbrev Bytes := List Byte

/-- A Go string, as the sequence of its bytes. -/
abbrev GoString := List Byte

/-- The bytes of a string literal of the source (ASCII only). -/
def str (s : String) : Bytes := s.toList.map fun c => Fin.ofNat c.toNat

/-! ## Standard library: `crypto/sha256` (FIPS 180-4) -/

namespace SHA256

/-- The 64 round constants (FIPS 180-4, 4.2.2), in decimal. -/
def K : List Nat := [
  1116352408, 1899447441, 3049323471, 3921009573, 961987163, 1508970993,
  2453635748, 2870763221, 3624381080, 310598401, 607225278, 1426881987,
  1925078388, 2162078206, 2614888103, 3248222580, 3835390401, 4022224774,
  264347078, 604807628, 770255983, 1249150122, 1555081692, 1996064986,
  2554220882, 2821834349, 2952996808, 3210313671, 3336571891, 3584528711,
  113926993, 338241895, 666307205, 773529912, 1294757372, 1396182291,
  1695183700, 1986661051, 2177026350, 2456956037, 2730485921, 2820302411,
  3259730800, 3345764771, 3516065817, 3600352804, 4094571909, 275423344,
  430227734, 506948616, 659060556, 883997877, 958139571, 1322822218,
  1537002063, 1747873779, 1955562222, 2024104815, 2227730452, 2361852424,
  2428436474, 2756734187, 3204031479, 3329325298]

def rotr (x n : Nat) : Nat := ((x >>> n) ||| (x <<< (32 - n))) % 2 ^ 32

def add32 (x y : Nat) : Nat := (x + y) % 2 ^ 32

def not32 (x : Nat) : Nat := 2 ^ 32 - 1 - x

/-- Big-endian bytes of `x`, `n` bytes wide. -/
def beBytes : Nat → Nat → Bytes
  | 0, _ => []
  | n + 1, x => beBytes n (x / 256) ++ [Fin.ofNat x]

def wordOf (a b c d : Byte) : Nat := ((a.val * 256 + b.val) * 256 + c.val) * 256 + d.val

/-- Padding: `0x80`, zeros up to 56 modulo 64, then the bit length on 8 bytes. -/
def pad (msg : Bytes) : Bytes :=
  msg ++ [0x80] ++ List.replicate ((119 - msg.length % 64) % 64) 0 ++ beBytes 8 (8 * msg.length)

def words : Bytes → List Nat
  | a :: b :: c :: d :: rest => wordOf a b c d :: words rest
  | _ => []

/-- Extend the message schedule, kept newest word first, by `n` words. -/
def schedule : Nat → List Nat → List Nat
  | 0, w => w
  | n + 1, w =>
    let w2 := w.getD 1 0
    let w7 := w.getD 6 0
    let w15 := w.getD 14 0
    let w16 := w.getD 15 0
    let s0 := rotr w15 7 ^^^ rotr w15 18 ^^^ (w15 >>> 3)
    let s1 := rotr w2 17 ^^^ rotr w2 19 ^^^ (w2 >>> 10)
    schedule n (add32 (add32 (add32 w16 s0) w7) s1 :: w)

structure Regs where
  a : Nat
  b : Nat
  c : Nat
  d : Nat
  e : Nat
  f : Nat
  g : Nat
  h : Nat

def round (r : Regs) (kw : Nat × Nat) : Regs :=
  let s1 := rotr r.e 6 ^^^ rotr r.e 11 ^^^ rotr r.e 25
  let ch := (r.e &&& r.f) ^^^ (not32 r.e &&& r.g)
  let t1 := add32 (add32 (add32 (add32 r.h s1) ch) kw.1) kw.2
  let s0 := rotr r.a 2 ^^^ rotr r.a 13 ^^^ rotr r.a 22
  let maj := (r.a &&& r.b) ^^^ (r.a &&& r.c) ^^^ (r.b &&& r.c)
  let t2 := add32 s0 maj
  ⟨add32 t1 t2, r.a, r.b, r.c, add32 r.d t1, r.e, r.f, r.g⟩

def block (h : Regs) (ws : List Nat) : Regs :=
  let w := (schedule 48 ws.reverse).reverse
  let r := (K.zip w).foldl round h
  ⟨add32 h.a r.a, add32 h.b r.b, add32 h.c r.c, add32 h.d r.d,
   add32 h.e r.e, add32 h.f r.f, add32 h.g r.g, add32 h.h r.h⟩

def blocks : Nat → Regs → List Nat → Regs
  | 0, h, _ => h
  | n + 1, h, ws => blocks n (block h (ws.take 16)) (ws.drop 16)

def init : Regs :=
  ⟨0x6a09e667, 0xbb67ae85, 0x3c6ef372, 0xa54ff53a, 0x510e527f, 0x9b05688c, 0x1f83d9ab, 0x5be0cd19⟩

def digest (r : Regs) : Bytes :=
  beBytes 4 r.a ++ beBytes 4 r.b ++ beBytes 4 r.c ++ beBytes 4 r.d ++
  beBytes 4 r.e ++ beBytes 4 r.f ++ beBytes 4 r.g ++ beBytes 4 r.h

/-- The function `sha256.Sum256`, with the 32-byte array as a list. -/
def Sum256 (msg : Bytes) : Bytes :=
  let ws := words (pad msg)
  digest (blocks (ws.length / 16) init ws)

end SHA256

/-! ## Standard library: `encoding/hex` and `encoding/base64` -/

namespace hex

def hextable : Bytes := str "0123456789abcdef"

/-- The function `hex.EncodeToString`: two lower-case digits per byte. -/
def EncodeToString : Bytes → GoString
  | [] => []
  | v :: rest => hextable.getD (v.val / 16) 0 :: hextable.getD (v.val % 16) 0 :: EncodeToString rest

end hex

namespace base64

def encodeStd : Bytes := str "ABCDEFGHIJKLMNOPQRSTUVWXYZabcdefghijklmnopqrstuvwxyz0123456789+/"

/-- The padding character `=`. -/
def padChar : Byte := 61

def enc6 (n : Nat) : Byte := encodeStd.getD (n % 64) 0

/-- The decode map: the position of a character in the alphabet, if it has one. -/
def dec6 (c : Byte) : Option Nat :=
  if encodeStd.indexOf c < 64 then some (encodeStd.indexOf c) else none

/-- The function `StdEncoding.EncodeToString`: three bytes become four characters, the last
group is padded with `=`. -/
def EncodeToString : Bytes → GoString
  | [] => []
  | [a] =>
    let val := a.val * 65536
    [enc6 (val / 262144), enc6 (val / 4096), padChar, padChar]
  | [a, b] =>
    let val := a.val * 65536 + b.val * 256
    [enc6 (val / 262144), enc6 (val / 4096), enc6 (val / 64), padChar]
  | a :: b :: c :: rest =>
    let val := a.val * 65536 + b.val * 256 + c.val
    enc6 (val / 262144) :: enc6 (val / 4096) :: enc6 (val / 64) :: enc6 val :: EncodeToString rest

/-- Decode the quanta of an input without line breaks: groups of four alphabet characters,
the last one possibly ending in `==` or `=`, and nothing after the padding. -/
def decodeQuanta : List Byte → Option Bytes
  | [] => some []
  | c0 :: c1 :: c2 :: c3 :: rest =>
    match dec6 c0, dec6 c1 with
    | some d0, some d1 =>
      if c2 = padChar then
        if c3 = padChar ∧ rest = [] then some [Fin.ofNat ((d0 * 262144 + d1 * 4096) / 65536)]
        else none
      else
        match dec6 c2 with
        | none => none
        | some d2 =>
          if c3 = padChar then
            if rest = [] then
              some [Fin.ofNat ((d0 * 262144 + d1 * 4096 + d2 * 64) / 65536),
                Fin.ofNat ((d0 * 262144 + d1 * 4096 + d2 * 64) / 256)]
            else none
          else
            match dec6 c3, decodeQuanta rest with
            | some d3, some out =>
              let val := d0 * 262144 + d1 * 4096 + d2 * 64 + d3
              some (Fin.ofNat (val / 65536) :: Fin.ofNat (val / 256) :: Fin.ofNat val :: out)
            | _, _ => none
    | _, _ => none
  | _ => none

/-- The function `StdEncoding.DecodeString`: `\r` and `\n` are skipped, the rest is decoded
by quanta; `none` is a `CorruptInputError`. -/
def DecodeString (s : GoString) : Option Bytes :=
  decodeQuanta (s.filter fun c => c ≠ 10 ∧ c ≠ 13)

end base64

/-! ## Package `api`: errors and messages -/

/-- The three ways a call ends: `(result, nil)`, `(nil, err)`, or a run-time panic. -/
inductive Outcome (ε α : Type) where
  | ok (a : α)
  | error (e : ε)
  | panic
  deriving DecidableEq, Repr

namespace api

/-- The error values of `api/errors.go`; `other` is an untyped error (`fmt.Errorf`). -/
inductive Error where
  | BadRequestError (msg : String)
  | NotFoundError (msg : String)
  | NetworkSeedMismatchError (seed : Bytes)
  | ServerError (msg : String)
  | other (msg : String)
  deriving DecidableEq, Repr

/-- The method `NetworkSeedMismatchError.CorrectSeed`; the other errors do not have it. -/
def Error.CorrectSeed : Error → Option Bytes
  | .NetworkSeedMismatchError seed => some seed
  | _ => none

/-- The method `Timeout` of the four error types; an untyped error does not have it. -/
def Error.Timeout : Error → Option Bool
  | .BadRequestError _ => some false
  | .NotFoundError _ => some false
  | .NetworkSeedMismatchError _ => some false
  | .ServerError _ => some false
  | .other _ => none

/-- The method `Temporary` of the four error types; an untyped error does not have it. -/
def Error.Temporary : Error → Option Bool
  | .BadRequestError _ => some false
  | .NotFoundError _ => some true
  | .NetworkSeedMismatchError _ => some false
  | .ServerError _ => some true
  | .other _ => none

/-- Modelled from the spec: the message type `api.UnsequencedTransaction`, whose declaration
is not among the sources (`{Type: string, Data: bytes, Hash: bytes (optional)}`); the field
`Type` is written `Typ`. -/
structure UnsequencedTransaction where
  Typ : GoString
  Data : Bytes
  Hash : Bytes
  deriving DecidableEq, Repr

/-- Modelled from the spec: the message type `api.SequencedTransaction`, whose declaration
is not among the sources (`{Type, Index: int64, Timestamp: int64, Data, Hash, StateHash}`,
in the field order of the positional literal in `test/utils/data_gen.go`). -/
structure SequencedTransaction where
  Typ : GoString
  Index : Int
  Timestamp : Int
  Data : Bytes
  Hash : Bytes
  StateHash : Bytes
  deriving DecidableEq, Repr

/-- Modelled from the spec: the message type `api.ReadRequest`, whose declaration is not
among the sources; fields as in the literal `api.ReadRequest{seed, index, p.MaxCount}`. -/
structure ReadRequest where
  NetworkSeed : Bytes
  Index : Int
  Count : Int
  deriving DecidableEq, Repr

/-- Modelled from the spec: the message type `api.ReadResult`, whose declaration is not
among the sources; fields as in the literal `api.ReadResult{seed, txs}`. -/
structure ReadResult where
  NetworkSeed : Bytes
  Transactions : List SequencedTransaction
  deriving DecidableEq, Repr

/-- Modelled from the spec: the message type `api.AppendRequest`, whose declaration is not
among the sources; fields as in the literal `api.AppendRequest{status.NetworkSeed, txs}`. -/
structure AppendRequest where
  NetworkSeed : Bytes
  Transactions : List UnsequencedTransaction
  deriving DecidableEq, Repr

/-- Modelled from the spec: the message type `api.AppendResult`, whose declaration is not
among the sources; fields as in the literal `api.AppendResult{seed, res.LastIndex}`. -/
structure AppendResult where
  NetworkSeed : Bytes
  LastIndex : Int
  deriving DecidableEq, Repr

/-- Modelled from the spec: the message type `api.ServerStatusResult`, whose declaration is
not among the sources; fields as in the literal of `TestServerStatusEncodeDecode`. -/
structure ServerStatusResult where
  NetworkSeed : Bytes
  NetworkType : String
  LastIndex : Int
  ServerTime : Int
  Ready : Bool
  deriving DecidableEq, Repr

end api

/-! ## Package `mock`: the in-memory ledger -/

namespace mock

open api

/-- The ledger. The channel `newData` is the number of the current, open channel: `make`
yields the next number, and the channels with a smaller number are the closed ones. -/
structure Ledger where
  data : List SequencedTransaction
  seed : Bytes
  stateHash : Bytes
  newData : Nat
  deriving DecidableEq, Repr

/-- What a call sees of its `context.Context`: whether the channel `ctx.Done()` is closed
(the deadline has passed or the context was cancelled). -/
structure Context where
  done : Bool
  deriving DecidableEq, Repr

/-- The constructor `NewLedger`; `seed` is what `rand.Read` put into the 32 bytes. -/
def NewLedger (seed : Bytes) : Ledger :=
  { data := [], seed := seed, stateHash := [], newData := 0 }

def Ledger.verifySeed (l : Ledger) (seed : Bytes) : Bool :=
  if seed.length > 0 ∧ ¬ seed = l.seed then false else true

/-- The slice expression `s[lo:hi]`: a panic (`none`) unless `0 ≤ lo ≤ hi` and `hi` is
within the slice. The upper bound is checked against the length: `readData`, the only user,
clips `count` so that `hi` never exceeds it, and the capacity is never consulted. -/
def sliceOf {α : Type} (s : List α) (lo hi : Int) : Option (List α) :=
  if 0 ≤ lo ∧ lo ≤ hi ∧ hi ≤ s.length then some ((s.drop lo.toNat).take (hi - lo).toNat)
  else none

def Ledger.readData (l : Ledger) (index : Int) (count : Int) : Option (List SequencedTransaction) :=
  let i := index - 1
  let count := if count > (l.data.length : Int) - i then (l.data.length : Int) - i else count
  sliceOf l.data i (i + count)

/-- The last statement of `ReadTransactions`, under the lock. -/
def Ledger.readResult (l : Ledger) (req : ReadRequest) : Ledger × Outcome Error ReadResult :=
  match l.readData req.Index req.Count with
  | some txs => (l, .ok ⟨l.seed, txs⟩)
  | none => (l, .panic)

/-- Where a read stands when it first gives up the lock: it has returned, or it waits in
the select statement on the channel it copied. -/
inductive ReadStep where
  | returned (out : Outcome Error ReadResult)
  | waiting (waitCh : Nat)
  deriving DecidableEq, Repr

/-- The first critical section of `ReadTransactions`: from `l.mu.Lock()` to the return or
to the `l.mu.Unlock()` before the select statement. -/
def Ledger.readLocked (l : Ledger) (_ctx : Context) (req : ReadRequest) : Ledger × ReadStep :=
  if ! l.verifySeed req.NetworkSeed then
    (l, .returned (.error (.NetworkSeedMismatchError l.seed)))
  else if req.Index > (l.data.length : Int) + 1 then
    (l, .returned (.error (.NotFoundError "Requested index is too far in the future")))
  else if req.Index = (l.data.length : Int) + 1 then
    (l, .waiting l.newData)
  else
    (l, .returned (l.readResult req).2)

/-- Whether the select statement of a waiting read can proceed: the copied channel has been
closed, or the context is done. -/
def Ledger.selectReady (l : Ledger) (ctx : Context) (waitCh : Nat) : Bool :=
  decide (waitCh < l.newData) || ctx.done

/-- The rest of `ReadTransactions` for a waiting read, on the ledger `l` it finds when it
takes the lock again: `none` while the select statement still blocks. -/
def Ledger.readWoken (l : Ledger) (ctx : Context) (req : ReadRequest) (waitCh : Nat) :
    Option (Ledger × Outcome Error ReadResult) :=
  if l.selectReady ctx waitCh then some (l.readResult req) else none

/-- A whole call of `ReadTransactions` during which no other call runs, `ctx` being the
context as it ends up (done once its deadline has fired): `none` is a call that never
returns. -/
def Ledger.ReadTransactions (l : Ledger) (ctx : Context) (req : ReadRequest) :
    Option (Ledger × Outcome Error ReadResult) :=
  match l.readLocked ctx req with
  | (l1, .returned out) => some (l1, out)
  | (l1, .waiting waitCh) => l1.readWoken ctx req waitCh

/-- One iteration of the loop of `AppendTransactions`, `ts` being `time.Now().UnixNano()`. -/
def Ledger.appendOne (l : Ledger) (index : Int) (ts : Int) (tx : UnsequencedTransaction) : Ledger :=
  let stateHash := SHA256.Sum256 (l.stateHash ++ tx.Hash)
  { l with
    data := l.data ++ [{ Typ := tx.Typ, Index := index, Data := tx.Data, Hash := tx.Hash,
                         StateHash := stateHash, Timestamp := ts }]
    stateHash := stateHash }

/-- The loop of `AppendTransactions` from its `j`-th iteration on; `now j` is the clock
reading of iteration `j`. -/
def Ledger.appendLoop (l : Ledger) (index : Int) (now : Nat → Int) (j : Nat) :
    List UnsequencedTransaction → Ledger
  | [] => l
  | tx :: rest => (l.appendOne index (now j) tx).appendLoop (index + 1) now (j + 1) rest

def Ledger.AppendTransactions (l : Ledger) (now : Nat → Int) (req : AppendRequest) :
    Ledger × Outcome Error AppendResult :=
  if ! l.verifySeed req.NetworkSeed then
    (l, .error (.NetworkSeedMismatchError l.seed))
  else
    let l1 := l.appendLoop ((l.data.length : Int) + 1) now 0 req.Transactions
    let l2 := { l1 with newData := l1.newData + 1 }
    (l2, .ok ⟨l2.seed, l2.data.length⟩)

def Ledger.ServerStatus (l : Ledger) (now : Int) : Ledger × Outcome Error ServerStatusResult :=
  (l, .ok { NetworkType := "mock", NetworkSeed := l.seed, LastIndex := l.data.length,
            ServerTime := now, Ready := true })

/-- One call of `AppendTransactions`: the request and the clock readings of its loop. -/
structure AppendCall where
  req : AppendRequest
  now : Nat → Int

/-- The ledger after a sequence of `AppendTransactions` calls. -/
def Ledger.runAppends (l : Ledger) : List AppendCall → Ledger
  | [] => l
  | c :: rest => ((l.AppendTransactions c.now c.req).1).runAppends rest

/-- All the transactions of a sequence of calls, in order. -/
def appended : List AppendCall → List UnsequencedTransaction
  | [] => []
  | c :: rest => c.req.Transactions ++ appended rest

/-- The states of a ledger: a fresh one, and what any `AppendTransactions` call, accepted
or rejected, makes of a state. -/
inductive Reachable (seed : Bytes) : Ledger → Prop where
  | fresh : Reachable seed (NewLedger seed)
  | append {l : Ledger} (now : Nat → Int) (req : AppendRequest) :
      Reachable seed l → Reachable seed (l.AppendTransactions now req).1

/-- The operations on a ledger, each one atomic under the mutex: the two critical sections
of a read, an append, and a status request. -/
inductive Op where
  | readLocked (ctx : Context) (req : ReadRequest)
  | readWoken (ctx : Context) (req : ReadRequest) (waitCh : Nat)
  | append (now : Nat → Int) (req : AppendRequest)
  | status (now : Int)

/-- The ledger after an operation. -/
def Ledger.step (l : Ledger) : Op → Ledger
  | .readLocked ctx req => (l.readLocked ctx req).1
  | .readWoken ctx req waitCh =>
    match l.readWoken ctx req waitCh with
    | some r => r.1
    | none => l
  | .append now req => (l.AppendTransactions now req).1
  | .status now => (l.ServerStatus now).1

/-- The ledger after a sequence of operations, in the order in which they take the mutex:
an interleaving of the calls of any number of goroutines. -/
def Ledger.run (l : Ledger) : List Op → Ledger
  | [] => l
  | op :: rest => (l.step op).run rest

end mock

/-! ## Package `rest`: the wire encoding of transactions -/

namespace rest

open api

/-- The wire form of an unsequenced transaction (`types.go`): `Data` is base64 text, `Hash`
is hexadecimal text. -/
structure EncodedUnsequencedTransaction where
  Typ : GoString
  Data : GoString
  Hash : GoString
  deriving DecidableEq, Repr

/-- The errors of the decoders, each with the position `i` of the transaction it reports:
`Failed to decode transaction i`, `Hash mismatch on transaction i`,
`Failed to decode state hash for transaction i`. -/
inductive DecodeError where
  | data (i : Nat)
  | hashMismatch (i : Nat)
  | stateHash (i : Nat)
  deriving DecidableEq, Repr

/-- The update `EncodeUnsequencedTransactions` makes to a transaction it is given (through
the pointer): a missing hash is filled in. -/
def fillHash (tx : UnsequencedTransaction) : UnsequencedTransaction :=
  if tx.Hash.length = 0 then { tx with Hash := SHA256.Sum256 (tx.Typ ++ tx.Data) } else tx

def EncodeUnsequencedTransactions : List UnsequencedTransaction → List EncodedUnsequencedTransaction
  | [] => []
  | tx :: rest =>
    { Data := base64.EncodeToString (fillHash tx).Data
      Hash := hex.EncodeToString (fillHash tx).Hash
      Typ := (fillHash tx).Typ } :: EncodeUnsequencedTransactions rest

/-- The loop of `DecodeUnsequencedTransactions` from position `i` on. -/
def decodeUnsequencedFrom (i : Nat) :
    List EncodedUnsequencedTransaction → Outcome DecodeError (List UnsequencedTransaction)
  | [] => .ok []
  | tx :: rest =>
    match base64.DecodeString tx.Data with
    | none => .error (.data i)
    | some data =>
      if tx.Hash ≠ hex.EncodeToString (SHA256.Sum256 (tx.Typ ++ data)) then
        .error (.hashMismatch i)
      else
        match decodeUnsequencedFrom (i + 1) rest with
        | .ok out =>
          .ok ({ Data := data, Hash := SHA256.Sum256 (tx.Typ ++ data), Typ := tx.Typ } :: out)
        | e => e

def DecodeUnsequencedTransactions (txs : List EncodedUnsequencedTransaction) :
    Outcome DecodeError (List UnsequencedTransaction) :=
  decodeUnsequencedFrom 0 txs

end rest

/-! ## The log written by `AppendTransactions` -/

namespace mock

open api

/-- The entries the loop of `AppendTransactions` adds to the log, `sh` being the running
state hash and `index` the next index when it starts its `j`-th iteration. -/
def entries (sh : Bytes) (index : Int) (now : Nat → Int) (j : Nat) :
    List UnsequencedTransaction → List SequencedTransaction
  | [] => []
  | tx :: rest =>
    { Typ := tx.Typ, Index := index, Timestamp := now j, Data := tx.Data, Hash := tx.Hash,
      StateHash := SHA256.Sum256 (sh ++ tx.Hash) } ::
      entries (SHA256.Sum256 (sh ++ tx.Hash)) (index + 1) now (j + 1) rest

/-- The state hash of the last entry of a log, `sh` for the empty log. -/
def lastStateHash (sh : Bytes) : List SequencedTransaction → Bytes
  | [] => sh
  | tx :: rest => lastStateHash tx.StateHash rest

/-- What a sequenced transaction keeps of the transaction it was made from. -/
def content (tx : SequencedTransaction) : UnsequencedTransaction :=
  { Typ := tx.Typ, Data := tx.Data, Hash := tx.Hash }

/-- The chain law along a log, `prev` being the state hash before its first entry. -/
def chainFrom (prev : Bytes) : List SequencedTransaction → Prop
  | [] => True
  | tx :: rest => tx.StateHash = SHA256.Sum256 (prev ++ tx.Hash) ∧ chainFrom tx.StateHash rest

/-- The invariant of the ledger: entry `k` (from 0) has index `k + 1`, the state hashes
chain from the empty hash, and the running state hash is that of the last entry. -/
structure Ledger.Inv (l : Ledger) : Prop where
  index : ∀ (k : Nat) (hk : k < l.data.length), (l.data[k]).Index = (k : Int) + 1
  chain : chainFrom [] l.data
  running : l.stateHash = lastStateHash [] l.data

end mock

/-! ## Standard library: `hex.DecodeString` -/

namespace hex

/-- The value of a hexadecimal digit, lower or upper case. -/
def fromHexChar (c : Byte) : Option Nat :=
  if 48 ≤ c.val ∧ c.val ≤ 57 then some (c.val - 48)
  else if 97 ≤ c.val ∧ c.val ≤ 102 then some (c.val - 97 + 10)
  else if 65 ≤ c.val ∧ c.val ≤ 70 then some (c.val - 65 + 10)
  else none

/-- The function `hex.DecodeString`; `none` is its error (a character that is not a digit,
or an odd length). -/
def DecodeString : GoString → Option Bytes
  | [] => some []
  | [_] => none
  | c0 :: c1 :: rest =>
    match fromHexChar c0, fromHexChar c1, DecodeString rest with
    | some a, some b, some out => some (Fin.ofNat (a * 16 + b) :: out)
    | _, _, _ => none

end hex

/-! ## Package `rest`: sequenced transactions and the messages of the routes -/

namespace rest

open api

/-- The wire form of a sequenced transaction (`types.go`). -/
structure EncodedSequencedTransaction where
  Typ : GoString
  Index : Int
  Timestamp : Int
  Data : GoString
  Hash : GoString
  StateHash : GoString
  deriving DecidableEq, Repr

def EncodeSequencedTransactions : List SequencedTransaction → List EncodedSequencedTransaction
  | [] => []
  | tx :: rest =>
    { Index := tx.Index
      Timestamp := tx.Timestamp
      Data := base64.EncodeToString tx.Data
      Hash := hex.EncodeToString tx.Hash
      StateHash := hex.EncodeToString tx.StateHash
      Typ := tx.Typ } :: EncodeSequencedTransactions rest

/-- The loop of `DecodeSequencedTransactions` from position `i` on. -/
def decodeSequencedFrom (i : Nat) :
    List EncodedSequencedTransaction → Outcome DecodeError (List SequencedTransaction)
  | [] => .ok []
  | tx :: rest =>
    match base64.DecodeString tx.Data with
    | none => .error (.data i)
    | some data =>
      if tx.Hash ≠ hex.EncodeToString (SHA256.Sum256 (tx.Typ ++ data)) then
        .error (.hashMismatch i)
      else
        match hex.DecodeString tx.StateHash with
        | none => .error (.stateHash i)
        | some stateHash =>
          match decodeSequencedFrom (i + 1) rest with
          | .ok out =>
            .ok ({ Index := tx.Index, Timestamp := tx.Timestamp, Data := data,
                   Hash := SHA256.Sum256 (tx.Typ ++ data), StateHash := stateHash,
                   Typ := tx.Typ } :: out)
          | e => e

def DecodeSequencedTransactions (txs : List EncodedSequencedTransaction) :
    Outcome DecodeError (List SequencedTransaction) :=
  decodeSequencedFrom 0 txs

/-- The body of a read response (`types.go`). -/
structure ReadResult where
  FirstIndex : Int
  Transactions : List EncodedSequencedTransaction
  LastIndex : Int
  Error : String
  deriving DecidableEq, Repr

/-- The body of an append request (`types.go`), as the JSON decoder delivers it: the slice
`Transactions` holds pointers, and an element `null` of the JSON array is a nil pointer,
`none`. -/
structure AppendRequest where
  Transactions : List (Option EncodedUnsequencedTransaction)
  deriving DecidableEq, Repr

/-- The body of an append response (`types.go`); a `LastIndex` of 0 is left out of the
JSON text. -/
structure AppendResult where
  LastIndex : Int
  Status : String
  Error : String
  deriving DecidableEq, Repr

def appendStatusPending : String := "pending"

def appendStatusSequenced : String := "sequenced"

/-- The two errors of `DecodeAppendRequest`: the JSON decoder's, and that of
`DecodeUnsequencedTransactions`. -/
inductive BodyError where
  | json
  | transactions (e : DecodeError)
  deriving DecidableEq, Repr

/-- The loop of `DecodeUnsequencedTransactions` from position `i` on, over a slice that may
hold nil pointers: `tx.Data` dereferences the element, which is a run-time panic for a nil
pointer. On a slice without nil pointers this is `decodeUnsequencedFrom`. -/
def decodeUnsequencedPtrFrom (i : Nat) :
    List (Option EncodedUnsequencedTransaction) →
      Outcome DecodeError (List UnsequencedTransaction)
  | [] => .ok []
  | none :: _ => .panic
  | some tx :: rest =>
    match base64.DecodeString tx.Data with
    | none => .error (.data i)
    | some data =>
      if tx.Hash ≠ hex.EncodeToString (SHA256.Sum256 (tx.Typ ++ data)) then
        .error (.hashMismatch i)
      else
        match decodeUnsequencedPtrFrom (i + 1) rest with
        | .ok out =>
          .ok ({ Data := data, Hash := SHA256.Sum256 (tx.Typ ++ data), Typ := tx.Typ } :: out)
        | e => e

/-- The function `DecodeAppendRequest`; `body` is what the JSON decoder makes of the
request body, `none` when it fails. The seed of the result is still empty. -/
def DecodeAppendRequest (body : Option AppendRequest) : Outcome BodyError api.AppendRequest :=
  match body with
  | none => .error .json
  | some msg =>
    match decodeUnsequencedPtrFrom 0 msg.Transactions with
    | .ok txs => .ok { NetworkSeed := [], Transactions := txs }
    | .error e => .error (.transactions e)
    | .panic => .panic

end rest

/-! ## Package `rest`: the gateway -/

namespace api

/-- Modelled from the spec: the interface `api.LedgerServer`, whose declaration is not among
the sources, over a ledger with states `σ`: a call takes the ledger's state and returns the
state after it. The context of `ReadTransactions` is given by its timeout, in nanoseconds;
the contexts of the other calls carry nothing the gateway sets. -/
structure LedgerServer (σ : Type) where
  ReadTransactions : σ → Int → ReadRequest → σ × Outcome Error ReadResult
  AppendTransactions : σ → AppendRequest → σ × Outcome Error AppendResult

end api

namespace rest

open api

/-- The options of a server that the handlers read (`options.go`); durations are in
nanoseconds. -/
structure options where
  defaultCount : Int
  maxCount : Int
  defaultPollTimeout : Int
  deriving DecidableEq, Repr

def DefaultCount : Int := 100

def DefaultMaxCount : Int := 1000

def DefaultPollTimeout : Int := 5 * 1000000000

def defaultOptions : options :=
  { defaultCount := DefaultCount, maxCount := DefaultMaxCount,
    defaultPollTimeout := DefaultPollTimeout }

structure Server (σ : Type) where
  ledger : LedgerServer σ
  options : rest.options

/-- What a `handleError` wraps: the error of the form decoder, of `hex.DecodeString`, of
`strconv.ParseInt`, of `DecodeAppendRequest`, or an error of the ledger. -/
inductive Cause where
  | form
  | seed
  | index
  | body (e : BodyError)
  | ledger (e : Error)
  deriving DecidableEq, Repr

structure handleError where
  err : Cause
  msg : String
  code : Int
  deriving DecidableEq, Repr

/-- The error a handler returns: a `*handleError`, or the ledger's error as it is. -/
inductive HandlerError where
  | handle (e : handleError)
  | plain (e : Error)
  deriving DecidableEq, Repr

/-- The JSON value written as the body of a response. -/
inductive Body where
  | read (r : ReadResult)
  | append (r : AppendResult)
  | error (e : handleError)
  deriving DecidableEq, Repr

/-- What a handler has done when it returns: the ledger's state after its calls, the append
requests it launched with `go` and does not wait for, the values it added to the header
`Symbiont-Network-Seed`, the body it wrote, the error it returns, and whether it panicked
instead. -/
structure FnOut (σ : Type) where
  state : σ
  spawned : List api.AppendRequest
  seedHeader : List GoString
  body : Option Body
  err : Option HandlerError
  panic : Bool

/-- A handler that returns the error `e` before it calls the ledger or writes anything. -/
def FnOut.fail {σ : Type} (st : σ) (e : handleError) : FnOut σ :=
  { state := st, spawned := [], seedHeader := [], body := none, err := some (.handle e),
    panic := false }

/-- A response: status code, the values of the header `Symbiont-Network-Seed`, body. -/
structure Response where
  status : Int
  seedHeader : List GoString
  body : Option Body
  deriving DecidableEq, Repr

/-- The query of a read request as the form decoder reads it: the parameters present. -/
structure ReadForm where
  max_count : Option Int
  metadata_only : Option Bool
  timeout : Option Int
  deriving DecidableEq, Repr

/-- A request `GET /transactions/{index}`: the number written by the digits of the path
(the route admits `[0-9]+` only), the decoded query (`none` when the form decoder fails),
and the value of the seed header (empty when absent). -/
structure ReadHTTP where
  index : Nat
  form : Option ReadForm
  seedHeader : GoString
  deriving DecidableEq, Repr

/-- A request `POST /transactions`: the parameter `async` of the decoded query (`none` when
the form decoder fails, `some none` when the parameter is absent), the value of the seed
header, and the JSON-decoded body (`none` when the JSON decoder fails). -/
structure AppendHTTP where
  form : Option (Option Bool)
  seedHeader : GoString
  body : Option AppendRequest
  deriving DecidableEq, Repr

def Server.readHandler {σ : Type} (s : Server σ) (st : σ) (r : ReadHTTP) : FnOut σ :=
  match r.form with
  | none => .fail st ⟨.form, "Failed to decode form", 400⟩
  | some f =>
    let pMaxCount := f.max_count.getD s.options.defaultCount
    let pMetadataOnly := f.metadata_only.getD false
    let pTimeout := f.timeout.getD s.options.defaultPollTimeout
    match hex.DecodeString r.seedHeader with
    | none => .fail st ⟨.seed, "Failed to parse network seed", 400⟩
    | some seed =>
      if ¬ r.index < 2 ^ 63 then .fail st ⟨.index, "Failed to parse index", 400⟩
      else
        let index : Int := r.index
        let pMaxCount := if pMaxCount > s.options.maxCount then s.options.maxCount else pMaxCount
        match s.ledger.ReadTransactions st pTimeout ⟨seed, index, pMaxCount⟩ with
        | (st1, .error (.BadRequestError m)) =>
          { state := st1, spawned := [], seedHeader := [], body := none, panic := false,
            err := some (.handle ⟨.ledger (.BadRequestError m), "Bad request", 400⟩) }
        | (st1, .error (.NotFoundError m)) =>
          { state := st1, spawned := [], seedHeader := [], body := none, panic := false,
            err := some (.handle ⟨.ledger (.NotFoundError m), "Transaction not found", 404⟩) }
        | (st1, .error (.NetworkSeedMismatchError correct)) =>
          { state := st1, spawned := [], seedHeader := [hex.EncodeToString correct],
            body := none, panic := false,
            err := some (.handle ⟨.ledger (.NetworkSeedMismatchError correct),
              "Network seed mismatch", 412⟩) }
        | (st1, .error e) =>
          { state := st1, spawned := [], seedHeader := [], body := none, panic := false,
            err := some (.plain e) }
        | (st1, .panic) =>
          { state := st1, spawned := [], seedHeader := [], body := none, err := none,
            panic := true }
        | (st1, .ok res) =>
          let limit := index + res.Transactions.length
          { state := st1, spawned := [], panic := false, err := none
            seedHeader := [hex.EncodeToString res.NetworkSeed]
            body := some (.read
              { FirstIndex := index
                LastIndex := limit - 1
                Transactions :=
                  if ! pMetadataOnly then EncodeSequencedTransactions res.Transactions else []
                Error := "" }) }

def Server.appendHandler {σ : Type} (s : Server σ) (st : σ) (r : AppendHTTP) : FnOut σ :=
  match r.form with
  | none => .fail st ⟨.form, "Failed to decode form", 400⟩
  | some f =>
    let pAsync := f.getD false
    match hex.DecodeString r.seedHeader with
    | none => .fail st ⟨.seed, "Failed to parse network seed", 400⟩
    | some seed =>
      match DecodeAppendRequest r.body with
      | .error e => .fail st ⟨.body e, "Failed to parse body", 400⟩
      | .panic =>
        { state := st, spawned := [], seedHeader := [], body := none, err := none,
          panic := true }
      | .ok req0 =>
        let req : api.AppendRequest := { req0 with NetworkSeed := seed }
        if pAsync then
          { state := st, spawned := [req], seedHeader := [], err := none, panic := false
            body := some (.append { LastIndex := 0, Status := appendStatusPending, Error := "" }) }
        else
          match s.ledger.AppendTransactions st req with
          | (st1, .error (.BadRequestError m)) =>
            { state := st1, spawned := [], seedHeader := [], body := none, panic := false,
              err := some (.handle ⟨.ledger (.BadRequestError m),
                "Refused to append transactions", 400⟩) }
          | (st1, .error (.NetworkSeedMismatchError correct)) =>
            { state := st1, spawned := [], seedHeader := [hex.EncodeToString correct],
              body := none, panic := false,
              err := some (.handle ⟨.ledger (.NetworkSeedMismatchError correct),
                "Network seed mismatch", 412⟩) }
          | (st1, .error e) =>
            { state := st1, spawned := [], seedHeader := [], body := none, panic := false,
              err := some (.plain e) }
          | (st1, .panic) =>
            { state := st1, spawned := [], seedHeader := [], body := none, err := none,
              panic := true }
          | (st1, .ok res) =>
            { state := st1, spawned := [], panic := false, err := none
              seedHeader := [hex.EncodeToString res.NetworkSeed]
              body := some (.append
                { LastIndex := res.LastIndex, Status := appendStatusSequenced, Error := "" }) }

/-- The wrapper `handler`: the response made of what the handler `fn` did; `none` when it
panicked. A handler that returns no error has written its body, with status 200. -/
def Server.handler {σ : Type} (out : FnOut σ) : Option Response :=
  if out.panic then none
  else
    match out.err with
    | none => some { status := 200, seedHeader := out.seedHeader, body := out.body }
    | some (.handle e) =>
      some { status := e.code, seedHeader := out.seedHeader, body := some (.error e) }
    | some (.plain x) =>
      some { status := 500, seedHeader := out.seedHeader,
             body := some (.error ⟨.ledger x, "Failed to handle request", 500⟩) }

end rest

namespace mock

open api

/-- The mock ledger behind the gateway, for a read during which no other call runs: the
context the gateway makes has a timeout, so it ends up done. The clock readings `now` are
those of every append. -/
def server (now : Nat → Int) : LedgerServer Ledger where
  ReadTransactions := fun l _ req =>
    match l.ReadTransactions ⟨true⟩ req with
    | some r => r
    | none => (l, .panic)
  AppendTransactions := fun l req => l.AppendTransactions now req

end mock

/-! ## Package `client`: reading a response -/

namespace client

open api

/-- The function `decodeAndVerifyNetworkSeed`; `header` is the value of the header
`Symbiont-Network-Seed` (empty when absent). The text of the error of `hex.DecodeString`
is left out of the message. -/
def decodeAndVerifyNetworkSeed (header : GoString) (expected : Bytes) : Outcome Error Bytes :=
  match hex.DecodeString header with
  | none => .error (.other "Failed to decode received network seed")
  | some seed =>
    if expected.length > 0 ∧ ¬ expected = seed then .error (.NetworkSeedMismatchError seed)
    else .ok seed

def newError (code : Int) (msg : String) (seed : Bytes) : Error :=
  if code = 404 then .NotFoundError msg
  else if code = 400 then .BadRequestError msg
  else if code = 412 then .NetworkSeedMismatchError seed
  else if code = 500 then .ServerError msg
  else .other ("Read request failed (" ++ toString code ++ "): " ++ msg)

/-- The response to a request, as the client reads it: status code, the value of the seed
header, and the JSON-decoded body (`none` when the JSON decoder fails). -/
structure ReadResponse where
  StatusCode : Int
  seedHeader : GoString
  body : Option rest.ReadResult
  deriving DecidableEq, Repr

/-- The part of `ReadTransactions` after the request has been answered: from the parsing of
the body to the return. The text of a decoder's error is left out of the message. -/
def readResponse (req : ReadRequest) (resp : ReadResponse) : Outcome Error ReadResult :=
  match resp.body with
  | none => .error (.other "Failed to decode response")
  | some res =>
    if resp.StatusCode ≠ 200 then
      match decodeAndVerifyNetworkSeed resp.seedHeader [] with
      | .ok seed => .error (newError resp.StatusCode res.Error seed)
      | _ => .error (newError resp.StatusCode res.Error [])
    else
      match decodeAndVerifyNetworkSeed resp.seedHeader req.NetworkSeed with
      | .error e => .error e
      | .panic => .panic
      | .ok seed =>
        if res.FirstIndex ≠ req.Index then
          .error (.other ("Unexpected \"first_index\" (got " ++ toString res.FirstIndex ++
            ", expected " ++ toString req.Index ++ ")"))
        else
          match rest.DecodeSequencedTransactions res.Transactions with
          | .error _ => .error (.other "Failed to decode transactions")
          | .panic => .panic
          | .ok txs =>
            match txs with
            | tx :: _ =>
              if tx.Index ≠ req.Index then
                .error (.other ("Unexpected index of first tx (got " ++ toString tx.Index ++
                  ", expected " ++ toString req.Index ++ ")"))
              else .ok ⟨seed, txs⟩
            | [] => .ok ⟨seed, txs⟩

/-- The options of a client that a read call consults (`options.go`); durations are in
nanoseconds. -/
structure options where
  maxCount : Int
  callTimeout : Int
  pollTimeout : Int
  appendTimeout : Int
  deriving DecidableEq, Repr

def defaultOptions : options :=
  { maxCount := 100, pollTimeout := 10 * 1000000000, appendTimeout := 10 * 1000000000,
    callTimeout := 2 * 1000000000 }

/-- What `genReadContextAndURL` returns: the deadline of the context, and the URL by its
parts, which are the index of the path and the parameters `max_count` and `timeout` of the
query. -/
structure ReadCall where
  deadline : Int
  index : Int
  max_count : Int
  timeout : Int
  deriving DecidableEq, Repr

/-- The least `time.Duration`: the least `int64`. -/
def minDuration : Int := -9223372036854775808

/-- The greatest `time.Duration`: the greatest `int64`. -/
def maxDuration : Int := 9223372036854775807

/-- The method `Time.Sub`, on times given in nanoseconds on the time axis: the difference
`t - u`, and the greatest or the least `Duration` when the difference does not fit one. -/
def timeSub (t u : Int) : Int :=
  if t - u > maxDuration then maxDuration
  else if t - u < minDuration then minDuration
  else t - u

/-- The sum of two `time.Duration` values: the addition of `int64`, which wraps around. -/
def addDuration (a b : Int) : Int :=
  (a + b + 9223372036854775808) % 18446744073709551616 - 9223372036854775808

/-- The function `genReadContextAndURL`, for a host that parses. The context is given by its
deadline (`none` when it has none) and `now` is the reading of the clock, which either branch
takes once (`time.Now()`, or within `context.WithTimeout`, which sets the deadline
`time.Now().Add(timeout)`); both are nanoseconds on the time axis, where a `time.Time` has
room beyond any `Duration` from the clock's reading. The durations are `int64`: their sum
wraps around, `Time.Sub` saturates, and the division truncates toward zero. -/
def genReadContextAndURL (o : options) (now : Int) (deadline : Option Int) (req : ReadRequest) :
    ReadCall :=
  let count := if req.Count ≤ 0 then o.maxCount else req.Count
  match deadline with
  | some d =>
    { deadline := d, index := req.Index, max_count := count,
      timeout := (timeSub d now).tdiv 2 }
  | none =>
    { deadline := now + addDuration o.pollTimeout o.callTimeout, index := req.Index,
      max_count := count, timeout := o.pollTimeout }

end client

/-! ## Package `scanner` -/

namespace scanner

open api

/-- The options of a scanner that `Scan` reads (`options.go`). -/
structure options where
  filter : Bool
  transactionType : GoString
  retries : Int
  retryPeriod : Int
  deriving DecidableEq, Repr

def defaultOptions : options :=
  { filter := false, transactionType := [], retries := 0, retryPeriod := 5 * 1000000000 }

def InfiniteRetries : Int := -1

/-- The interface `Client`, over a client with states `σ`. -/
structure Client (σ : Type) where
  ReadTransactions : σ → ReadRequest → σ × Outcome Error ReadResult

/-- The state of the goroutine of `Scan`: the client, the field `s.err`, the variables
`index` and `retried`, and what it has done so far: the transactions sent on `results` (a
receiver takes each one), the requests made to the client, the number of sleeps, whether
`results` has been closed, and whether the goroutine has panicked. -/
structure ScanState (σ : Type) where
  client : σ
  err : Option Error
  index : Int
  retried : Int
  emitted : List SequencedTransaction
  reads : List ReadRequest
  sleeps : Nat
  closed : Bool
  crashed : Bool

/-- The inner loop of `Scan` over the transactions of a result; its `break` ends this loop. -/
def emitLoop {σ : Type} (o : options) (s : ScanState σ) : List SequencedTransaction → ScanState σ
  | [] => s
  | tx :: rest =>
    if tx.Index ≠ s.index then
      { s with err := some (.other ("Unexpected transaction index (expected " ++
          toString s.index ++ ", got " ++ toString tx.Index ++ ")")) }
    else
      emitLoop o
        { s with
          emitted := if ! o.filter || tx.Typ = o.transactionType then s.emitted ++ [tx]
            else s.emitted
          index := s.index + 1 } rest

/-- The outer loop of `Scan`, for at most `fuel` iterations, and the `close(results)` after
it. A state that is neither closed nor crashed is a goroutine still in the loop. -/
def scanLoop {σ : Type} (o : options) (c : Client σ) (seed : Bytes) :
    Nat → ScanState σ → ScanState σ
  | 0, s => s
  | fuel + 1, s =>
    match c.ReadTransactions s.client ⟨seed, s.index, 0⟩ with
    | (cl, .error e) =>
      if o.retries > s.retried ∨ o.retries = InfiniteRetries then
        scanLoop o c seed fuel
          { s with client := cl, reads := s.reads ++ [⟨seed, s.index, 0⟩],
                   retried := s.retried + 1, sleeps := s.sleeps + 1 }
      else
        { s with client := cl, reads := s.reads ++ [⟨seed, s.index, 0⟩], err := some e,
                 closed := true }
    | (cl, .panic) =>
      { s with client := cl, reads := s.reads ++ [⟨seed, s.index, 0⟩], crashed := true }
    | (cl, .ok res) =>
      scanLoop o c seed fuel
        (emitLoop o { s with client := cl, reads := s.reads ++ [⟨seed, s.index, 0⟩],
                             retried := 0 } res.Transactions)

/-- The call `Scan(index, seed)` on a scanner whose field `err` holds `err`, run for at
most `fuel` iterations of its loop. -/
def Scan {σ : Type} (o : options) (c : Client σ) (client : σ) (err : Option Error)
    (index : Int) (seed : Bytes) (fuel : Nat) : ScanState σ :=
  scanLoop o c seed fuel
    { client := client, err := err, index := index, retried := 0, emitted := [], reads := [],
      sleeps := 0, closed := false, crashed := false }

/-- The reads of `req` made one after the other, the first in the client's state `st`, fail
with the errors `es`, in this order. -/
def failsWith {σ : Type} (c : Client σ) (req : ReadRequest) : σ → List Error → Prop
  | _, [] => True
  | st, e :: es =>
    (c.ReadTransactions st req).2 = .error e ∧ failsWith c req (c.ReadTransactions st req).1 es

/-- The reads made one after the other, the first in the client's state `st` for `index` and
each next one for the index after the transactions received so far, succeed with the results
`rs`, in this order. -/
def succeedsWith {σ : Type} (c : Client σ) (seed : Bytes) : σ → Int → List ReadResult → Prop
  | _, _, [] => True
  | st, index, r :: rs =>
    (c.ReadTransactions st ⟨seed, index, 0⟩).2 = .ok r ∧
    succeedsWith c seed (c.ReadTransactions st ⟨seed, index, 0⟩).1
      (index + r.Transactions.length) rs

/-- The transactions have the indexes `index`, `index + 1`, and so on. -/
def contiguous : Int → List SequencedTransaction → Prop
  | _, [] => True
  | index, tx :: rest => tx.Index = index ∧ contiguous (index + 1) rest

/-- All the transactions of a sequence of results, in the order received. -/
def received (rs : List ReadResult) : List SequencedTransaction :=
  rs.flatMap fun r => r.Transactions

end scanner

/-! ## Inputs of the tests and examples -/

namespace sample

open api mock

/-- A seed of 32 bytes. -/
def seed : Bytes := str "0123456789abcdef0123456789abcdef"

/-- A transaction as the tests build it: data only, no type, no hash. -/
def unhashed (s : String) : UnsequencedTransaction := { Typ := [], Data := str s, Hash := [] }

/-- A transaction as the gateway hands it to the ledger: with the hash of its content. -/
def hashed (s : String) : UnsequencedTransaction :=
  { Typ := [], Data := str s, Hash := SHA256.Sum256 (str s) }

def clock (j : Nat) : Int := 1473412023099563000 + j

def call (sd : Bytes) (txs : List UnsequencedTransaction) : AppendCall :=
  { req := { NetworkSeed := sd, Transactions := txs }, now := clock }

/-- Two batches, the first without a seed, the second with the ledger's seed. -/
def batches : List AppendCall :=
  [call [] [unhashed "a", unhashed "b"], call seed [unhashed "c"]]

/-- The appends of `ExampleVerifyStateHash`: `semper`, then `fidelis`, as two calls. -/
def semperFidelis : List AppendCall := [call seed [hashed "semper"], call seed [hashed "fidelis"]]

/-- The appends of `ExampleAppendRead`: four calls of one transaction each. -/
def greek : List AppendCall :=
  [call seed [hashed "alpha"], call seed [hashed "beta"], call seed [hashed "gamma"],
    call seed [hashed "delta"]]

/-- The ledger of `ExampleAppendRead` after its four appends. -/
def greekLedger : Ledger := (NewLedger seed).runAppends greek

/-- The ledger of `TestReadTooFarAhead`: one append of 100 transactions. -/
def hundred : Ledger := (NewLedger seed).runAppends [call seed (List.replicate 100 (unhashed "x"))]

/-- The transaction of the body of `TestServerAppendOK`: the letter `A`, with its hash. -/
def letterA : rest.EncodedUnsequencedTransaction :=
  { Typ := [], Data := str "QQ==",
    Hash := str "559aead08264d5795d3909718cdd05abd49572e84fe55590eef31a88a08fdffd" }

/-- The transaction of the body of `TestServerAppendBadHash`: the last digit of the hash is
changed. -/
def letterABadHash : rest.EncodedUnsequencedTransaction :=
  { Typ := [], Data := str "QQ==",
    Hash := str "559aead08264d5795d3909718cdd05abd49572e84fe55590eef31a88a08fdffe" }

/-- The first transaction of the response of `mockReadServer` (`client_test.go`). -/
def someText : rest.EncodedSequencedTransaction :=
  { Typ := [], Index := 1, Timestamp := 1473418802676551328, Data := str "c29tZSB0ZXh0",
    Hash := str "b94f6f125c79e3a5ffaa826f584c10d52ada669e6762051b826b55776d05aed2",
    StateHash := str "71a8e55edefe53f703646a679e66799cfef657b98474ff2e4148c3a1ea43169c" }

/-- The second transaction of the response of `mockReadServer`. -/
def someOtherText : rest.EncodedSequencedTransaction :=
  { Typ := [], Index := 2, Timestamp := 1473418805474658817, Data := str "c29tZSBvdGhlciB0ZXh0",
    Hash := str "c08f2787f00de82881987c0b79f48be91fd0e123a3a4fc74344eb84ea52623ae",
    StateHash := str "39d9bd47d14b48a7dab2764fdd53ea7577cfc1d02571cbfa77444abad13c1dde" }

/-- The function `MockTypedSequencedTransaction` of `test/utils/data_gen.go`. -/
def MockTypedSequencedTransaction (t : GoString) (index : Int) : SequencedTransaction :=
  { Typ := t, Index := index, Timestamp := index * 1000000000,
    Data := str ("data " ++ toString index),
    Hash := SHA256.Sum256 (t ++ str ("data " ++ toString index)),
    StateHash := str "mock-state-hash" }

def MockSequencedTransaction (index : Int) : SequencedTransaction :=
  MockTypedSequencedTransaction [] index

/-- The client `mockClient` of `scanner_test.go`; its state is the list of the results it
has left. -/
def mockClient : scanner.Client (List ReadResult) where
  ReadTransactions := fun results req =>
    match results with
    | r :: left =>
      if ¬ r.NetworkSeed = req.NetworkSeed then (left, .error (.other "Network seed mismatch"))
      else (left, .ok r)
    | [] => ([], .error (.other "done"))

/-- A client that answers every read with transaction 2. -/
def stuckClient : scanner.Client Unit where
  ReadTransactions := fun _ _ => ((), .ok ⟨str "some seed", [MockSequencedTransaction 2]⟩)

/-- The results of the client of `TestScannerBadIndex`. -/
def badIndexResults : List ReadResult :=
  [{ NetworkSeed := str "some seed",
     Transactions := [MockSequencedTransaction 2, MockSequencedTransaction 3] }]

/-- The response of `mockReadServer` (`client_test.go`): transactions 1 and 2, seed
`some seed` in upper-case digits. -/
def readServerResponse : client.ReadResponse :=
  { StatusCode := 200, seedHeader := str "736F6D652073656564",
    body := some { FirstIndex := 1, Transactions := [someText, someOtherText], LastIndex := 2,
                   Error := "" } }

/-- The response of `mockReadServer` with the second state hash replaced by the first. -/
def unchainedResponse : client.ReadResponse :=
  { StatusCode := 200, seedHeader := str "736F6D652073656564",
    body := some { FirstIndex := 1, LastIndex := 2, Error := "",
                   Transactions := [someText,
                     { someOtherText with StateHash := someText.StateHash }] } }

/-- The hash of the transaction of `mockBadReadServer`. -/
def badHash : GoString :=
  str "b94f6f125c79e3a5ffaa826f584c10d52ada669e6762051b826b55776d05aed3"

/-- The response of `mockBadReadServer` (`client_test.go`): the hash of the transaction is
wrong in its last digit. -/
def badReadServerResponse : client.ReadResponse :=
  { StatusCode := 200, seedHeader := str "736F6D652073656564",
    body := some { FirstIndex := 1, LastIndex := 2, Error := "",
                   Transactions := [{ someText with Hash := badHash }] } }

/-- A ledger that answers every call with the error `e`; its state counts the calls. -/
def failing (e : Error) : LedgerServer Nat where
  ReadTransactions := fun n _ _ => (n + 1, .error e)
  AppendTransactions := fun n _ => (n + 1, .error e)

/-- The request of `TestServerAppendOK`: the letter `A`, with the seed `right seed`. -/
def appendOK : rest.AppendHTTP :=
  { form := some none, seedHeader := str "72696768742073656564",
    body := some { Transactions := [some letterA] } }

/-- The request of `TestServerAppendBadHash`: no seed, a wrong hash. -/
def appendBadHash : rest.AppendHTTP :=
  { form := some none, seedHeader := [],
    body := some { Transactions := [some letterABadHash] } }

/-- The request of `TestServerAppendBadHash` with the body
`{"transactions":[null,{"data":"QQ==","hash":"559a...fffe"}]}`: an element `null` before the
transaction with the wrong hash. -/
def appendNullBadHash : rest.AppendHTTP :=
  { form := some none, seedHeader := [],
    body := some { Transactions := [none, some letterABadHash] } }

/-- The request of `TestServerAsyncWrite`: the letter `A`, with `async=true`. -/
def appendAsync : rest.AppendHTTP :=
  { form := some (some true), seedHeader := [],
    body := some { Transactions := [some letterA] } }

/-- The gateway in front of a fresh mock ledger, with the default options. -/
def gateway : rest.Server mock.Ledger := { ledger := mock.server clock, options := rest.defaultOptions }

/-- A read request for `index` without parameters and without a seed. -/
def readAt (index : Nat) : rest.ReadHTTP :=
  { index := index, form := some { max_count := none, metadata_only := none, timeout := none },
    seedHeader := [] }

/-- The ledger `dummyLedger` of `rest_test.go`; its state is the field `lastReq` (`none`
before the first read), and the field `lastDeadline` is left out. -/
def dummyLedger : LedgerServer (Option ReadRequest) where
  ReadTransactions := fun _ _ req =>
    (some req,
      if req.Index < 100 then
        .ok ⟨str "seed", [MockSequencedTransaction req.Index,
          MockSequencedTransaction (req.Index + 1)]⟩
      else .error (.NotFoundError "Requested index is too far in the future"))
  AppendTransactions := fun last req =>
    if req.NetworkSeed = str "right seed" then (last, .ok ⟨str "right seed", 234⟩)
    else (last, .error (.NetworkSeedMismatchError (str "right seed")))

/-- The request of `TestServerReadParams`: index 1 with `max_count=42` and `timeout=12345`. -/
def readParams : rest.ReadHTTP :=
  { index := 1, seedHeader := [],
    form := some { max_count := some 42, metadata_only := none, timeout := some 12345 } }

/-- A read request for `index` with `max_count=-1` and without a seed. -/
def readNegative (index : Nat) : rest.ReadHTTP :=
  { index := index, seedHeader := [],
    form := some { max_count := some (-1), metadata_only := none, timeout := none } }

/-- The results of the client of `TestScannerOK`. -/
def okResults : List ReadResult :=
  [{ NetworkSeed := str "some seed",
     Transactions := [MockSequencedTransaction 1, MockSequencedTransaction 2] },
   { NetworkSeed := str "some seed", Transactions := [MockSequencedTransaction 3] }]

/-- The results of the client of `TestScannerWithType`. -/
def withTypeResults : List ReadResult :=
  [{ NetworkSeed := [],
     Transactions := [MockTypedSequencedTransaction (str "a") 1,
       MockTypedSequencedTransaction (str "b") 2, MockTypedSequencedTransaction [] 3,
       MockTypedSequencedTransaction (str "a") 4] }]

/-- The results of the client of `TestScannerWithFilter`. -/
def withFilterResults : List ReadResult :=
  [{ NetworkSeed := [],
     Transactions := [MockTypedSequencedTransaction (str "a") 1,
       MockTypedSequencedTransaction (str "b") 2, MockTypedSequencedTransaction (str "a") 3] }]

/-- The options of the scanner of `TestScannerWithFilter`: `WithTypeFilter("a")`. -/
def filterA : scanner.options :=
  { scanner.defaultOptions with filter := true, transactionType := str "a" }

end sample

/-! ## Properties of the log -/

namespace mock

open api

theorem lastStateHash_append (sh : Bytes) (xs ys : List SequencedTransaction) :
    lastStateHash sh (xs ++ ys) = lastStateHash (lastStateHash sh xs) ys := by
  induction xs generalizing sh with
  | nil => rfl
  | cons x xs ih => simpa [lastStateHash] using ih x.StateHash

theorem chainFrom_append (sh : Bytes) (xs ys : List SequencedTransaction) :
    chainFrom sh (xs ++ ys) ↔ chainFrom sh xs ∧ chainFrom (lastStateHash sh xs) ys := by
  induction xs generalizing sh with
  | nil => simp [chainFrom, lastStateHash]
  | cons x xs ih => simp [chainFrom, lastStateHash, ih, and_assoc]

theorem chainFrom_entries (sh : Bytes) (index : Int) (now : Nat → Int) (j : Nat)
    (txs : List UnsequencedTransaction) : chainFrom sh (entries sh index now j txs) := by
  induction txs generalizing sh index j with
  | nil => trivial
  | cons tx rest ih => exact ⟨rfl, ih _ _ _⟩

theorem entries_length (sh : Bytes) (index : Int) (now : Nat → Int) (j : Nat)
    (txs : List UnsequencedTransaction) : (entries sh index now j txs).length = txs.length := by
  induction txs generalizing sh index j with
  | nil => rfl
  | cons tx rest ih => simp [entries, ih]

theorem entries_content (sh : Bytes) (index : Int) (now : Nat → Int) (j : Nat)
    (txs : List UnsequencedTransaction) : (entries sh index now j txs).map content = txs := by
  induction txs generalizing sh index j with
  | nil => rfl
  | cons tx rest ih => simp [entries, ih, content]

theorem entries_index (sh : Bytes) (index : Int) (now : Nat → Int) (j : Nat)
    (txs : List UnsequencedTransaction) (k : Nat) (hk : k < (entries sh index now j txs).length) :
    ((entries sh index now j txs)[k]).Index = index + k := by
  induction txs generalizing sh index j k with
  | nil => simp [entries] at hk
  | cons tx rest ih =>
    cases k with
    | zero => simp [entries]
    | succ k =>
      simp only [entries, List.getElem_cons_succ]
      rw [ih]
      push_cast
      ring

theorem appendLoop_eq (l : Ledger) (index : Int) (now : Nat → Int) (j : Nat)
    (txs : List UnsequencedTransaction) :
    l.appendLoop index now j txs =
      { l with
        data := l.data ++ entries l.stateHash index now j txs
        stateHash := lastStateHash l.stateHash (entries l.stateHash index now j txs) } := by
  induction txs generalizing l index j with
  | nil => simp [Ledger.appendLoop, entries, lastStateHash]
  | cons tx rest ih =>
    simp [Ledger.appendLoop, ih, Ledger.appendOne, entries, lastStateHash]

theorem verifySeed_eq_false (l : Ledger) (seed : Bytes) :
    l.verifySeed seed = false ↔ seed ≠ [] ∧ seed ≠ l.seed := by
  unfold Ledger.verifySeed
  cases seed with
  | nil => simp
  | cons b bs => simp

theorem verifySeed_eq_true (l : Ledger) (seed : Bytes) :
    l.verifySeed seed = true ↔ seed = [] ∨ seed = l.seed := by
  unfold Ledger.verifySeed
  cases seed with
  | nil => simp
  | cons b bs => simp

theorem verifySeed_congr {l l1 : Ledger} (h : l1.seed = l.seed) (seed : Bytes) :
    l1.verifySeed seed = l.verifySeed seed := by
  simp [Ledger.verifySeed, h]

theorem AppendTransactions_accept (l : Ledger) (now : Nat → Int) (req : AppendRequest)
    (h : l.verifySeed req.NetworkSeed = true) :
    l.AppendTransactions now req =
      ({ data := l.data ++ entries l.stateHash ((l.data.length : Int) + 1) now 0 req.Transactions
         seed := l.seed
         stateHash := lastStateHash l.stateHash
           (entries l.stateHash ((l.data.length : Int) + 1) now 0 req.Transactions)
         newData := l.newData + 1 },
       .ok ⟨l.seed, (l.data.length : Int) + req.Transactions.length⟩) := by
  simp [Ledger.AppendTransactions, h, appendLoop_eq, entries_length]

theorem AppendTransactions_reject (l : Ledger) (now : Nat → Int) (req : AppendRequest)
    (h : l.verifySeed req.NetworkSeed = false) :
    l.AppendTransactions now req = (l, .error (.NetworkSeedMismatchError l.seed)) := by
  simp [Ledger.AppendTransactions, h]

theorem AppendTransactions_seed (l : Ledger) (now : Nat → Int) (req : AppendRequest) :
    (l.AppendTransactions now req).1.seed = l.seed := by
  cases h : l.verifySeed req.NetworkSeed
  · rw [AppendTransactions_reject l now req h]
  · rw [AppendTransactions_accept l now req h]

theorem AppendTransactions_inv (l : Ledger) (now : Nat → Int) (req : AppendRequest)
    (hl : l.Inv) : (l.AppendTransactions now req).1.Inv := by
  cases h : l.verifySeed req.NetworkSeed
  · rw [AppendTransactions_reject l now req h]; exact hl
  · rw [AppendTransactions_accept l now req h]
    refine ⟨?_, ?_, ?_⟩
    · intro k hk
      simp only at hk ⊢
      by_cases hlt : k < l.data.length
      · rw [List.getElem_append_left hlt]; exact hl.index k hlt
      · rw [List.getElem_append_right (Nat.le_of_not_lt hlt), entries_index]
        have : l.data.length ≤ k := Nat.le_of_not_lt hlt
        omega
    · simp only [chainFrom_append]
      refine ⟨hl.chain, ?_⟩
      rw [← hl.running]
      exact chainFrom_entries _ _ _ _ _
    · simp only [lastStateHash_append]
      rw [← hl.running]

theorem NewLedger_inv (seed : Bytes) : (NewLedger seed).Inv :=
  ⟨fun k hk => by simp [NewLedger] at hk, trivial, rfl⟩

theorem runAppends_inv (l : Ledger) (calls : List AppendCall) (hl : l.Inv) :
    (l.runAppends calls).Inv := by
  induction calls generalizing l with
  | nil => exact hl
  | cons c rest ih => exact ih _ (AppendTransactions_inv l c.now c.req hl)

theorem runAppends_seed (l : Ledger) (calls : List AppendCall) :
    (l.runAppends calls).seed = l.seed := by
  induction calls generalizing l with
  | nil => rfl
  | cons c rest ih => simp [Ledger.runAppends, ih, AppendTransactions_seed]

theorem Reachable.inv {seed : Bytes} {l : Ledger} (h : Reachable seed l) : l.Inv := by
  induction h with
  | fresh => exact NewLedger_inv seed
  | append now req _ ih => exact AppendTransactions_inv _ now req ih

theorem Reachable.seed_eq {seed : Bytes} {l : Ledger} (h : Reachable seed l) : l.seed = seed := by
  induction h with
  | fresh => rfl
  | append now req _ ih => rw [AppendTransactions_seed]; exact ih

end mock

/-! ## Sequences of appends -/

namespace mock

open api

theorem runAppends_append (l : Ledger) (xs ys : List AppendCall) :
    l.runAppends (xs ++ ys) = (l.runAppends xs).runAppends ys := by
  induction xs generalizing l with
  | nil => rfl
  | cons c rest ih => simp [Ledger.runAppends, ih]

theorem runAppends_content (l : Ledger) (calls : List AppendCall)
    (hseed : ∀ c ∈ calls, l.verifySeed c.req.NetworkSeed = true) :
    (l.runAppends calls).data.map content = l.data.map content ++ appended calls := by
  induction calls generalizing l with
  | nil => simp [Ledger.runAppends, appended]
  | cons c rest ih =>
    have hc : l.verifySeed c.req.NetworkSeed = true := hseed c (List.mem_cons_self _ _)
    have hs : (l.AppendTransactions c.now c.req).1.seed = l.seed := AppendTransactions_seed _ _ _
    have hrest : ∀ d ∈ rest,
        (l.AppendTransactions c.now c.req).1.verifySeed d.req.NetworkSeed = true := by
      intro d hd
      rw [verifySeed_congr hs]
      exact hseed d (List.mem_cons_of_mem _ hd)
    simp only [Ledger.runAppends, appended]
    rw [ih _ hrest, AppendTransactions_accept l c.now c.req hc]
    simp [entries_content]

theorem runAppends_length (l : Ledger) (calls : List AppendCall)
    (hseed : ∀ c ∈ calls, l.verifySeed c.req.NetworkSeed = true) :
    (l.runAppends calls).data.length = l.data.length + (appended calls).length := by
  have h := congrArg List.length (runAppends_content l calls hseed)
  simpa using h

theorem runAppends_take_succ (l : Ledger) (calls : List AppendCall) (n : Nat)
    (hn : n < calls.length) :
    l.runAppends (calls.take (n + 1)) =
      ((l.runAppends (calls.take n)).AppendTransactions (calls[n]).now (calls[n]).req).1 := by
  rw [List.take_succ, runAppends_append]
  simp [List.getElem?_eq_getElem hn, Ledger.runAppends]

theorem chainFrom_head (sh : Bytes) (xs : List SequencedTransaction) (h : chainFrom sh xs)
    (h0 : 0 < xs.length) : (xs[0]).StateHash = SHA256.Sum256 (sh ++ (xs[0]).Hash) := by
  cases xs with
  | nil => simp at h0
  | cons x rest => exact h.1

theorem chainFrom_step (sh : Bytes) (xs : List SequencedTransaction) (h : chainFrom sh xs)
    (k : Nat) (hk : k + 1 < xs.length) :
    (xs[k + 1]).StateHash = SHA256.Sum256 ((xs[k]).StateHash ++ (xs[k + 1]).Hash) := by
  induction xs generalizing sh k with
  | nil => simp at hk
  | cons x rest ih =>
    cases k with
    | zero =>
      have h0 : 0 < rest.length := by simpa using hk
      simpa using chainFrom_head x.StateHash rest h.2 h0
    | succ k =>
      have hk1 : k + 1 < rest.length := by simpa using hk
      simpa using ih x.StateHash h.2 k hk1

/-- C1. Starting from a fresh ledger, after any sequence of `AppendTransactions` calls that
pass the seed check, the log holds exactly the appended transactions in append order, the
`k`-th stored transaction (counting from 1) has `Index = k`, and every call returns
`LastIndex` = the log length after it = the length before it plus the batch size. -/
theorem append_index_sequence (seed : Bytes) (calls : List AppendCall)
    (hseed : ∀ c ∈ calls, (NewLedger seed).verifySeed c.req.NetworkSeed = true) :
    ((NewLedger seed).runAppends calls).data.length = (appended calls).length ∧
    ((NewLedger seed).runAppends calls).data.map content = appended calls ∧
    (∀ (k : Nat) (hk : k < ((NewLedger seed).runAppends calls).data.length),
      (((NewLedger seed).runAppends calls).data[k]).Index = (k : Int) + 1) ∧
    (∀ (n : Nat) (hn : n < calls.length),
      ((NewLedger seed).runAppends (calls.take n)).AppendTransactions (calls[n]).now (calls[n]).req =
        ((NewLedger seed).runAppends (calls.take (n + 1)),
          .ok ⟨seed, (((NewLedger seed).runAppends (calls.take (n + 1))).data.length : Int)⟩) ∧
      ((NewLedger seed).runAppends (calls.take (n + 1))).data.length =
        ((NewLedger seed).runAppends (calls.take n)).data.length +
          (calls[n]).req.Transactions.length) := by
  refine ⟨?_, ?_, ?_, ?_⟩
  · simpa [NewLedger] using runAppends_length (NewLedger seed) calls hseed
  · simpa [NewLedger] using runAppends_content (NewLedger seed) calls hseed
  · exact (runAppends_inv _ calls (NewLedger_inv seed)).index
  · intro n hn
    have hs : ((NewLedger seed).runAppends (calls.take n)).seed = seed := by
      rw [runAppends_seed]; rfl
    have hv : ((NewLedger seed).runAppends (calls.take n)).verifySeed
        (calls[n]).req.NetworkSeed = true := by
      rw [verifySeed_congr (l := NewLedger seed) (by rw [hs]; rfl)]
      exact hseed _ (List.getElem_mem _)
    rw [runAppends_take_succ _ calls n hn, AppendTransactions_accept _ _ _ hv]
    simp [hs, entries_length]

/-- C2. Chain law: after any sequence of successful `AppendTransactions` calls on a fresh
ledger, the stored hashes are those carried by the appended transactions, the first stored
transaction has `StateHash = SHA256(Hash)` and every later one has
`StateHash = SHA256(previous StateHash ++ Hash)`, whatever the batch boundaries. -/
theorem chain_law (seed : Bytes) (calls : List AppendCall)
    (hseed : ∀ c ∈ calls, (NewLedger seed).verifySeed c.req.NetworkSeed = true) :
    ((NewLedger seed).runAppends calls).data.map (fun tx => tx.Hash) =
      (appended calls).map (fun tx => tx.Hash) ∧
    (∀ (h0 : 0 < ((NewLedger seed).runAppends calls).data.length),
      (((NewLedger seed).runAppends calls).data[0]).StateHash =
        SHA256.Sum256 (((NewLedger seed).runAppends calls).data[0]).Hash) ∧
    (∀ (k : Nat) (hk : k + 1 < ((NewLedger seed).runAppends calls).data.length),
      (((NewLedger seed).runAppends calls).data[k + 1]).StateHash =
        SHA256.Sum256 ((((NewLedger seed).runAppends calls).data[k]).StateHash ++
          (((NewLedger seed).runAppends calls).data[k + 1]).Hash)) := by
  have hinv := runAppends_inv _ calls (NewLedger_inv seed)
  refine ⟨?_, ?_, ?_⟩
  · have h := runAppends_content (NewLedger seed) calls hseed
    have h2 := congrArg (List.map fun tx : UnsequencedTransaction => tx.Hash) h
    simpa [NewLedger, content, Function.comp_def] using h2
  · intro h0
    simpa using chainFrom_head [] _ hinv.chain h0
  · intro k hk
    exact chainFrom_step [] _ hinv.chain k hk

end mock

namespace mock

open api

/-- Witness of C1: two batches, of two and of one transaction. -/
theorem append_index_sequence_witness :
    (∀ c ∈ sample.batches, (NewLedger sample.seed).verifySeed c.req.NetworkSeed = true) ∧
    ((NewLedger sample.seed).runAppends sample.batches).data.length = 3 ∧
    (∀ (k : Nat) (hk : k < ((NewLedger sample.seed).runAppends sample.batches).data.length),
      (((NewLedger sample.seed).runAppends sample.batches).data[k]).Index = (k : Int) + 1) :=
  ⟨by decide, (append_index_sequence sample.seed sample.batches (by decide)).1,
    (append_index_sequence sample.seed sample.batches (by decide)).2.2.1⟩

/-- Witness of C2: `semper` then `fidelis` appended as two calls; the state hashes are those
printed by `ExampleVerifyStateHash`. -/
theorem chain_law_witness :
    (∀ c ∈ sample.semperFidelis, (NewLedger sample.seed).verifySeed c.req.NetworkSeed = true) ∧
    (∀ (k : Nat) (hk : k + 1 < ((NewLedger sample.seed).runAppends sample.semperFidelis).data.length),
      (((NewLedger sample.seed).runAppends sample.semperFidelis).data[k + 1]).StateHash =
        SHA256.Sum256 ((((NewLedger sample.seed).runAppends sample.semperFidelis).data[k]).StateHash ++
          (((NewLedger sample.seed).runAppends sample.semperFidelis).data[k + 1]).Hash)) ∧
    ((NewLedger sample.seed).runAppends sample.semperFidelis).data.map
        (fun tx => (hex.EncodeToString tx.Hash, hex.EncodeToString tx.StateHash)) =
      [(str "59aa9f6655437abe7a29fd1093641131b61d9f5c827141476a42169a64ecc04f",
        str "123a8b99fcce348cc9fa531ed641eccf9d8afb233e4ba8dbfacbd6a34035edfe"),
       (str "61b8fff6ea436d38e5f9641942f70eca2d40f2cfcbfc7945078b92a05250bda6",
        str "5a4613a6187bd0198279afaa89741bccf6273e25f80f3bdcae86c4bd5d59a95c")] :=
  ⟨by decide, (chain_law sample.seed sample.semperFidelis (by decide)).2.2, by decide⟩

end mock

/-! ## The seed check and reads -/

namespace mock

open api

theorem readLocked_ledger (l : Ledger) (ctx : Context) (req : ReadRequest) :
    (l.readLocked ctx req).1 = l := by
  unfold Ledger.readLocked
  split_ifs <;> rfl

theorem readResult_ledger (l : Ledger) (req : ReadRequest) : (l.readResult req).1 = l := by
  unfold Ledger.readResult
  split <;> rfl

theorem readResult_ne_error (l : Ledger) (req : ReadRequest) (e : Error) :
    (l.readResult req).2 ≠ .error e := by
  unfold Ledger.readResult
  split <;> simp

theorem readWoken_eq (l : Ledger) (ctx : Context) (req : ReadRequest) (waitCh : Nat)
    (r : Ledger × Outcome Error ReadResult) (h : l.readWoken ctx req waitCh = some r) :
    r = l.readResult req := by
  unfold Ledger.readWoken at h
  split_ifs at h
  exact (Option.some.inj h).symm

theorem readLocked_reject (l : Ledger) (ctx : Context) (req : ReadRequest)
    (h : l.verifySeed req.NetworkSeed = false) :
    l.readLocked ctx req = (l, .returned (.error (.NetworkSeedMismatchError l.seed))) := by
  simp [Ledger.readLocked, h]

/-- C3. Seed check: a request whose seed is non-empty and differs from the ledger's seed is
rejected by both `ReadTransactions` (in its first critical section, without waiting) and
`AppendTransactions` with a `NetworkSeedMismatchError` whose `CorrectSeed()` is the ledger's
seed, and the ledger (log, seed, running state hash) is unchanged; a request whose seed is
empty or equal to the ledger's seed is never answered with that error. -/
theorem seed_check (l : Ledger) (ctx : Context) (sd : Bytes) (index count : Int)
    (now : Nat → Int) (txs : List UnsequencedTransaction) :
    (sd ≠ [] ∧ sd ≠ l.seed →
      l.readLocked ctx ⟨sd, index, count⟩ =
        (l, .returned (.error (.NetworkSeedMismatchError l.seed))) ∧
      l.ReadTransactions ctx ⟨sd, index, count⟩ =
        some (l, .error (.NetworkSeedMismatchError l.seed)) ∧
      l.AppendTransactions now ⟨sd, txs⟩ = (l, .error (.NetworkSeedMismatchError l.seed)) ∧
      (Error.NetworkSeedMismatchError l.seed).CorrectSeed = some l.seed) ∧
    (sd = [] ∨ sd = l.seed →
      (∀ s, (l.readLocked ctx ⟨sd, index, count⟩).2 ≠
        .returned (.error (.NetworkSeedMismatchError s))) ∧
      (∀ (l1 : Ledger) (ctx1 : Context) (waitCh : Nat) (r : Ledger × Outcome Error ReadResult),
        l1.readWoken ctx1 ⟨sd, index, count⟩ waitCh = some r →
          ∀ s, r.2 ≠ .error (.NetworkSeedMismatchError s)) ∧
      (∀ s, (l.AppendTransactions now ⟨sd, txs⟩).2 ≠ .error (.NetworkSeedMismatchError s))) := by
  constructor
  · intro h
    have hv : l.verifySeed sd = false := (verifySeed_eq_false l sd).2 h
    refine ⟨readLocked_reject l ctx _ hv, ?_, AppendTransactions_reject l now ⟨sd, txs⟩ hv, rfl⟩
    simp [Ledger.ReadTransactions, readLocked_reject l ctx ⟨sd, index, count⟩ hv]
  · intro h
    have hv : l.verifySeed sd = true := (verifySeed_eq_true l sd).2 h
    refine ⟨?_, ?_, ?_⟩
    · intro s
      unfold Ledger.readLocked
      simp only [hv, Bool.not_true, Bool.false_eq_true, if_false]
      split_ifs <;> simp [readResult_ne_error]
    · intro l1 ctx1 waitCh r hr s
      rw [readWoken_eq l1 ctx1 _ waitCh r hr]
      exact readResult_ne_error _ _ _
    · intro s
      rw [AppendTransactions_accept l now ⟨sd, txs⟩ hv]
      simp

/-- Witness of C3: the request of `TestBadNetworkSeed` (seed `bad seed`) is rejected, a
request without a seed is not. -/
theorem seed_check_witness :
    (str "bad seed" ≠ [] ∧ str "bad seed" ≠ (NewLedger sample.seed).seed) ∧
    (NewLedger sample.seed).AppendTransactions sample.clock ⟨str "bad seed", [sample.unhashed "a"]⟩ =
      (NewLedger sample.seed, .error (.NetworkSeedMismatchError sample.seed)) ∧
    (([] : Bytes) = [] ∨ [] = (NewLedger sample.seed).seed) ∧
    (∀ s, ((NewLedger sample.seed).AppendTransactions sample.clock ⟨[], [sample.unhashed "a"]⟩).2 ≠
      .error (.NetworkSeedMismatchError s)) :=
  ⟨by decide,
   ((seed_check (NewLedger sample.seed) ⟨false⟩ (str "bad seed") 1 1 sample.clock
      [sample.unhashed "a"]).1 (by decide)).2.2.1,
   Or.inl rfl,
   ((seed_check (NewLedger sample.seed) ⟨false⟩ [] 1 1 sample.clock
      [sample.unhashed "a"]).2 (Or.inl rfl)).2.2⟩

theorem readData_available (l : Ledger) (index count : Int) (h1 : 1 ≤ index)
    (hL : index ≤ l.data.length) (hc : 0 ≤ count) :
    l.readData index count =
      some ((l.data.drop (index - 1).toNat).take
        (min count ((l.data.length : Int) - index + 1)).toNat) := by
  unfold Ledger.readData sliceOf
  have hcount : (if count > (l.data.length : Int) - (index - 1) then
      (l.data.length : Int) - (index - 1) else count) =
      min count ((l.data.length : Int) - index + 1) := by
    split_ifs <;> omega
  simp only [hcount]
  have hb : 0 ≤ index - 1 ∧ index - 1 ≤ index - 1 + min count ((l.data.length : Int) - index + 1) ∧
      index - 1 + min count ((l.data.length : Int) - index + 1) ≤ (l.data.length : Int) := by
    omega
  rw [if_pos hb]
  congr 3
  omega

/-- C4. A read at an index within the log (`1 ≤ index ≤ L`, `count ≥ 0`, seed accepted)
returns in its first critical section, without waiting and whatever the context, with no
error, the ledger's seed and the `min(count, L - index + 1)` stored transactions from
position `index` on, in order, whose indexes are `index, index + 1, ...`. -/
theorem read_available (seed : Bytes) (l : Ledger) (hl : Reachable seed l) (ctx : Context)
    (req : ReadRequest) (hseed : l.verifySeed req.NetworkSeed = true) (h1 : 1 ≤ req.Index)
    (hL : req.Index ≤ l.data.length) (hc : 0 ≤ req.Count) :
    l.readLocked ctx req =
      (l, .returned (.ok ⟨l.seed, (l.data.drop (req.Index - 1).toNat).take
        (min req.Count ((l.data.length : Int) - req.Index + 1)).toNat⟩)) ∧
    l.ReadTransactions ctx req =
      some (l, .ok ⟨l.seed, (l.data.drop (req.Index - 1).toNat).take
        (min req.Count ((l.data.length : Int) - req.Index + 1)).toNat⟩) ∧
    (((l.data.drop (req.Index - 1).toNat).take
        (min req.Count ((l.data.length : Int) - req.Index + 1)).toNat).length : Int) =
      min req.Count ((l.data.length : Int) - req.Index + 1) ∧
    (∀ (k : Nat) (hk : k < ((l.data.drop (req.Index - 1).toNat).take
        (min req.Count ((l.data.length : Int) - req.Index + 1)).toNat).length),
      (((l.data.drop (req.Index - 1).toNat).take
        (min req.Count ((l.data.length : Int) - req.Index + 1)).toNat)[k]).Index =
          req.Index + k) := by
  have hlocked : l.readLocked ctx req =
      (l, .returned (.ok ⟨l.seed, (l.data.drop (req.Index - 1).toNat).take
        (min req.Count ((l.data.length : Int) - req.Index + 1)).toNat⟩)) := by
    unfold Ledger.readLocked
    have h2 : ¬ req.Index > (l.data.length : Int) + 1 := by omega
    have h3 : ¬ req.Index = (l.data.length : Int) + 1 := by omega
    simp only [hseed, h2, h3, if_false, Bool.not_true, Bool.false_eq_true]
    simp [Ledger.readResult, readData_available l req.Index req.Count h1 hL hc]
  refine ⟨hlocked, ?_, ?_, ?_⟩
  · simp [Ledger.ReadTransactions, hlocked]
  · rw [List.length_take, List.length_drop]
    omega
  · intro k hk
    have hk2 : (req.Index - 1).toNat + k < l.data.length := by
      rw [List.length_take, List.length_drop] at hk
      omega
    rw [List.getElem_take, List.getElem_drop]
    rw [hl.inv.index _ hk2]
    omega

/-- C5. A read at `index > L + 1` (seed accepted) fails in its first critical section,
without waiting and whatever the context, with `NotFoundError`; it returns no transactions
and leaves the ledger unchanged. -/
theorem read_too_far_ahead (l : Ledger) (ctx : Context) (req : ReadRequest)
    (hseed : l.verifySeed req.NetworkSeed = true) (h : req.Index > (l.data.length : Int) + 1) :
    l.readLocked ctx req =
      (l, .returned (.error (.NotFoundError "Requested index is too far in the future"))) ∧
    l.ReadTransactions ctx req =
      some (l, .error (.NotFoundError "Requested index is too far in the future")) := by
  have hlocked : l.readLocked ctx req =
      (l, .returned (.error (.NotFoundError "Requested index is too far in the future"))) := by
    simp [Ledger.readLocked, hseed, h]
  exact ⟨hlocked, by simp [Ledger.ReadTransactions, hlocked]⟩

end mock

namespace mock

open api

theorem Reachable.runAppends {seed : Bytes} {l : Ledger} (h : Reachable seed l)
    (calls : List AppendCall) : Reachable seed (l.runAppends calls) := by
  induction calls generalizing l with
  | nil => exact h
  | cons c rest ih => exact ih (Reachable.append c.now c.req h)

/-- Witness of C4: after the appends of alpha, beta, gamma, delta, and with a context that
is already done, `read(2, 2)` yields beta, gamma and `read(1, 1)` yields alpha. -/
theorem read_available_witness :
    (sample.greekLedger.verifySeed sample.seed = true ∧ (1 : Int) ≤ 2 ∧
      (2 : Int) ≤ sample.greekLedger.data.length ∧ (0 : Int) ≤ 2) ∧
    (∃ txs, sample.greekLedger.ReadTransactions ⟨true⟩ ⟨sample.seed, 2, 2⟩ =
        some (sample.greekLedger, .ok ⟨sample.greekLedger.seed, txs⟩) ∧
      txs.map (fun tx => (tx.Index, tx.Data)) = [(2, str "beta"), (3, str "gamma")]) ∧
    (∃ txs, sample.greekLedger.ReadTransactions ⟨true⟩ ⟨sample.seed, 1, 1⟩ =
        some (sample.greekLedger, .ok ⟨sample.greekLedger.seed, txs⟩) ∧
      txs.map (fun tx => (tx.Index, tx.Data)) = [(1, str "alpha")]) :=
  ⟨by decide,
   ⟨_, (read_available sample.seed sample.greekLedger (Reachable.fresh.runAppends sample.greek)
      ⟨true⟩ ⟨sample.seed, 2, 2⟩ (by decide) (by decide) (by decide) (by decide)).2.1, by decide⟩,
   ⟨_, (read_available sample.seed sample.greekLedger (Reachable.fresh.runAppends sample.greek)
      ⟨true⟩ ⟨sample.seed, 1, 1⟩ (by decide) (by decide) (by decide) (by decide)).2.1, by decide⟩⟩

/-- Witness of C5: 100 transactions stored, read at index 102 (`TestReadTooFarAhead`). -/
theorem read_too_far_ahead_witness :
    (sample.hundred.verifySeed [] = true ∧ (102 : Int) > (sample.hundred.data.length : Int) + 1) ∧
    sample.hundred.ReadTransactions ⟨false⟩ ⟨[], 102, 1⟩ =
      some (sample.hundred, .error (.NotFoundError "Requested index is too far in the future")) :=
  ⟨by decide, (read_too_far_ahead sample.hundred ⟨false⟩ ⟨[], 102, 1⟩ (by decide) (by decide)).2⟩

end mock

/-! ## Waiting reads and the growth of the log -/

namespace mock

open api

theorem AppendTransactions_data (l : Ledger) (now : Nat → Int) (req : AppendRequest) :
    ∃ new, (l.AppendTransactions now req).1.data = l.data ++ new := by
  cases h : l.verifySeed req.NetworkSeed
  · rw [AppendTransactions_reject l now req h]; exact ⟨[], by simp⟩
  · rw [AppendTransactions_accept l now req h]; exact ⟨_, rfl⟩

theorem AppendTransactions_newData (l : Ledger) (now : Nat → Int) (req : AppendRequest) :
    l.newData ≤ (l.AppendTransactions now req).1.newData := by
  cases h : l.verifySeed req.NetworkSeed
  · rw [AppendTransactions_reject l now req h]
  · rw [AppendTransactions_accept l now req h]; exact Nat.le_succ _

theorem runAppends_data (l : Ledger) (calls : List AppendCall) :
    ∃ new, (l.runAppends calls).data = l.data ++ new := by
  induction calls generalizing l with
  | nil => exact ⟨[], by simp [Ledger.runAppends]⟩
  | cons c rest ih =>
    obtain ⟨n1, h1⟩ := AppendTransactions_data l c.now c.req
    obtain ⟨n2, h2⟩ := ih (l.AppendTransactions c.now c.req).1
    exact ⟨n1 ++ n2, by simp only [Ledger.runAppends, h2, h1, List.append_assoc]⟩

theorem runAppends_newData (l : Ledger) (calls : List AppendCall) :
    l.newData ≤ (l.runAppends calls).newData := by
  induction calls generalizing l with
  | nil => exact Nat.le_refl _
  | cons c rest ih =>
    exact Nat.le_trans (AppendTransactions_newData l c.now c.req) (ih _)

theorem readResult_available (l : Ledger) (req : ReadRequest) (h1 : 1 ≤ req.Index)
    (hL : req.Index ≤ l.data.length) (hc : 0 ≤ req.Count) :
    l.readResult req =
      (l, .ok ⟨l.seed, (l.data.drop (req.Index - 1).toNat).take
        (min req.Count ((l.data.length : Int) - req.Index + 1)).toNat⟩) := by
  simp [Ledger.readResult, readData_available l req.Index req.Count h1 hL hc]

theorem readResult_next (l : Ledger) (req : ReadRequest)
    (hidx : req.Index = (l.data.length : Int) + 1) (hc : 0 ≤ req.Count) :
    l.readResult req = (l, .ok ⟨l.seed, []⟩) := by
  unfold Ledger.readResult Ledger.readData sliceOf
  have hcount : (if req.Count > (l.data.length : Int) - (req.Index - 1) then
      (l.data.length : Int) - (req.Index - 1) else req.Count) = 0 := by
    split_ifs <;> omega
  simp only [hcount]
  have hb : 0 ≤ req.Index - 1 ∧ req.Index - 1 ≤ req.Index - 1 + 0 ∧
      req.Index - 1 + 0 ≤ (l.data.length : Int) := by omega
  rw [if_pos hb]
  simp

theorem readLocked_next (l : Ledger) (ctx : Context) (req : ReadRequest)
    (hseed : l.verifySeed req.NetworkSeed = true) (hidx : req.Index = (l.data.length : Int) + 1) :
    l.readLocked ctx req = (l, .waiting l.newData) := by
  simp [Ledger.readLocked, hseed, hidx]

/-- C6. A read at `index = L + 1` (seed accepted, `count ≥ 0`) waits on the current
new-data channel; while that channel is open and the context is not done it stays blocked;
when the deadline fires and no append has happened in between, it returns no error, the
ledger's seed and an empty transaction list. -/
theorem read_timeout (l : Ledger) (ctx : Context) (req : ReadRequest)
    (hseed : l.verifySeed req.NetworkSeed = true) (hidx : req.Index = (l.data.length : Int) + 1)
    (hc : 0 ≤ req.Count) :
    l.readLocked ctx req = (l, .waiting l.newData) ∧
    l.readWoken ⟨false⟩ req l.newData = none ∧
    l.readWoken ⟨true⟩ req l.newData = some (l, .ok ⟨l.seed, []⟩) ∧
    l.ReadTransactions ⟨true⟩ req = some (l, .ok ⟨l.seed, []⟩) := by
  have hw : l.readWoken ⟨true⟩ req l.newData = some (l, .ok ⟨l.seed, []⟩) := by
    simp [Ledger.readWoken, Ledger.selectReady, readResult_next l req hidx hc]
  refine ⟨readLocked_next l ctx req hseed hidx, ?_, hw, ?_⟩
  · simp [Ledger.readWoken, Ledger.selectReady]
  · simp [Ledger.ReadTransactions, readLocked_next l ⟨true⟩ req hseed hidx, hw]

/-- Witness of C6: the read of `TestPollTimeout` and `TestRealClock`, index 1 on a fresh
ledger. -/
theorem read_timeout_witness :
    ((NewLedger sample.seed).verifySeed [] = true ∧
      (1 : Int) = ((NewLedger sample.seed).data.length : Int) + 1 ∧ (0 : Int) ≤ 1) ∧
    (NewLedger sample.seed).ReadTransactions ⟨true⟩ ⟨[], 1, 1⟩ =
      some (NewLedger sample.seed, .ok ⟨(NewLedger sample.seed).seed, []⟩) :=
  ⟨by decide, (read_timeout (NewLedger sample.seed) ⟨false⟩ ⟨[], 1, 1⟩ (by decide) (by decide)
    (by decide)).2.2.2⟩

/-- C7. A read blocked at `index = L + 1` (seed accepted, `count ≥ 1`) is released, with
the context not done, as soon as an accepted `AppendTransactions` call has added `k ≥ 1`
transactions; on the ledger it finds when it takes the lock again (after that call and any
further calls) it returns no error and the `min(count, L' - L) ≥ 1` transactions stored
beyond the old log, in order, with indexes `L + 1, L + 2, ...`. -/
theorem read_woken_by_append (seed : Bytes) (l : Ledger) (hl : Reachable seed l) (ctx : Context)
    (req : ReadRequest) (hseed : l.verifySeed req.NetworkSeed = true)
    (hidx : req.Index = (l.data.length : Int) + 1) (hc : 1 ≤ req.Count)
    (c : AppendCall) (hcseed : l.verifySeed c.req.NetworkSeed = true)
    (hk : 1 ≤ c.req.Transactions.length) (more : List AppendCall) :
    l.readLocked ctx req = (l, .waiting l.newData) ∧
    (l.AppendTransactions c.now c.req).1.selectReady ⟨false⟩ l.newData = true ∧
    (l.runAppends (c :: more)).data.take l.data.length = l.data ∧
    l.data.length + c.req.Transactions.length ≤ (l.runAppends (c :: more)).data.length ∧
    (l.runAppends (c :: more)).readWoken ⟨false⟩ req l.newData =
      some (l.runAppends (c :: more), .ok ⟨l.seed,
        ((l.runAppends (c :: more)).data.drop l.data.length).take
          (min req.Count (((l.runAppends (c :: more)).data.length : Int) - l.data.length)).toNat⟩) ∧
    1 ≤ (((l.runAppends (c :: more)).data.drop l.data.length).take
          (min req.Count (((l.runAppends (c :: more)).data.length : Int) - l.data.length)).toNat).length ∧
    (∀ (k : Nat) (hk : k < (((l.runAppends (c :: more)).data.drop l.data.length).take
          (min req.Count (((l.runAppends (c :: more)).data.length : Int) -
            l.data.length)).toNat).length),
      ((((l.runAppends (c :: more)).data.drop l.data.length).take
          (min req.Count (((l.runAppends (c :: more)).data.length : Int) -
            l.data.length)).toNat)[k]).Index = (l.data.length : Int) + 1 + k) := by
  have hfirst : (l.AppendTransactions c.now c.req).1.newData = l.newData + 1 := by
    rw [AppendTransactions_accept l c.now c.req hcseed]
  have hfirstlen : (l.AppendTransactions c.now c.req).1.data.length =
      l.data.length + c.req.Transactions.length := by
    rw [AppendTransactions_accept l c.now c.req hcseed]
    simp [entries_length]
  have hrun : l.runAppends (c :: more) = (l.AppendTransactions c.now c.req).1.runAppends more :=
    rfl
  have hnd : l.newData < (l.runAppends (c :: more)).newData := by
    have := runAppends_newData (l.AppendTransactions c.now c.req).1 more
    rw [hrun]; omega
  obtain ⟨new, hnew⟩ := runAppends_data l (c :: more)
  obtain ⟨new2, hnew2⟩ := runAppends_data (l.AppendTransactions c.now c.req).1 more
  have hlen : l.data.length + c.req.Transactions.length ≤
      (l.runAppends (c :: more)).data.length := by
    rw [hrun, hnew2, List.length_append, hfirstlen]; omega
  have hinv : (l.runAppends (c :: more)).Inv := (hl.runAppends (c :: more)).inv
  have hseed2 : (l.runAppends (c :: more)).seed = l.seed := runAppends_seed l _
  have h1 : 1 ≤ req.Index := by omega
  have hL : req.Index ≤ ((l.runAppends (c :: more)).data.length : Int) := by omega
  have hres := readResult_available (l.runAppends (c :: more)) req h1 hL (by omega)
  have hi : (req.Index - 1).toNat = l.data.length := by omega
  have hm : min req.Count (((l.runAppends (c :: more)).data.length : Int) - req.Index + 1) =
      min req.Count (((l.runAppends (c :: more)).data.length : Int) - l.data.length) := by
    omega
  rw [hi, hm, hseed2] at hres
  refine ⟨readLocked_next l ctx req hseed hidx, ?_, ?_, hlen, ?_, ?_, ?_⟩
  · simp [Ledger.selectReady, hfirst]
  · rw [hnew]; simp
  · simp [Ledger.readWoken, Ledger.selectReady, hnd, hres]
  · rw [List.length_take, List.length_drop]
    omega
  · intro k hk
    have hk2 : l.data.length + k < (l.runAppends (c :: more)).data.length := by
      rw [List.length_take, List.length_drop] at hk
      omega
    rw [List.getElem_take, List.getElem_drop, hinv.index _ hk2]
    push_cast
    ring

end mock

namespace mock

open api

/-- Witness of C7: a read of up to 5 transactions waits at index 1 of a fresh ledger; after
the appends of `semper` and `fidelis` it returns both, with the context not done. -/
theorem read_woken_by_append_witness :
    ((NewLedger sample.seed).verifySeed [] = true ∧
      (1 : Int) = ((NewLedger sample.seed).data.length : Int) + 1 ∧ (1 : Int) ≤ 5 ∧
      (NewLedger sample.seed).verifySeed
        (sample.call sample.seed [sample.hashed "semper"]).req.NetworkSeed = true ∧
      1 ≤ (sample.call sample.seed [sample.hashed "semper"]).req.Transactions.length) ∧
    (∃ txs, ((NewLedger sample.seed).runAppends sample.semperFidelis).readWoken ⟨false⟩ ⟨[], 1, 5⟩
        (NewLedger sample.seed).newData =
        some ((NewLedger sample.seed).runAppends sample.semperFidelis,
          .ok ⟨(NewLedger sample.seed).seed, txs⟩) ∧
      txs.map (fun tx => (tx.Index, tx.Data)) = [(1, str "semper"), (2, str "fidelis")]) :=
  ⟨by decide,
   ⟨_, (read_woken_by_append sample.seed (NewLedger sample.seed) Reachable.fresh ⟨false⟩
      ⟨[], 1, 5⟩ (by decide) (by decide) (by decide)
      (sample.call sample.seed [sample.hashed "semper"]) (by decide) (by decide)
      [sample.call sample.seed [sample.hashed "fidelis"]]).2.2.2.2.1, by decide⟩⟩

/-- C8. Append-only: an accepted `AppendTransactions` call with batch `t_1..t_k` leaves the
old log as the first `L` entries and adds exactly `k` entries after it, entry `j` carrying
the type, data and hash of `t_j`; a rejected append, both critical sections of a read, a
whole read and a status request leave the ledger as it was; so the log before any operation
is an initial segment of the log after it. -/
theorem append_only (l : Ledger) :
    (∀ (now : Nat → Int) (req : AppendRequest), l.verifySeed req.NetworkSeed = true →
      (l.AppendTransactions now req).1.data.take l.data.length = l.data ∧
      ((l.AppendTransactions now req).1.data.drop l.data.length).map content =
        req.Transactions ∧
      (l.AppendTransactions now req).1.data.length = l.data.length + req.Transactions.length) ∧
    (∀ (now : Nat → Int) (req : AppendRequest), l.verifySeed req.NetworkSeed = false →
      (l.AppendTransactions now req).1 = l) ∧
    (∀ (ctx : Context) (req : ReadRequest), (l.readLocked ctx req).1 = l) ∧
    (∀ (ctx : Context) (req : ReadRequest) (waitCh : Nat) (r : Ledger × Outcome Error ReadResult),
      l.readWoken ctx req waitCh = some r → r.1 = l) ∧
    (∀ (ctx : Context) (req : ReadRequest) (r : Ledger × Outcome Error ReadResult),
      l.ReadTransactions ctx req = some r → r.1 = l) ∧
    (∀ (now : Int), (l.ServerStatus now).1 = l) ∧
    (∀ (op : Op), l.data <+: (l.step op).data) := by
  have hwoken : ∀ (ctx : Context) (req : ReadRequest) (waitCh : Nat)
      (r : Ledger × Outcome Error ReadResult), l.readWoken ctx req waitCh = some r → r.1 = l := by
    intro ctx req waitCh r hr
    rw [readWoken_eq l ctx req waitCh r hr]
    exact readResult_ledger l req
  refine ⟨?_, ?_, readLocked_ledger l, hwoken, ?_, fun _ => rfl, ?_⟩
  · intro now req h
    rw [AppendTransactions_accept l now req h]
    simp [entries_content, entries_length]
  · intro now req h
    rw [AppendTransactions_reject l now req h]
  · intro ctx req r hr
    unfold Ledger.ReadTransactions at hr
    have h1 := readLocked_ledger l ctx req
    split at hr
    · rename_i l1 out heq
      rw [heq] at h1
      rw [← Option.some.inj hr]
      exact h1
    · rename_i l1 waitCh heq
      rw [heq] at h1
      simp only at h1
      rw [h1] at hr
      exact hwoken ctx req waitCh r hr
  · intro op
    cases op with
    | readLocked ctx req =>
      simp only [Ledger.step, readLocked_ledger]
      exact ⟨[], by simp⟩
    | readWoken ctx req waitCh =>
      simp only [Ledger.step]
      split
      · rename_i r hr
        rw [hwoken ctx req waitCh r hr]
      · exact ⟨[], by simp⟩
    | append now req =>
      obtain ⟨new, hnew⟩ := AppendTransactions_data l now req
      exact ⟨new, by simp only [Ledger.step, hnew]⟩
    | status now => exact ⟨[], by simp [Ledger.step, Ledger.ServerStatus]⟩

/-- Witness of C8: a fifth append to the ledger of `ExampleAppendRead`, a rejected one, and
a read woken by the deadline. -/
theorem append_only_witness :
    (sample.greekLedger.verifySeed (sample.call [] [sample.hashed "epsilon"]).req.NetworkSeed = true ∧
      ((sample.greekLedger.AppendTransactions sample.clock
        (sample.call [] [sample.hashed "epsilon"]).req).1.data.drop
          sample.greekLedger.data.length).map content = [sample.hashed "epsilon"]) ∧
    (sample.greekLedger.verifySeed (str "bad seed") = false ∧
      (sample.greekLedger.AppendTransactions sample.clock
        ⟨str "bad seed", [sample.hashed "epsilon"]⟩).1 = sample.greekLedger) ∧
    (sample.greekLedger.readWoken ⟨true⟩ ⟨[], 5, 1⟩ 4 =
        some (sample.greekLedger, .ok ⟨sample.seed, []⟩) ∧
      (sample.greekLedger, (.ok ⟨sample.seed, []⟩ : Outcome Error ReadResult)).1 =
        sample.greekLedger) :=
  ⟨⟨by decide, ((append_only sample.greekLedger).1 sample.clock
      (sample.call [] [sample.hashed "epsilon"]).req (by decide)).2.1⟩,
   ⟨by decide, (append_only sample.greekLedger).2.1 sample.clock
      ⟨str "bad seed", [sample.hashed "epsilon"]⟩ (by decide)⟩,
   ⟨by decide, (append_only sample.greekLedger).2.2.2.1 ⟨true⟩ ⟨[], 5, 1⟩ 4
      (sample.greekLedger, .ok ⟨sample.seed, []⟩) (by decide)⟩⟩

end mock

/-! ## The stored hash -/

namespace mock

open api

/-- C9, counterexample. A transaction appended without a hash, as `TestAppendAndRead` does,
is stored with an empty `Hash`, which is not `SHA256(Type ++ Data)`. -/
theorem stored_hash_counterexample :
    Reachable sample.seed
      ((NewLedger sample.seed).runAppends [sample.call [] [sample.unhashed "a"]]) ∧
    ((NewLedger sample.seed).runAppends [sample.call [] [sample.unhashed "a"]]).data.map
      (fun tx => tx.Hash) = [[]] ∧
    ¬ ∀ tx ∈ ((NewLedger sample.seed).runAppends [sample.call [] [sample.unhashed "a"]]).data,
      tx.Hash = SHA256.Sum256 (tx.Typ ++ tx.Data) :=
  ⟨Reachable.fresh.runAppends _, by decide, by decide⟩

/-- C9, amended. The ledger stores the type, data and hash of every appended transaction as
they were passed, without computing or checking the hash; so after any sequence of accepted
`AppendTransactions` calls on a fresh ledger, every stored transaction satisfies
`Hash = SHA256(Type ++ Data)` exactly when every appended transaction carried that hash. -/
theorem stored_hash_carried (seed : Bytes) (calls : List AppendCall)
    (hseed : ∀ c ∈ calls, (NewLedger seed).verifySeed c.req.NetworkSeed = true) :
    ((NewLedger seed).runAppends calls).data.map content = appended calls ∧
    ((∀ tx ∈ ((NewLedger seed).runAppends calls).data,
        tx.Hash = SHA256.Sum256 (tx.Typ ++ tx.Data)) ↔
      ∀ tx ∈ appended calls, tx.Hash = SHA256.Sum256 (tx.Typ ++ tx.Data)) := by
  have h : ((NewLedger seed).runAppends calls).data.map content = appended calls := by
    simpa [NewLedger] using runAppends_content (NewLedger seed) calls hseed
  refine ⟨h, ?_⟩
  rw [← h]
  simp [content]

/-- Witness of C9, amended: `semper` and `fidelis`, appended with their hashes. -/
theorem stored_hash_carried_witness :
    (∀ c ∈ sample.semperFidelis, (NewLedger sample.seed).verifySeed c.req.NetworkSeed = true) ∧
    (∀ tx ∈ appended sample.semperFidelis, tx.Hash = SHA256.Sum256 (tx.Typ ++ tx.Data)) ∧
    (∀ tx ∈ ((NewLedger sample.seed).runAppends sample.semperFidelis).data,
      tx.Hash = SHA256.Sum256 (tx.Typ ++ tx.Data)) :=
  ⟨by decide, by decide,
   (stored_hash_carried sample.seed sample.semperFidelis (by decide)).2.2 (by decide)⟩

end mock

/-! ## The round trip of the encoding -/

namespace base64

theorem enc6_spec (n : Nat) :
    dec6 (enc6 n) = some (n % 64) ∧ enc6 n ≠ padChar ∧ enc6 n ≠ 10 ∧ enc6 n ≠ 13 := by
  have key : ∀ m : Fin 64, dec6 (encodeStd.getD m.val 0) = some m.val ∧
      encodeStd.getD m.val 0 ≠ padChar ∧ encodeStd.getD m.val 0 ≠ 10 ∧
      encodeStd.getD m.val 0 ≠ 13 := by decide
  exact key ⟨n % 64, Nat.mod_lt _ (by decide)⟩

theorem ofNat_eq (a : Byte) (n : Nat) (h : n % 256 = a.val) : (Fin.ofNat n : Byte) = a := by
  apply Fin.ext
  simpa [Fin.ofNat] using h

theorem EncodeToString_noBreak (data : Bytes) :
    ∀ c ∈ EncodeToString data, c ≠ 10 ∧ c ≠ 13 := by
  induction data using EncodeToString.induct with
  | case1 => simp [EncodeToString]
  | case2 a =>
    intro c hc
    simp only [EncodeToString, List.mem_cons, List.mem_singleton, List.not_mem_nil, or_false] at hc
    rcases hc with h | h | h | h <;> subst h
    · exact (enc6_spec _).2.2
    · exact (enc6_spec _).2.2
    · decide
    · decide
  | case3 a b =>
    intro c hc
    simp only [EncodeToString, List.mem_cons, List.mem_singleton, List.not_mem_nil, or_false] at hc
    rcases hc with h | h | h | h <;> subst h
    · exact (enc6_spec _).2.2
    · exact (enc6_spec _).2.2
    · exact (enc6_spec _).2.2
    · decide
  | case4 a b c rest ih =>
    intro x hx
    simp only [EncodeToString, List.mem_cons] at hx
    rcases hx with h | h | h | h | h
    · subst h; exact (enc6_spec _).2.2
    · subst h; exact (enc6_spec _).2.2
    · subst h; exact (enc6_spec _).2.2
    · subst h; exact (enc6_spec _).2.2
    · exact ih x h

theorem decodeQuanta_encode (data : Bytes) : decodeQuanta (EncodeToString data) = some data := by
  induction data using EncodeToString.induct with
  | case1 => simp [EncodeToString, decodeQuanta]
  | case2 a =>
    have ha := a.isLt
    simp only [EncodeToString, decodeQuanta, (enc6_spec _).1, if_true, and_self]
    simp only [Option.some.injEq, List.cons.injEq, and_true]
    apply ofNat_eq
    omega
  | case3 a b =>
    have ha := a.isLt
    have hb := b.isLt
    simp only [EncodeToString, decodeQuanta, (enc6_spec _).1, (enc6_spec _).2.1, if_true, if_false]
    simp only [Option.some.injEq, List.cons.injEq, and_true]
    constructor <;> apply ofNat_eq <;> omega
  | case4 a b c rest ih =>
    have ha := a.isLt
    have hb := b.isLt
    have hc := c.isLt
    simp only [EncodeToString, decodeQuanta, (enc6_spec _).1, (enc6_spec _).2.1, if_false, ih]
    simp only [Option.some.injEq, List.cons.injEq, and_true]
    refine ⟨?_, ?_, ?_⟩ <;> apply ofNat_eq <;> omega

/-- Decoding an encoding gives the bytes back. -/
theorem DecodeString_EncodeToString (data : Bytes) :
    DecodeString (EncodeToString data) = some data := by
  unfold DecodeString
  rw [List.filter_eq_self.2]
  · exact decodeQuanta_encode data
  · intro c hc
    have := EncodeToString_noBreak data c hc
    simp [this.1, this.2]

end base64

namespace rest

open api

theorem fillHash_hash (tx : UnsequencedTransaction)
    (h : tx.Hash = [] ∨ tx.Hash = SHA256.Sum256 (tx.Typ ++ tx.Data)) :
    fillHash tx = { Typ := tx.Typ, Data := tx.Data, Hash := SHA256.Sum256 (tx.Typ ++ tx.Data) } := by
  unfold fillHash
  split_ifs with h0
  · rfl
  · rcases h with h | h
    · exact absurd (by simp [h]) h0
    · cases tx
      simp only at h
      simp [h]

theorem decodeUnsequencedFrom_encode (i : Nat) (txs : List UnsequencedTransaction)
    (h : ∀ tx ∈ txs, tx.Hash = [] ∨ tx.Hash = SHA256.Sum256 (tx.Typ ++ tx.Data)) :
    decodeUnsequencedFrom i (EncodeUnsequencedTransactions txs) =
      .ok (txs.map fun tx =>
        { Typ := tx.Typ, Data := tx.Data, Hash := SHA256.Sum256 (tx.Typ ++ tx.Data) }) := by
  induction txs generalizing i with
  | nil => rfl
  | cons tx rest ih =>
    have htx := fillHash_hash tx (h tx (List.mem_cons_self _ _))
    have hrest := ih (i + 1) fun t ht => h t (List.mem_cons_of_mem _ ht)
    simp [EncodeUnsequencedTransactions, decodeUnsequencedFrom, htx,
      base64.DecodeString_EncodeToString, hrest]

/-- C10. Round trip, unsequenced: for every list of unsequenced transactions whose `Hash` is
absent or equal to `SHA256(Type ++ Data)`, decoding the encoding succeeds and returns the
list, in order, of the same types and data with `Hash = SHA256(Type ++ Data)`. -/
theorem unsequenced_round_trip (txs : List UnsequencedTransaction)
    (h : ∀ tx ∈ txs, tx.Hash = [] ∨ tx.Hash = SHA256.Sum256 (tx.Typ ++ tx.Data)) :
    DecodeUnsequencedTransactions (EncodeUnsequencedTransactions txs) =
      .ok (txs.map fun tx =>
        { Typ := tx.Typ, Data := tx.Data, Hash := SHA256.Sum256 (tx.Typ ++ tx.Data) }) :=
  decodeUnsequencedFrom_encode 0 txs h

/-- Witness of C10: a typed transaction without a hash and an untyped one with its hash. -/
theorem unsequenced_round_trip_witness :
    (∀ tx ∈ [({ Typ := str "example/chat", Data := str "hello", Hash := [] } :
        UnsequencedTransaction), sample.hashed "semper"],
      tx.Hash = [] ∨ tx.Hash = SHA256.Sum256 (tx.Typ ++ tx.Data)) ∧
    DecodeUnsequencedTransactions (EncodeUnsequencedTransactions
      [{ Typ := str "example/chat", Data := str "hello", Hash := [] }, sample.hashed "semper"]) =
      .ok [{ Typ := str "example/chat", Data := str "hello",
             Hash := SHA256.Sum256 (str "example/chat" ++ str "hello") },
           { Typ := [], Data := str "semper", Hash := SHA256.Sum256 ([] ++ str "semper") }] :=
  ⟨by decide,
   unsequenced_round_trip
     [{ Typ := str "example/chat", Data := str "hello", Hash := [] }, sample.hashed "semper"]
     (by decide)⟩

end rest

/-! ## The sequenced round trip and the check of the hash field -/

namespace hex

theorem fromHexChar_hextable (n : Nat) (h : n < 16) :
    fromHexChar (hextable.getD n 0) = some n := by
  have key : ∀ m : Fin 16, fromHexChar (hextable.getD m.val 0) = some m.val := by decide
  exact key ⟨n, h⟩

/-- Decoding an encoding gives the bytes back. -/
theorem hexDecode_hexEncode (bs : Bytes) : DecodeString (EncodeToString bs) = some bs := by
  induction bs with
  | nil => rfl
  | cons v rest ih =>
    have hv := v.isLt
    have h1 : v.val / 16 < 16 := by omega
    have h2 : v.val % 16 < 16 := by omega
    simp only [EncodeToString, DecodeString, fromHexChar_hextable _ h1,
      fromHexChar_hextable _ h2, ih]
    simp only [Option.some.injEq, List.cons.injEq, and_true]
    apply Fin.ext
    simp only [Fin.ofNat, Fin.val_mk]
    omega

theorem EncodeToString_injective (a b : Bytes) (h : EncodeToString a = EncodeToString b) :
    a = b := by
  have h1 := hexDecode_hexEncode a
  rw [h, hexDecode_hexEncode b] at h1
  exact (Option.some.inj h1).symm

end hex

namespace rest

open api

theorem decodeSequencedFrom_encode (i : Nat) (txs : List SequencedTransaction)
    (h : ∀ tx ∈ txs, tx.Hash = SHA256.Sum256 (tx.Typ ++ tx.Data)) :
    decodeSequencedFrom i (EncodeSequencedTransactions txs) = .ok txs := by
  induction txs generalizing i with
  | nil => rfl
  | cons tx rest ih =>
    have htx := h tx (List.mem_cons_self _ _)
    have hrest := ih (i + 1) fun t ht => h t (List.mem_cons_of_mem _ ht)
    simp [EncodeSequencedTransactions, decodeSequencedFrom, base64.DecodeString_EncodeToString,
      hex.hexDecode_hexEncode, hrest, ← htx]

/-- C11. Round trip, sequenced: for every list of sequenced transactions whose `Hash` is
`SHA256(Type ++ Data)`, whatever their `Index`, `Timestamp` and `StateHash`, decoding the
encoding succeeds and returns the same list. -/
theorem sequenced_round_trip (txs : List SequencedTransaction)
    (h : ∀ tx ∈ txs, tx.Hash = SHA256.Sum256 (tx.Typ ++ tx.Data)) :
    DecodeSequencedTransactions (EncodeSequencedTransactions txs) = .ok txs :=
  decodeSequencedFrom_encode 0 txs h

theorem decodeUnsequencedFrom_ok (i : Nat) (txs : List EncodedUnsequencedTransaction)
    (out : List UnsequencedTransaction) (h : decodeUnsequencedFrom i txs = .ok out) :
    ∀ tx ∈ txs, ∃ data, base64.DecodeString tx.Data = some data ∧
      tx.Hash = hex.EncodeToString (SHA256.Sum256 (tx.Typ ++ data)) := by
  induction txs generalizing i out with
  | nil => intro tx htx; simp at htx
  | cons t rest ih =>
    unfold decodeUnsequencedFrom at h
    cases hd : base64.DecodeString t.Data with
    | none => simp [hd] at h
    | some data =>
      simp only [hd] at h
      by_cases hh : t.Hash = hex.EncodeToString (SHA256.Sum256 (t.Typ ++ data))
      · simp only [hh, ne_eq, not_true_eq_false, if_false] at h
        cases hr : decodeUnsequencedFrom (i + 1) rest with
        | ok o2 =>
          intro tx htx
          rcases List.mem_cons.1 htx with he | hm
          · subst he; exact ⟨data, hd, hh⟩
          · exact ih (i + 1) o2 hr tx hm
        | error e => simp [hr] at h
        | panic => simp [hr] at h
      · simp [hh] at h

theorem decodeUnsequencedFrom_ne_panic (i : Nat) (txs : List EncodedUnsequencedTransaction) :
    decodeUnsequencedFrom i txs ≠ .panic := by
  induction txs generalizing i with
  | nil => simp [decodeUnsequencedFrom]
  | cons t rest ih =>
    unfold decodeUnsequencedFrom
    cases hd : base64.DecodeString t.Data with
    | none => simp
    | some data =>
      simp only
      split_ifs
      · simp
      · cases hr : decodeUnsequencedFrom (i + 1) rest with
        | ok o2 => simp
        | error e => simp
        | panic => exact absurd hr (ih (i + 1))


theorem decodeUnsequencedPtrFrom_some (i : Nat) (txs : List EncodedUnsequencedTransaction) :
    decodeUnsequencedPtrFrom i (txs.map some) = decodeUnsequencedFrom i txs := by
  induction txs generalizing i with
  | nil => rfl
  | cons t rest ih =>
    simp only [List.map_cons, decodeUnsequencedPtrFrom, decodeUnsequencedFrom, ih]

theorem decodeUnsequencedPtrFrom_ok (i : Nat)
    (ptrs : List (Option EncodedUnsequencedTransaction)) (out : List UnsequencedTransaction)
    (h : decodeUnsequencedPtrFrom i ptrs = .ok out) :
    ∃ txs, ptrs = txs.map some ∧ decodeUnsequencedFrom i txs = .ok out := by
  induction ptrs generalizing i out with
  | nil => exact ⟨[], rfl, by simpa [decodeUnsequencedPtrFrom, decodeUnsequencedFrom] using h⟩
  | cons p rest ih =>
    cases p with
    | none => simp [decodeUnsequencedPtrFrom] at h
    | some t =>
      cases hr : decodeUnsequencedPtrFrom (i + 1) rest with
      | ok o2 =>
        obtain ⟨txs, hp, hd⟩ := ih (i + 1) o2 hr
        refine ⟨t :: txs, by simp [hp], ?_⟩
        rw [← h]
        simp only [decodeUnsequencedPtrFrom, decodeUnsequencedFrom, hr, hd]
      | error e =>
        simp only [decodeUnsequencedPtrFrom, hr] at h
        split at h
        · simp at h
        · split_ifs at h
      | panic =>
        simp only [decodeUnsequencedPtrFrom, hr] at h
        split at h
        · simp at h
        · split_ifs at h

theorem decode_letterA :
    DecodeAppendRequest (some { Transactions := [some sample.letterA] }) =
      .ok { NetworkSeed := [], Transactions :=
        [{ Typ := [], Data := str "A", Hash := SHA256.Sum256 ([] ++ str "A") }] } := by
  have h := decodeUnsequencedFrom_encode 0 [{ Typ := [], Data := str "A", Hash := [] }]
    (fun _ _ => Or.inl (by simp_all))
  have he : EncodeUnsequencedTransactions [{ Typ := [], Data := str "A", Hash := [] }] =
      [sample.letterA] := by decide
  rw [he] at h
  have hp := decodeUnsequencedPtrFrom_some 0 [sample.letterA]
  rw [h] at hp
  simp only [List.map] at hp
  simp only [DecodeAppendRequest, hp, List.map]

theorem decodeSequencedFrom_ok (i : Nat) (txs : List EncodedSequencedTransaction)
    (out : List SequencedTransaction) (h : decodeSequencedFrom i txs = .ok out) :
    ∀ tx ∈ txs, ∃ data, base64.DecodeString tx.Data = some data ∧
      tx.Hash = hex.EncodeToString (SHA256.Sum256 (tx.Typ ++ data)) := by
  induction txs generalizing i out with
  | nil => intro tx htx; simp at htx
  | cons t rest ih =>
    unfold decodeSequencedFrom at h
    cases hd : base64.DecodeString t.Data with
    | none => simp [hd] at h
    | some data =>
      simp only [hd] at h
      by_cases hh : t.Hash = hex.EncodeToString (SHA256.Sum256 (t.Typ ++ data))
      · simp only [hh, ne_eq, not_true_eq_false, if_false] at h
        cases hs : hex.DecodeString t.StateHash with
        | none => simp [hs] at h
        | some sh =>
          cases hr : decodeSequencedFrom (i + 1) rest with
          | ok o2 =>
            intro tx htx
            rcases List.mem_cons.1 htx with he | hm
            · subst he; exact ⟨data, hd, hh⟩
            · exact ih (i + 1) o2 hr tx hm
          | error e => simp [hs, hr] at h
          | panic => simp [hs, hr] at h
      · simp [hh] at h

theorem decodeSequencedFrom_ne_panic (i : Nat) (txs : List EncodedSequencedTransaction) :
    decodeSequencedFrom i txs ≠ .panic := by
  induction txs generalizing i with
  | nil => simp [decodeSequencedFrom]
  | cons t rest ih =>
    unfold decodeSequencedFrom
    cases hd : base64.DecodeString t.Data with
    | none => simp
    | some data =>
      simp only
      split_ifs
      · simp
      · cases hs : hex.DecodeString t.StateHash with
        | none => simp
        | some sh =>
          cases hr : decodeSequencedFrom (i + 1) rest with
          | ok o2 => simp
          | error e => simp
          | panic => exact absurd hr (ih (i + 1))

end rest

namespace rest

open api

/-- Witness of C11: two transactions of the tests, with indexes 0 and 7. -/
theorem sequenced_round_trip_witness :
    (∀ tx ∈ [sample.MockSequencedTransaction 0, sample.MockTypedSequencedTransaction (str "a") 7],
      tx.Hash = SHA256.Sum256 (tx.Typ ++ tx.Data)) ∧
    DecodeSequencedTransactions (EncodeSequencedTransactions
      [sample.MockSequencedTransaction 0, sample.MockTypedSequencedTransaction (str "a") 7]) =
      .ok [sample.MockSequencedTransaction 0, sample.MockTypedSequencedTransaction (str "a") 7] :=
  ⟨by decide,
   sequenced_round_trip
     [sample.MockSequencedTransaction 0, sample.MockTypedSequencedTransaction (str "a") 7]
     (by decide)⟩

/-- C12. The hash field is checked and decoding fails closed: either decoder returns
transactions only if every element's data decodes and its hash field is exactly the
lower-case hexadecimal text of `SHA256(Type ++ decoded Data)`; if some element's hash field
is anything else, the call returns an error, which carries no transaction. -/
theorem hash_field_checked :
    (∀ (txs : List EncodedUnsequencedTransaction) (out : List UnsequencedTransaction),
      DecodeUnsequencedTransactions txs = .ok out →
      ∀ tx ∈ txs, ∃ data, base64.DecodeString tx.Data = some data ∧
        tx.Hash = hex.EncodeToString (SHA256.Sum256 (tx.Typ ++ data))) ∧
    (∀ (txs : List EncodedUnsequencedTransaction),
      (∃ tx ∈ txs, ∀ data, base64.DecodeString tx.Data = some data →
        tx.Hash ≠ hex.EncodeToString (SHA256.Sum256 (tx.Typ ++ data))) →
      ∃ e, DecodeUnsequencedTransactions txs = .error e) ∧
    (∀ (txs : List EncodedSequencedTransaction) (out : List SequencedTransaction),
      DecodeSequencedTransactions txs = .ok out →
      ∀ tx ∈ txs, ∃ data, base64.DecodeString tx.Data = some data ∧
        tx.Hash = hex.EncodeToString (SHA256.Sum256 (tx.Typ ++ data))) ∧
    (∀ (txs : List EncodedSequencedTransaction),
      (∃ tx ∈ txs, ∀ data, base64.DecodeString tx.Data = some data →
        tx.Hash ≠ hex.EncodeToString (SHA256.Sum256 (tx.Typ ++ data))) →
      ∃ e, DecodeSequencedTransactions txs = .error e) := by
  refine ⟨fun txs out h => decodeUnsequencedFrom_ok 0 txs out h, ?_,
    fun txs out h => decodeSequencedFrom_ok 0 txs out h, ?_⟩
  · rintro txs ⟨tx, htx, hbad⟩
    cases hr : DecodeUnsequencedTransactions txs with
    | ok out =>
      obtain ⟨data, hd, hh⟩ := decodeUnsequencedFrom_ok 0 txs out hr tx htx
      exact absurd hh (hbad data hd)
    | error e => exact ⟨e, rfl⟩
    | panic => exact absurd hr (decodeUnsequencedFrom_ne_panic 0 txs)
  · rintro txs ⟨tx, htx, hbad⟩
    cases hr : DecodeSequencedTransactions txs with
    | ok out =>
      obtain ⟨data, hd, hh⟩ := decodeSequencedFrom_ok 0 txs out hr tx htx
      exact absurd hh (hbad data hd)
    | error e => exact ⟨e, rfl⟩
    | panic => exact absurd hr (decodeSequencedFrom_ne_panic 0 txs)

theorem DecodeString_QQ : base64.DecodeString (str "QQ==") = some (str "A") := by decide

/-- Witness of C12: after a good transaction, the transaction of `TestServerAppendBadHash`
makes the whole call fail; the good one alone is accepted. -/
theorem hash_field_checked_witness :
    (∃ tx ∈ [sample.letterA, sample.letterABadHash],
      ∀ data, base64.DecodeString tx.Data = some data →
        tx.Hash ≠ hex.EncodeToString (SHA256.Sum256 (tx.Typ ++ data))) ∧
    (∃ e, DecodeUnsequencedTransactions [sample.letterA, sample.letterABadHash] = .error e) ∧
    DecodeUnsequencedTransactions [sample.letterA, sample.letterABadHash] =
      .error (.hashMismatch 1) ∧
    (match DecodeUnsequencedTransactions [sample.letterA] with
      | .ok out => out.map fun t => (t.Typ, t.Data, hex.EncodeToString t.Hash)
      | _ => []) = [([], str "A", sample.letterA.Hash)] :=
  have hbad : ∃ tx ∈ [sample.letterA, sample.letterABadHash],
      ∀ data, base64.DecodeString tx.Data = some data →
        tx.Hash ≠ hex.EncodeToString (SHA256.Sum256 (tx.Typ ++ data)) :=
    ⟨sample.letterABadHash, by decide, fun data hd => by
      have h : data = str "A" := by
        have h2 : base64.DecodeString sample.letterABadHash.Data = some (str "A") := DecodeString_QQ
        rw [hd] at h2
        exact Option.some.inj h2
      subst h
      decide⟩
  ⟨hbad, hash_field_checked.2.1 _ hbad, by decide, by decide⟩

end rest

/-! ## Changes of the data -/

namespace rest

open api

theorem decodeUnsequencedFrom_cons_ok (i : Nat) (t : EncodedUnsequencedTransaction)
    (rest : List EncodedUnsequencedTransaction) (out : List UnsequencedTransaction)
    (h : decodeUnsequencedFrom i (t :: rest) = .ok out) :
    ∃ data o2, base64.DecodeString t.Data = some data ∧
      t.Hash = hex.EncodeToString (SHA256.Sum256 (t.Typ ++ data)) ∧
      decodeUnsequencedFrom (i + 1) rest = .ok o2 := by
  unfold decodeUnsequencedFrom at h
  cases hd : base64.DecodeString t.Data with
  | none => simp [hd] at h
  | some data =>
    simp only [hd] at h
    by_cases hh : t.Hash = hex.EncodeToString (SHA256.Sum256 (t.Typ ++ data))
    · simp only [hh, ne_eq, not_true_eq_false, if_false] at h
      cases hr : decodeUnsequencedFrom (i + 1) rest with
      | ok o2 => exact ⟨data, o2, rfl, hh, rfl⟩
      | error e => simp [hr] at h
      | panic => simp [hr] at h
    · simp [hh] at h

theorem decodeUnsequencedFrom_append_error (i : Nat)
    (pre rest : List EncodedUnsequencedTransaction) (out : List UnsequencedTransaction)
    (e : DecodeError) (h : decodeUnsequencedFrom i pre = .ok out)
    (hr : decodeUnsequencedFrom (i + pre.length) rest = .error e) :
    decodeUnsequencedFrom i (pre ++ rest) = .error e := by
  induction pre generalizing i out with
  | nil => simpa using hr
  | cons t pre ih =>
    obtain ⟨data, o2, hd, hh, h2⟩ := decodeUnsequencedFrom_cons_ok i t pre out h
    have hr2 : decodeUnsequencedFrom (i + 1 + pre.length) rest = .error e := by
      have : i + 1 + pre.length = i + (t :: pre).length := by simp; omega
      rw [this]; exact hr
    have := ih (i + 1) o2 h2 hr2
    simp [decodeUnsequencedFrom, hd, hh, this]

theorem decodeSequencedFrom_cons_ok (i : Nat) (t : EncodedSequencedTransaction)
    (rest : List EncodedSequencedTransaction) (out : List SequencedTransaction)
    (h : decodeSequencedFrom i (t :: rest) = .ok out) :
    ∃ data sh o2, base64.DecodeString t.Data = some data ∧
      t.Hash = hex.EncodeToString (SHA256.Sum256 (t.Typ ++ data)) ∧
      hex.DecodeString t.StateHash = some sh ∧
      decodeSequencedFrom (i + 1) rest = .ok o2 ∧
      out = { Index := t.Index, Timestamp := t.Timestamp, Data := data,
              Hash := SHA256.Sum256 (t.Typ ++ data), StateHash := sh, Typ := t.Typ } :: o2 := by
  unfold decodeSequencedFrom at h
  cases hd : base64.DecodeString t.Data with
  | none => simp [hd] at h
  | some data =>
    simp only [hd] at h
    by_cases hh : t.Hash = hex.EncodeToString (SHA256.Sum256 (t.Typ ++ data))
    · simp only [hh, ne_eq, not_true_eq_false, if_false] at h
      cases hs : hex.DecodeString t.StateHash with
      | none => simp [hs] at h
      | some sh =>
        cases hr : decodeSequencedFrom (i + 1) rest with
        | ok o2 =>
          simp only [hs, hr, Outcome.ok.injEq] at h
          exact ⟨data, sh, o2, rfl, hh, rfl, rfl, h.symm⟩
        | error e => simp [hs, hr] at h
        | panic => simp [hs, hr] at h
    · simp [hh] at h

theorem decodeSequencedFrom_append_error (i : Nat)
    (pre rest : List EncodedSequencedTransaction) (out : List SequencedTransaction)
    (e : DecodeError) (h : decodeSequencedFrom i pre = .ok out)
    (hr : decodeSequencedFrom (i + pre.length) rest = .error e) :
    decodeSequencedFrom i (pre ++ rest) = .error e := by
  induction pre generalizing i out with
  | nil => simpa using hr
  | cons t pre ih =>
    obtain ⟨data, sh, o2, hd, hh, hs, h2, _⟩ := decodeSequencedFrom_cons_ok i t pre out h
    have hr2 : decodeSequencedFrom (i + 1 + pre.length) rest = .error e := by
      have : i + 1 + pre.length = i + (t :: pre).length := by simp; omega
      rw [this]; exact hr
    have := ih (i + 1) o2 h2 hr2
    simp [decodeSequencedFrom, hd, hh, hs, this]

/-- C13, counterexample. The transaction of `TestServerAppendOK` is correctly hashed; with
the second character of its data changed from `Q` to `R` (bits that the base64 decoder
ignores) both decoders still accept it, and with that character changed to `!` they fail
with the error of the data, not with a hash mismatch. -/
theorem data_change_counterexample :
    (base64.DecodeString sample.letterA.Data = some (str "A") ∧
      sample.letterA.Hash = hex.EncodeToString (SHA256.Sum256 (sample.letterA.Typ ++ str "A"))) ∧
    (str "QR==" = sample.letterA.Data.set 1 82 ∧ str "Q!==" = sample.letterA.Data.set 1 33) ∧
    (match DecodeUnsequencedTransactions [{ sample.letterA with Data := str "QR==" }] with
      | .ok out => out.map fun t => t.Data
      | _ => []) = [str "A"] ∧
    (match DecodeSequencedTransactions
        [{ Typ := [], Index := 1, Timestamp := 0, Data := str "QR==",
           Hash := sample.letterA.Hash, StateHash := [] }] with
      | .ok out => out.map fun t => t.Data
      | _ => []) = [str "A"] ∧
    DecodeUnsequencedTransactions [{ sample.letterA with Data := str "Q!==" }] =
      .error (.data 0) ∧
    DecodeSequencedTransactions
        [{ Typ := [], Index := 1, Timestamp := 0, Data := str "Q!==",
           Hash := sample.letterA.Hash, StateHash := [] }] = .error (.data 0) :=
  ⟨by decide, by decide, by decide, by decide, by decide, by decide⟩

/-- C13, amended. Changing the data of a correctly hashed encoded transaction, its type and
hash field left as they were, makes either decoder fail at that transaction (the ones
before it being good) whenever the changed text is not valid base64, with the error of the
data, or decodes to bytes for which `SHA256(Type ++ bytes)` differs from the original, with
the hash-mismatch error. -/
theorem data_change_detected :
    (∀ (pre post : List EncodedUnsequencedTransaction) (tx : EncodedUnsequencedTransaction)
        (data : Bytes) (changed : GoString),
      (∃ out, DecodeUnsequencedTransactions pre = .ok out) →
      base64.DecodeString tx.Data = some data →
      tx.Hash = hex.EncodeToString (SHA256.Sum256 (tx.Typ ++ data)) →
      (base64.DecodeString changed = none →
        DecodeUnsequencedTransactions (pre ++ { tx with Data := changed } :: post) =
          .error (.data pre.length)) ∧
      (∀ d, base64.DecodeString changed = some d →
        SHA256.Sum256 (tx.Typ ++ d) ≠ SHA256.Sum256 (tx.Typ ++ data) →
        DecodeUnsequencedTransactions (pre ++ { tx with Data := changed } :: post) =
          .error (.hashMismatch pre.length))) ∧
    (∀ (pre post : List EncodedSequencedTransaction) (tx : EncodedSequencedTransaction)
        (data : Bytes) (changed : GoString),
      (∃ out, DecodeSequencedTransactions pre = .ok out) →
      base64.DecodeString tx.Data = some data →
      tx.Hash = hex.EncodeToString (SHA256.Sum256 (tx.Typ ++ data)) →
      (base64.DecodeString changed = none →
        DecodeSequencedTransactions (pre ++ { tx with Data := changed } :: post) =
          .error (.data pre.length)) ∧
      (∀ d, base64.DecodeString changed = some d →
        SHA256.Sum256 (tx.Typ ++ d) ≠ SHA256.Sum256 (tx.Typ ++ data) →
        DecodeSequencedTransactions (pre ++ { tx with Data := changed } :: post) =
          .error (.hashMismatch pre.length))) := by
  constructor
  · rintro pre post tx data changed ⟨out, hpre⟩ _ hh
    constructor
    · intro hnone
      apply decodeUnsequencedFrom_append_error 0 pre _ out _ hpre
      simp [decodeUnsequencedFrom, hnone]
    · intro d hd hne
      apply decodeUnsequencedFrom_append_error 0 pre _ out _ hpre
      have hx : ¬ tx.Hash = hex.EncodeToString (SHA256.Sum256 (tx.Typ ++ d)) := by
        rw [hh]
        intro heq
        exact hne (hex.EncodeToString_injective _ _ heq).symm
      simp [decodeUnsequencedFrom, hd, hx]
  · rintro pre post tx data changed ⟨out, hpre⟩ _ hh
    constructor
    · intro hnone
      apply decodeSequencedFrom_append_error 0 pre _ out _ hpre
      simp [decodeSequencedFrom, hnone]
    · intro d hd hne
      apply decodeSequencedFrom_append_error 0 pre _ out _ hpre
      have hx : ¬ tx.Hash = hex.EncodeToString (SHA256.Sum256 (tx.Typ ++ d)) := by
        rw [hh]
        intro heq
        exact hne (hex.EncodeToString_injective _ _ heq).symm
      simp [decodeSequencedFrom, hd, hx]

end rest

namespace rest

open api

/-- Witness of C13, amended: after a good transaction, the data `QQ==` (the letter `A`)
changed to `QUI=` (the letters `AB`) fails with a hash mismatch at position 1. -/
theorem data_change_detected_witness :
    ((∃ out, DecodeUnsequencedTransactions [sample.letterA] = .ok out) ∧
      base64.DecodeString sample.letterA.Data = some (str "A") ∧
      sample.letterA.Hash = hex.EncodeToString (SHA256.Sum256 (sample.letterA.Typ ++ str "A")) ∧
      base64.DecodeString (str "QUI=") = some (str "AB") ∧
      SHA256.Sum256 (sample.letterA.Typ ++ str "AB") ≠
        SHA256.Sum256 (sample.letterA.Typ ++ str "A")) ∧
    DecodeUnsequencedTransactions
        ([sample.letterA] ++ { sample.letterA with Data := str "QUI=" } :: []) =
      .error (.hashMismatch 1) :=
  have hpre : ∃ out, DecodeUnsequencedTransactions [sample.letterA] = .ok out := by
    have h := decodeUnsequencedFrom_encode 0 [{ Typ := [], Data := str "A", Hash := [] }]
      (fun _ _ => Or.inl (by simp_all))
    have he : EncodeUnsequencedTransactions [{ Typ := [], Data := str "A", Hash := [] }] =
        [sample.letterA] := by decide
    rw [he] at h
    exact ⟨_, h⟩
  ⟨⟨hpre, by decide, by decide, by decide, by decide⟩,
   ((data_change_detected.1 [sample.letterA] [] sample.letterA (str "A") (str "QUI=") hpre
      (by decide) (by decide)).2 (str "AB") (by decide) (by decide))⟩

end rest


/-! ## The scanner after a transaction with an unexpected index -/

namespace scanner

open api

theorem emitLoop_mismatch {σ : Type} (o : options) (s : ScanState σ) (tx : SequencedTransaction)
    (rest : List SequencedTransaction) (h : tx.Index ≠ s.index) :
    emitLoop o s (tx :: rest) =
      { s with err := some (.other ("Unexpected transaction index (expected " ++
          toString s.index ++ ", got " ++ toString tx.Index ++ ")")) } := by
  simp [emitLoop, h]

theorem scanLoop_stuck (o : options) (seed : Bytes) (fuel : Nat) (s : ScanState Unit)
    (h : s.index = 1) (hc : s.closed = false) :
    (scanLoop o sample.stuckClient seed fuel s).closed = false ∧
    (scanLoop o sample.stuckClient seed fuel s).reads.length = s.reads.length + fuel ∧
    (scanLoop o sample.stuckClient seed fuel s).emitted = s.emitted ∧
    (scanLoop o sample.stuckClient seed fuel s).sleeps = s.sleeps := by
  induction fuel generalizing s with
  | zero => simp [scanLoop, hc]
  | succ n ih =>
    have hne : (sample.MockSequencedTransaction 2).Index ≠ s.index := by
      rw [h]; decide
    have hstep : scanLoop o sample.stuckClient seed (n + 1) s =
        scanLoop o sample.stuckClient seed n
          { client := (), err := some (.other ("Unexpected transaction index (expected " ++
              toString s.index ++ ", got " ++
              toString (sample.MockSequencedTransaction 2).Index ++ ")")),
            index := s.index, retried := 0, emitted := s.emitted,
            reads := s.reads ++ [⟨seed, s.index, 0⟩], sleeps := s.sleeps, closed := s.closed,
            crashed := s.crashed } := by
      simp only [scanLoop, sample.stuckClient]
      congr 1
      exact emitLoop_mismatch o _ _ [] hne
    have key : ∀ st : ScanState Unit, st.index = 1 → st.closed = false →
        st.reads.length = s.reads.length + 1 → st.emitted = s.emitted → st.sleeps = s.sleeps →
        (scanLoop o sample.stuckClient seed n st).closed = false ∧
        (scanLoop o sample.stuckClient seed n st).reads.length = s.reads.length + (n + 1) ∧
        (scanLoop o sample.stuckClient seed n st).emitted = s.emitted ∧
        (scanLoop o sample.stuckClient seed n st).sleeps = s.sleeps := by
      intro st hi hcl hr he hs
      have h4 := ih st hi hcl
      rw [hr, he, hs] at h4
      refine ⟨h4.1, ?_, h4.2.2.1, h4.2.2.2⟩
      rw [h4.2.1]; omega
    rw [hstep]
    exact key _ h hc (by simp) rfl rfl

/-- C14, the code at the failing input. With start index 1 and the client of
`TestScannerBadIndex`, whose first result holds transactions 2 and 3, the first iteration
records the index error and emits nothing, but the loop goes on: a second read is made at
index 1, it fails with `done`, and that error replaces the index error before the channel is
closed. With a client that keeps answering with transaction 2, the scanner reads again and
again, without sleeping, and never closes the channel. -/
theorem scan_bad_index_reads_again :
    ((Scan defaultOptions sample.mockClient sample.badIndexResults none 1 (str "some seed") 1).err =
        some (.other "Unexpected transaction index (expected 1, got 2)") ∧
      (Scan defaultOptions sample.mockClient sample.badIndexResults none 1 (str "some seed") 1).closed =
        false) ∧
    (∀ n : Nat,
      (Scan defaultOptions sample.mockClient sample.badIndexResults none 1 (str "some seed")
        (n + 2)).reads = [⟨str "some seed", 1, 0⟩, ⟨str "some seed", 1, 0⟩] ∧
      (Scan defaultOptions sample.mockClient sample.badIndexResults none 1 (str "some seed")
        (n + 2)).err = some (.other "done") ∧
      (Scan defaultOptions sample.mockClient sample.badIndexResults none 1 (str "some seed")
        (n + 2)).emitted = [] ∧
      (Scan defaultOptions sample.mockClient sample.badIndexResults none 1 (str "some seed")
        (n + 2)).closed = true) ∧
    (∀ (o : options) (fuel : Nat),
      (Scan o sample.stuckClient () none 1 (str "some seed") fuel).closed = false ∧
      (Scan o sample.stuckClient () none 1 (str "some seed") fuel).reads.length = fuel ∧
      (Scan o sample.stuckClient () none 1 (str "some seed") fuel).emitted = [] ∧
      (Scan o sample.stuckClient () none 1 (str "some seed") fuel).sleeps = 0) := by
  refine ⟨⟨by decide, by decide⟩, ?_, ?_⟩
  · intro n
    have h2 : Scan defaultOptions sample.mockClient sample.badIndexResults none 1
        (str "some seed") (n + 2) =
        Scan defaultOptions sample.mockClient sample.badIndexResults none 1
          (str "some seed") 2 := by
      rfl
    rw [h2]
    exact ⟨by decide, by decide, by decide, by decide⟩
  · intro o fuel
    have h := scanLoop_stuck o (str "some seed") fuel
      { client := (), err := none, index := 1, retried := 0, emitted := [], reads := [],
        sleeps := 0, closed := false, crashed := false } rfl rfl
    simpa [Scan] using h

end scanner


/-! ## The client's checks of a read response -/

namespace rest

open api

theorem decodeSequencedFrom_forall2 (i : Nat) (txs : List EncodedSequencedTransaction)
    (out : List SequencedTransaction) (h : decodeSequencedFrom i txs = .ok out) :
    List.Forall₂ (fun e t => base64.DecodeString e.Data = some t.Data ∧
      hex.DecodeString e.StateHash = some t.StateHash ∧
      t.Hash = SHA256.Sum256 (t.Typ ++ t.Data) ∧ t.Typ = e.Typ ∧ t.Index = e.Index ∧
      t.Timestamp = e.Timestamp) txs out := by
  induction txs generalizing i out with
  | nil =>
    simp only [decodeSequencedFrom, Outcome.ok.injEq] at h
    subst h
    exact List.Forall₂.nil
  | cons t rest ih =>
    obtain ⟨data, sh, o2, hd, _, hs, h2, hout⟩ := decodeSequencedFrom_cons_ok i t rest out h
    subst hout
    exact List.Forall₂.cons ⟨hd, hs, rfl, rfl, rfl, rfl⟩ (ih (i + 1) o2 h2)

end rest

namespace client

open api

theorem readResponse_ok (req : ReadRequest) (resp : ReadResponse) (out : ReadResult)
    (h : readResponse req resp = .ok out) :
    ∃ res seed, resp.body = some res ∧ resp.StatusCode = 200 ∧
      decodeAndVerifyNetworkSeed resp.seedHeader req.NetworkSeed = .ok seed ∧
      res.FirstIndex = req.Index ∧
      rest.DecodeSequencedTransactions res.Transactions = .ok out.Transactions ∧
      out.NetworkSeed = seed ∧
      (∀ tx, out.Transactions.head? = some tx → tx.Index = req.Index) := by
  unfold readResponse at h
  cases hb : resp.body with
  | none => simp [hb] at h
  | some res =>
    simp only [hb] at h
    by_cases hs : resp.StatusCode = 200
    · simp only [hs, ne_eq, not_true_eq_false, if_false] at h
      cases hv : decodeAndVerifyNetworkSeed resp.seedHeader req.NetworkSeed with
      | error e => simp [hv] at h
      | panic => simp [hv] at h
      | ok seed =>
        simp only [hv] at h
        by_cases hf : res.FirstIndex = req.Index
        · simp only [hf, ne_eq, not_true_eq_false, if_false] at h
          cases hd : rest.DecodeSequencedTransactions res.Transactions with
          | error e => simp [hd] at h
          | panic => simp [hd] at h
          | ok txs =>
            simp only [hd] at h
            cases txs with
            | nil =>
              simp only [Outcome.ok.injEq] at h
              subst h
              exact ⟨res, seed, rfl, hs, rfl, hf, hd, rfl, by simp⟩
            | cons tx more =>
              simp only at h
              by_cases hi : tx.Index = req.Index
              · simp only [hi, ne_eq, not_true_eq_false, if_false, Outcome.ok.injEq] at h
                subst h
                exact ⟨res, seed, rfl, hs, rfl, hf, hd, rfl, by simp [hi]⟩
              · simp [hi] at h
        · simp [hf] at h
    · simp [hs] at h
      split at h <;> simp at h

theorem decodeAndVerifyNetworkSeed_ok (header : GoString) (expected seed : Bytes)
    (h : decodeAndVerifyNetworkSeed header expected = .ok seed) :
    hex.DecodeString header = some seed ∧ (expected = [] ∨ expected = seed) := by
  unfold decodeAndVerifyNetworkSeed at h
  cases hd : hex.DecodeString header with
  | none => simp [hd] at h
  | some s =>
    simp only [hd] at h
    split_ifs at h with hc
    simp only [Outcome.ok.injEq] at h
    subst h
    refine ⟨rfl, ?_⟩
    by_cases he : expected = []
    · exact Or.inl he
    · right
      by_contra hne
      exact hc ⟨by cases expected <;> simp_all, hne⟩

/-- C15, counterexample. The response of the test server, with the state hash of its second
transaction replaced by that of the first, is accepted by the client: both transactions are
returned, and the second state hash is not `SHA256(first StateHash ++ second Hash)`. -/
theorem client_accepts_unchained :
    (match readResponse ⟨str "some seed", 1, 0⟩ sample.unchainedResponse with
      | .ok r => r.Transactions.map fun t => (t.Index, hex.EncodeToString t.StateHash)
      | _ => []) =
      [(1, sample.someText.StateHash), (2, sample.someText.StateHash)] ∧
    (match readResponse ⟨str "some seed", 1, 0⟩ sample.unchainedResponse with
      | .ok r => (r.Transactions.zip r.Transactions.tail).map fun p =>
          decide (p.2.StateHash = SHA256.Sum256 (p.1.StateHash ++ p.2.Hash))
      | _ => []) = [false] := by
  constructor <;> decide

/-- C15, amended. For every read response the client accepts, each returned transaction has
`Hash = SHA256(Type ++ Data)` and its `StateHash` is the `state_hash` text of the response
decoded from hexadecimal, as received; the client does not compare the state hashes of
consecutive transactions. -/
theorem client_checks_hash_only (req : ReadRequest) (resp : ReadResponse) (out : ReadResult)
    (h : readResponse req resp = .ok out) :
    ∃ res, resp.body = some res ∧
      List.Forall₂ (fun e t => t.Hash = SHA256.Sum256 (t.Typ ++ t.Data) ∧
        hex.DecodeString e.StateHash = some t.StateHash) res.Transactions out.Transactions := by
  obtain ⟨res, seed, hb, _, _, _, hd, _, _⟩ := readResponse_ok req resp out h
  refine ⟨res, hb, ?_⟩
  exact (rest.decodeSequencedFrom_forall2 0 _ _ hd).imp fun _ _ h => ⟨h.2.2.1, h.2.1⟩

end client

namespace client

open api

theorem readServerResponse_accepted :
    (match readResponse ⟨str "some seed", 1, 0⟩ sample.readServerResponse with
      | .ok _ => true
      | _ => false) = true := by decide

/-- Witness of C15, amended: the response of the test server is accepted. -/
theorem client_checks_hash_only_witness :
    ∃ out, readResponse ⟨str "some seed", 1, 0⟩ sample.readServerResponse = .ok out ∧
      ∃ res, sample.readServerResponse.body = some res ∧
        List.Forall₂ (fun e t => t.Hash = SHA256.Sum256 (t.Typ ++ t.Data) ∧
          hex.DecodeString e.StateHash = some t.StateHash) res.Transactions out.Transactions := by
  cases h : readResponse ⟨str "some seed", 1, 0⟩ sample.readServerResponse with
  | ok out => exact ⟨out, rfl, client_checks_hash_only _ _ out h⟩
  | error e =>
    have h2 := readServerResponse_accepted
    rw [h] at h2
    simp at h2
  | panic =>
    have h2 := readServerResponse_accepted
    rw [h] at h2
    simp at h2

/-- C16. Client read verification: for a response with status 200, `ReadTransactions`
returns transactions only if the seed header decodes to a seed that the caller's expected
seed is empty or equal to, `first_index` is the requested index, every transaction's hash
field is the hexadecimal `SHA256(Type ++ decoded Data)`, and the first transaction, if any,
has the requested index; when the expected seed is non-empty and differs from the header's
seed, the error is `NetworkSeedMismatchError` with the header's seed, whatever the body
holds. An error carries no transactions. -/
theorem client_read_checks (req : ReadRequest) (resp : ReadResponse) (res : rest.ReadResult)
    (hs : resp.StatusCode = 200) (hb : resp.body = some res) :
    (∀ out, readResponse req resp = .ok out →
      ∃ seed, hex.DecodeString resp.seedHeader = some seed ∧
        (req.NetworkSeed = [] ∨ req.NetworkSeed = seed) ∧ out.NetworkSeed = seed ∧
        res.FirstIndex = req.Index ∧
        (∀ tx ∈ res.Transactions, ∃ data, base64.DecodeString tx.Data = some data ∧
          tx.Hash = hex.EncodeToString (SHA256.Sum256 (tx.Typ ++ data))) ∧
        (∀ tx, res.Transactions.head? = some tx → tx.Index = req.Index)) ∧
    (∀ seed, hex.DecodeString resp.seedHeader = some seed → req.NetworkSeed ≠ [] →
      req.NetworkSeed ≠ seed →
      readResponse req resp = .error (.NetworkSeedMismatchError seed)) := by
  constructor
  · intro out h
    obtain ⟨res2, seed, hb2, _, hv, hf, hd, hseed, hfirst⟩ := readResponse_ok req resp out h
    rw [hb] at hb2
    have hres : res2 = res := (Option.some.inj hb2).symm
    rw [hres] at hf hd
    obtain ⟨hhex, hexp⟩ := decodeAndVerifyNetworkSeed_ok _ _ _ hv
    refine ⟨seed, hhex, hexp, hseed, hf, rest.decodeSequencedFrom_ok 0 _ _ hd, ?_⟩
    intro tx htx
    have hall := rest.decodeSequencedFrom_forall2 0 _ _ hd
    cases hT : res.Transactions with
    | nil => rw [hT] at htx; simp at htx
    | cons e more =>
      rw [hT] at hall htx
      cases hO : out.Transactions with
      | nil => rw [hO] at hall; cases hall
      | cons t ts =>
        rw [hO, List.forall₂_cons] at hall
        simp only [List.head?_cons, Option.some.injEq] at htx
        rw [← htx, ← hall.1.2.2.2.2.1]
        exact hfirst t (by simp [hO])
  · intro seed hd hne hdiff
    have hlen : req.NetworkSeed.length > 0 := by
      cases hreq : req.NetworkSeed with
      | nil => exact absurd hreq hne
      | cons b bs => simp
    simp [readResponse, hb, hs, decodeAndVerifyNetworkSeed, hd, hlen, hdiff]

/-- Witness of C16: the request of `TestClientReadBadSeed`; the response carries the seed
`some seed` and a transaction with a wrong hash, the caller expects `some other seed`. -/
theorem client_read_checks_witness :
    (sample.badReadServerResponse.StatusCode = 200 ∧
      hex.DecodeString sample.badReadServerResponse.seedHeader = some (str "some seed") ∧
      str "some other seed" ≠ [] ∧ str "some other seed" ≠ str "some seed") ∧
    readResponse ⟨str "some other seed", 1, 0⟩ sample.badReadServerResponse =
      .error (.NetworkSeedMismatchError (str "some seed")) ∧
    (∃ e, readResponse ⟨str "some seed", 1, 0⟩ sample.badReadServerResponse = .error (.other e)) :=
  ⟨by decide,
   (client_read_checks ⟨str "some other seed", 1, 0⟩ sample.badReadServerResponse _
      (by decide) rfl).2 (str "some seed") (by decide) (by decide) (by decide),
   ⟨"Failed to decode transactions", by decide⟩⟩

/-- C18. Client status-code mapping: `newError` returns `BadRequestError(m)` for 400,
`NotFoundError(m)` for 404, `NetworkSeedMismatchError(s)` for 412, `ServerError(m)` for 500,
and an untyped error for every other code; in `ReadTransactions` the seed `s` of a response
that is not 200 is the one decoded from its seed header. -/
theorem newError_mapping (c : Int) (m : String) (s : Bytes) :
    (c = 400 → newError c m s = .BadRequestError m) ∧
    (c = 404 → newError c m s = .NotFoundError m) ∧
    (c = 412 → newError c m s = .NetworkSeedMismatchError s) ∧
    (c = 500 → newError c m s = .ServerError m) ∧
    (c ≠ 400 → c ≠ 404 → c ≠ 412 → c ≠ 500 →
      newError c m s = .other ("Read request failed (" ++ toString c ++ "): " ++ m)) ∧
    (∀ (req : ReadRequest) (resp : ReadResponse) (res : rest.ReadResult),
      resp.body = some res → resp.StatusCode ≠ 200 →
      hex.DecodeString resp.seedHeader = some s →
      readResponse req resp = .error (newError resp.StatusCode res.Error s)) := by
  refine ⟨?_, ?_, ?_, ?_, ?_, ?_⟩
  · intro h; subst h; simp [newError]
  · intro h; subst h; simp [newError]
  · intro h; subst h; simp [newError]
  · intro h; subst h; simp [newError]
  · intro h1 h2 h3 h4; simp [newError, h1, h2, h3, h4]
  · intro req resp res hb hs hd
    simp [readResponse, hb, hs, decodeAndVerifyNetworkSeed, hd]

/-- Witness of C18: the response of `TestClientReadBadRequest`, status 400 with the error
`bad luck`, and a 412 response with the seed `some seed`. -/
theorem newError_mapping_witness :
    ((400 : Int) = 400 ∧ newError 400 "bad luck" [] = .BadRequestError "bad luck") ∧
    ((418 : Int) ≠ 400 ∧ (418 : Int) ≠ 404 ∧ (418 : Int) ≠ 412 ∧ (418 : Int) ≠ 500 ∧
      newError 418 "tea" [] = .other ("Read request failed (" ++ toString (418 : Int) ++ "): " ++ "tea")) ∧
    readResponse ⟨[], 1, 0⟩
        { StatusCode := 412, seedHeader := str "736F6D652073656564",
          body := some { FirstIndex := 0, Transactions := [], LastIndex := 0, Error := "mismatch" } } =
      .error (.NetworkSeedMismatchError (str "some seed")) :=
  ⟨⟨rfl, (newError_mapping 400 "bad luck" []).1 rfl⟩,
   ⟨by decide, by decide, by decide, by decide,
    (newError_mapping 418 "tea" []).2.2.2.2.1 (by decide) (by decide) (by decide) (by decide)⟩,
   (newError_mapping 412 "mismatch" (str "some seed")).2.2.2.2.2 ⟨[], 1, 0⟩ _ _ rfl
      (by decide) (by decide)⟩

end client

/-! ## The gateway: status codes, the seed header, and the decoding of append requests -/

namespace rest

open api

/-- C17, counterexample. A `NotFoundError` returned by the ledger's `AppendTransactions` is
answered with status 500, while the same error on the read path is answered with 404. -/
theorem append_not_found_is_500 :
    (Server.handler (Server.appendHandler
        { ledger := sample.failing (.NotFoundError "not found"), options := defaultOptions }
        0 sample.appendOK)).map (fun r => r.status) = some 500 ∧
    (Server.handler (Server.readHandler
        { ledger := sample.failing (.NotFoundError "not found"), options := defaultOptions }
        0 (sample.readAt 10))).map (fun r => r.status) = some 404 := by
  constructor <;> decide

/-- C17, amended. Every error the ledger returns to the gateway is answered with an error
status, never 200: on the read path 400 for a `BadRequestError`, 404 for a `NotFoundError`,
412 for a `NetworkSeedMismatchError` and 500 for any other error; on the synchronous append
path 400 for a `BadRequestError`, 412 for a `NetworkSeedMismatchError` and 500 for any other
error, a `NotFoundError` included. -/
theorem gateway_error_status {σ : Type} (s : Server σ) (st st1 : σ) (e : Error) (seed : Bytes) :
    (∀ (r : ReadHTTP) (f : ReadForm), r.form = some f →
      hex.DecodeString r.seedHeader = some seed → r.index < 2 ^ 63 →
      s.ledger.ReadTransactions st (f.timeout.getD s.options.defaultPollTimeout)
        ⟨seed, r.index,
          if f.max_count.getD s.options.defaultCount > s.options.maxCount then s.options.maxCount
          else f.max_count.getD s.options.defaultCount⟩ = (st1, .error e) →
      ∃ resp, Server.handler (s.readHandler st r) = some resp ∧ resp.status ≠ 200 ∧
        resp.status = match e with
          | .BadRequestError _ => 400
          | .NotFoundError _ => 404
          | .NetworkSeedMismatchError _ => 412
          | _ => 500) ∧
    (∀ (r : AppendHTTP) (a : Option Bool) (req0 : api.AppendRequest), r.form = some a →
      a.getD false = false → hex.DecodeString r.seedHeader = some seed →
      DecodeAppendRequest r.body = .ok req0 →
      s.ledger.AppendTransactions st { req0 with NetworkSeed := seed } = (st1, .error e) →
      ∃ resp, Server.handler (s.appendHandler st r) = some resp ∧ resp.status ≠ 200 ∧
        resp.status = match e with
          | .BadRequestError _ => 400
          | .NetworkSeedMismatchError _ => 412
          | _ => 500) := by
  constructor
  · intro r f hf hseed hidx hl
    have hidx2 : ¬ 9223372036854775808 ≤ r.index := by
      have h3 : r.index < 9223372036854775808 := by simpa using hidx
      omega
    cases e <;>
      simp [Server.readHandler, Server.handler, hf, hseed, hidx2, hl]
  · intro r a req0 hf ha hseed hbody hl
    cases e <;>
      simp [Server.appendHandler, Server.handler, hf, ha, hseed, hbody, hl]

end rest

namespace rest

open api

/-- Witness of C17, amended: a ledger that fails with a `ServerError` on a read, and one
that fails with a `NotFoundError` on the append of `TestServerAppendOK`. -/
theorem gateway_error_status_witness :
    (hex.DecodeString (sample.readAt 10).seedHeader = some [] ∧ (sample.readAt 10).index < 2 ^ 63 ∧
      ∃ resp, Server.handler (Server.readHandler
          { ledger := sample.failing (.ServerError "down"), options := defaultOptions } 0
          (sample.readAt 10)) = some resp ∧ resp.status ≠ 200 ∧ resp.status = 500) ∧
    (hex.DecodeString sample.appendOK.seedHeader = some (str "right seed") ∧
      (∃ req0, DecodeAppendRequest sample.appendOK.body = .ok req0) ∧
      ∃ resp, Server.handler (Server.appendHandler
          { ledger := sample.failing (.NotFoundError "not found"), options := defaultOptions } 0
          sample.appendOK) = some resp ∧ resp.status ≠ 200 ∧ resp.status = 500) := by
  have hbody : ∃ req0, DecodeAppendRequest sample.appendOK.body = .ok req0 :=
    ⟨_, decode_letterA⟩
  obtain ⟨req0, hreq0⟩ := hbody
  exact ⟨⟨by decide, by decide,
    (gateway_error_status
      { ledger := sample.failing (.ServerError "down"), options := defaultOptions } 0 1
      (.ServerError "down") []).1 (sample.readAt 10)
      { max_count := none, metadata_only := none, timeout := none } rfl (by decide) (by decide) rfl⟩,
    ⟨by decide, ⟨req0, hreq0⟩,
    (gateway_error_status
      { ledger := sample.failing (.NotFoundError "not found"), options := defaultOptions } 0 1
      (.NotFoundError "not found") (str "right seed")).2 sample.appendOK none req0 rfl rfl
      (by decide) hreq0 rfl⟩⟩

end rest

namespace rest

open api

theorem readHandler_seedHeader {σ : Type} (s : Server σ) (st : σ) (r : ReadHTTP)
    (resp : Response) (h : Server.handler (s.readHandler st r) = some resp) :
    (resp.status = 200 → ∃ t req st1 res,
      s.ledger.ReadTransactions st t req = (st1, .ok res) ∧
      resp.seedHeader = [hex.EncodeToString res.NetworkSeed]) ∧
    (resp.status = 412 → ∃ t req st1 correct,
      s.ledger.ReadTransactions st t req = (st1, .error (.NetworkSeedMismatchError correct)) ∧
      resp.seedHeader = [hex.EncodeToString correct]) ∧
    (resp.status ≠ 200 → resp.status ≠ 412 → resp.seedHeader = []) := by
  unfold Server.readHandler at h
  split at h
  · simp only [Server.handler, FnOut.fail, Bool.false_eq_true, if_false, Option.some.injEq] at h
    subst h
    simp
  · split at h
    · simp only [Server.handler, FnOut.fail, Bool.false_eq_true, if_false, Option.some.injEq] at h
      subst h
      simp
    · split at h
      · simp only [Server.handler, FnOut.fail, Bool.false_eq_true, if_false, Option.some.injEq] at h
        subst h
        simp
      · dsimp only at h
        split at h
        all_goals
          simp only [Server.handler, Bool.false_eq_true, if_false, if_true, Option.some.injEq] at h
        all_goals first
          | (subst h; simp; done)
          | (subst h; simp; exact ⟨_, _, _, _, by assumption, rfl⟩)
          | simp at h

end rest

namespace rest

open api

theorem appendHandler_seedHeader {σ : Type} (s : Server σ) (st : σ) (r : AppendHTTP)
    (resp : Response) (h : Server.handler (s.appendHandler st r) = some resp) :
    (resp.status = 200 →
      (∃ req st1 res, s.ledger.AppendTransactions st req = (st1, .ok res) ∧
        resp.seedHeader = [hex.EncodeToString res.NetworkSeed]) ∨
      (r.form = some (some true) ∧ resp.seedHeader = [] ∧
        resp.body = some (.append { LastIndex := 0, Status := appendStatusPending, Error := "" }))) ∧
    (resp.status = 412 → ∃ req st1 correct,
      s.ledger.AppendTransactions st req = (st1, .error (.NetworkSeedMismatchError correct)) ∧
      resp.seedHeader = [hex.EncodeToString correct]) ∧
    (resp.status ≠ 200 → resp.status ≠ 412 → resp.seedHeader = []) := by
  unfold Server.appendHandler at h
  split at h
  · simp only [Server.handler, FnOut.fail, Bool.false_eq_true, if_false, Option.some.injEq] at h
    subst h
    simp
  · split at h
    · simp only [Server.handler, FnOut.fail, Bool.false_eq_true, if_false, Option.some.injEq] at h
      subst h
      simp
    · split at h
      · simp only [Server.handler, FnOut.fail, Bool.false_eq_true, if_false, Option.some.injEq] at h
        subst h
        simp
      · simp [Server.handler] at h
      · dsimp only at h
        split at h
        · rename_i _ f hform _ _ _ _ _ _ hasync
          simp only [Server.handler, Bool.false_eq_true, if_false, Option.some.injEq] at h
          subst h
          have ha : f = some true := by
            cases f with
            | none => simp at hasync
            | some b => simpa using hasync
          rw [ha] at hform
          simp [hform]
        · split at h
          all_goals
            simp only [Server.handler, Bool.false_eq_true, if_false, if_true, Option.some.injEq] at h
          all_goals first
            | (subst h; simp; done)
            | (subst h; simp; exact ⟨_, _, _, by assumption, rfl⟩)
            | simp at h

end rest

namespace mock

open api

theorem server_read_seed (now : Nat → Int) (l l1 : Ledger) (t : Int) (req : ReadRequest) :
    (∀ res, (server now).ReadTransactions l t req = (l1, .ok res) → res.NetworkSeed = l.seed) ∧
    (∀ c, (server now).ReadTransactions l t req = (l1, .error (.NetworkSeedMismatchError c)) →
      c = l.seed) := by
  have hshape : (server now).ReadTransactions l t req =
      (l, .error (.NetworkSeedMismatchError l.seed)) ∨
      (∃ m, (server now).ReadTransactions l t req = (l, .error (.NotFoundError m))) ∨
      (server now).ReadTransactions l t req = (l, .panic) ∨
      (∃ txs, (server now).ReadTransactions l t req = (l, .ok ⟨l.seed, txs⟩)) := by
    simp only [server, Ledger.ReadTransactions, Ledger.readLocked, Ledger.readWoken,
      Ledger.selectReady, Ledger.readResult]
    split_ifs <;> simp <;> split <;> simp
  constructor
  · intro res h
    rcases hshape with h1 | ⟨m, h1⟩ | h1 | ⟨txs, h1⟩ <;> rw [h1] at h <;> simp at h
    rw [← h.2]
  · intro c h
    rcases hshape with h1 | ⟨m, h1⟩ | h1 | ⟨txs, h1⟩ <;> rw [h1] at h <;> simp at h
    exact h.2.symm

theorem server_append_seed (now : Nat → Int) (l l1 : Ledger) (req : AppendRequest) :
    (∀ res, (server now).AppendTransactions l req = (l1, .ok res) → res.NetworkSeed = l.seed) ∧
    (∀ c, (server now).AppendTransactions l req = (l1, .error (.NetworkSeedMismatchError c)) →
      c = l.seed) := by
  simp only [server]
  cases hv : l.verifySeed req.NetworkSeed
  · rw [AppendTransactions_reject l now req hv]
    constructor
    · intro res h; simp at h
    · intro c h; simp at h; exact h.2.symm
  · rw [AppendTransactions_accept l now req hv]
    constructor
    · intro res h; simp at h; rw [← h.2]
    · intro c h; simp at h

end mock

namespace rest

open api

/-- C19. In front of a fresh mock ledger, a read at index 5 is answered with 404 and the
asynchronous append of `TestServerAsyncWrite` with 200; neither response has a seed header,
although the ledger has a seed and the documentation of the header says that responses have
the server's seed set on them. -/
theorem responses_without_seed :
    (Server.handler (sample.gateway.readHandler (mock.NewLedger sample.seed)
        (sample.readAt 5))).map (fun r => (r.status, r.seedHeader)) = some (404, []) ∧
    (Server.handler (sample.gateway.appendHandler (mock.NewLedger sample.seed)
        sample.appendAsync)).map (fun r => (r.status, r.seedHeader)) = some (200, []) ∧
    [hex.EncodeToString (mock.NewLedger sample.seed).seed] ≠ [] := by
  refine ⟨by decide, by decide, by simp⟩

/-- Where the handlers set the seed header: on a response with status 200 to a read or to a
synchronous append, from the seed of the ledger's result, and on a response with status 412,
from the correct seed of the ledger's `NetworkSeedMismatchError`, both in hexadecimal; for the
mock ledger both are the ledger's seed. On every other path (400, 404, 500, and the
`pending` response to an asynchronous append) no header is set. -/
theorem seed_header_echo :
    (∀ (σ : Type) (s : Server σ) (st : σ) (r : ReadHTTP) (resp : Response),
      Server.handler (s.readHandler st r) = some resp →
      (resp.status = 200 → ∃ t req st1 res,
        s.ledger.ReadTransactions st t req = (st1, .ok res) ∧
        resp.seedHeader = [hex.EncodeToString res.NetworkSeed]) ∧
      (resp.status = 412 → ∃ t req st1 correct,
        s.ledger.ReadTransactions st t req = (st1, .error (.NetworkSeedMismatchError correct)) ∧
        resp.seedHeader = [hex.EncodeToString correct]) ∧
      (resp.status ≠ 200 → resp.status ≠ 412 → resp.seedHeader = [])) ∧
    (∀ (σ : Type) (s : Server σ) (st : σ) (r : AppendHTTP) (resp : Response),
      Server.handler (s.appendHandler st r) = some resp →
      (resp.status = 200 →
        (∃ req st1 res, s.ledger.AppendTransactions st req = (st1, .ok res) ∧
          resp.seedHeader = [hex.EncodeToString res.NetworkSeed]) ∨
        (r.form = some (some true) ∧ resp.seedHeader = [] ∧
          resp.body =
            some (.append { LastIndex := 0, Status := appendStatusPending, Error := "" }))) ∧
      (resp.status = 412 → ∃ req st1 correct,
        s.ledger.AppendTransactions st req = (st1, .error (.NetworkSeedMismatchError correct)) ∧
        resp.seedHeader = [hex.EncodeToString correct]) ∧
      (resp.status ≠ 200 → resp.status ≠ 412 → resp.seedHeader = [])) ∧
    (∀ (now : Nat → Int) (o : options) (l : mock.Ledger) (r : ReadHTTP) (resp : Response),
      Server.handler (Server.readHandler ⟨mock.server now, o⟩ l r) = some resp →
      resp.status = 200 ∨ resp.status = 412 →
      resp.seedHeader = [hex.EncodeToString l.seed]) ∧
    (∀ (now : Nat → Int) (o : options) (l : mock.Ledger) (r : AppendHTTP) (resp : Response),
      Server.handler (Server.appendHandler ⟨mock.server now, o⟩ l r) = some resp →
      (resp.status = 200 ∧ r.form ≠ some (some true)) ∨ resp.status = 412 →
      resp.seedHeader = [hex.EncodeToString l.seed]) := by
  refine ⟨fun σ s st r resp h => readHandler_seedHeader s st r resp h,
    fun σ s st r resp h => appendHandler_seedHeader s st r resp h, ?_, ?_⟩
  · intro now o l r resp h hst
    obtain ⟨h200, h412, _⟩ := readHandler_seedHeader _ l r resp h
    rcases hst with hs | hs
    · obtain ⟨t, req, st1, res, hl, hh⟩ := h200 hs
      rw [hh, (mock.server_read_seed now l st1 t req).1 res hl]
    · obtain ⟨t, req, st1, c, hl, hh⟩ := h412 hs
      rw [hh, (mock.server_read_seed now l st1 t req).2 c hl]
  · intro now o l r resp h hst
    obtain ⟨h200, h412, _⟩ := appendHandler_seedHeader _ l r resp h
    rcases hst with ⟨hs, hsync⟩ | hs
    · rcases h200 hs with ⟨req, st1, res, hl, hh⟩ | ⟨hasync, _⟩
      · rw [hh, (mock.server_append_seed now l st1 req).1 res hl]
      · exact absurd hasync hsync
    · obtain ⟨req, st1, c, hl, hh⟩ := h412 hs
      rw [hh, (mock.server_append_seed now l st1 req).2 c hl]

theorem readAt_one_answered :
    (match Server.handler (sample.gateway.readHandler (mock.NewLedger sample.seed)
        (sample.readAt 1)) with
      | some r => r.status
      | none => 0) = 200 := by decide

/-- The read of index 1 of a fresh mock ledger (an empty result after the timeout) is
answered with 200 and the ledger's seed. -/
theorem seed_header_echo_witness :
    ∃ resp, Server.handler (Server.readHandler ⟨mock.server sample.clock, defaultOptions⟩
        (mock.NewLedger sample.seed) (sample.readAt 1)) = some resp ∧
      (resp.status = 200 ∨ resp.status = 412) ∧
      resp.seedHeader = [hex.EncodeToString (mock.NewLedger sample.seed).seed] := by
  have h200 := readAt_one_answered
  cases h : Server.handler (sample.gateway.readHandler (mock.NewLedger sample.seed)
      (sample.readAt 1)) with
  | none => rw [h] at h200; simp at h200
  | some resp =>
    rw [h] at h200
    have hs : resp.status = 200 := h200
    exact ⟨resp, h, Or.inl hs,
      seed_header_echo.2.2.1 sample.clock defaultOptions (mock.NewLedger sample.seed)
        (sample.readAt 1) resp h (Or.inl hs)⟩

theorem decodeAppendRequest_bad (body : AppendRequest)
    (h : ∃ tx, some tx ∈ body.Transactions ∧ ∀ data, base64.DecodeString tx.Data = some data →
      tx.Hash ≠ hex.EncodeToString (SHA256.Sum256 (tx.Typ ++ data))) :
    DecodeAppendRequest (some body) = .panic ∨
      ∃ e, DecodeAppendRequest (some body) = .error e := by
  obtain ⟨tx, htx, hbad⟩ := h
  cases hr : decodeUnsequencedPtrFrom 0 body.Transactions with
  | ok out =>
    obtain ⟨txs, hp, hd⟩ := decodeUnsequencedPtrFrom_ok 0 _ out hr
    have hmem : tx ∈ txs := by
      rw [hp] at htx
      simpa using htx
    obtain ⟨data, hdata, hh⟩ := decodeUnsequencedFrom_ok 0 _ out hd tx hmem
    exact absurd hh (hbad data hdata)
  | error e => exact Or.inr ⟨.transactions e, by simp [DecodeAppendRequest, hr]⟩
  | panic => exact Or.inl (by simp [DecodeAppendRequest, hr])

/-- An append request whose seed header is not valid hexadecimal text, or with a transaction
whose data is not valid base64 or whose hash field is not the hexadecimal
`SHA256(Type ++ Data)`, never reaches the ledger, with or without `async`: the handler
answers 400 or panics (on a nil pointer before the transaction in question), and for every
ledger the ledger's state is what it was and no append has been launched. -/
theorem append_bad_request_not_stored {σ : Type} (s : Server σ) (st : σ) (r : AppendHTTP)
    (h : hex.DecodeString r.seedHeader = none ∨
      ∃ body, r.body = some body ∧ ∃ tx, some tx ∈ body.Transactions ∧
        ∀ data, base64.DecodeString tx.Data = some data →
          tx.Hash ≠ hex.EncodeToString (SHA256.Sum256 (tx.Typ ++ data))) :
    (Server.handler (s.appendHandler st r) = none ∨
      ∃ resp, Server.handler (s.appendHandler st r) = some resp ∧ resp.status = 400) ∧
    (s.appendHandler st r).state = st ∧ (s.appendHandler st r).spawned = [] := by
  unfold Server.appendHandler
  cases hf : r.form with
  | none => simp [Server.handler, FnOut.fail]
  | some a =>
    cases hd : hex.DecodeString r.seedHeader with
    | none => simp [Server.handler, FnOut.fail]
    | some seed =>
      rcases h with h | ⟨body, hb, hbad⟩
      · rw [hd] at h; simp at h
      · rcases decodeAppendRequest_bad body hbad with hp | ⟨e, he⟩
        · simp [hb, hp, Server.handler]
        · simp [hb, he, Server.handler, FnOut.fail]

/-- C20. The request of `TestServerAppendBadHash` with an element `null` before the
transaction with the wrong hash: `DecodeUnsequencedTransactions` dereferences the nil pointer,
the handler panics and no response with status 400 is written; the ledger is not called. The
same request without the element `null` is answered with 400. -/
theorem append_null_element_panics :
    DecodeAppendRequest sample.appendNullBadHash.body = .panic ∧
    Server.handler (sample.gateway.appendHandler (mock.NewLedger sample.seed)
      sample.appendNullBadHash) = none ∧
    (sample.gateway.appendHandler (mock.NewLedger sample.seed) sample.appendNullBadHash).state =
      mock.NewLedger sample.seed ∧
    (sample.gateway.appendHandler (mock.NewLedger sample.seed)
      sample.appendNullBadHash).spawned = [] ∧
    (Server.handler (sample.gateway.appendHandler (mock.NewLedger sample.seed)
      sample.appendBadHash)).map (fun r => r.status) = some 400 := by
  refine ⟨by decide, by decide, by decide, by decide, by decide⟩

end rest

/-! ## The gateway: asynchronous appends and the count limit -/

namespace rest

open api

/-- C21. Asynchronous append is fire-and-forget: for every append request that decodes
(form, seed header and body) and has `async=true`, and for every ledger, the handler makes no
call of the ledger that it waits for: it launches `AppendTransactions` with `go`, leaves the
ledger's state to that call, and answers with status 200 and the body
`{"status":"pending"}` (`LastIndex` is 0, which the JSON encoding leaves out). The response
is written without any result of the ledger, so it is the same whether the launched call
succeeds, fails or never returns. A synchronous request for which the ledger returns a result
is answered with status 200 and `{"last_index": LastIndex, "status":"sequenced"}`. -/
theorem append_answer {σ : Type} (s : Server σ) (st : σ) (r : AppendHTTP) (a : Option Bool)
    (seed : Bytes) (req0 : api.AppendRequest)
    (hform : r.form = some a) (hseed : hex.DecodeString r.seedHeader = some seed)
    (hbody : DecodeAppendRequest r.body = .ok req0) :
    (a = some true →
      Server.handler (s.appendHandler st r) =
        some { status := 200, seedHeader := [],
               body := some (.append { LastIndex := 0, Status := "pending", Error := "" }) } ∧
      (s.appendHandler st r).state = st ∧
      (s.appendHandler st r).spawned = [{ req0 with NetworkSeed := seed }] ∧
      ∀ (τ : Type) (s2 : Server τ) (st2 : τ),
        Server.handler (s2.appendHandler st2 r) = Server.handler (s.appendHandler st r)) ∧
    (a.getD false = false → ∀ (st1 : σ) (res : api.AppendResult),
      s.ledger.AppendTransactions st { req0 with NetworkSeed := seed } = (st1, .ok res) →
      Server.handler (s.appendHandler st r) =
        some { status := 200, seedHeader := [hex.EncodeToString res.NetworkSeed],
               body := some (.append
                 { LastIndex := res.LastIndex, Status := "sequenced", Error := "" }) } ∧
      (s.appendHandler st r).state = st1 ∧ (s.appendHandler st r).spawned = []) := by
  constructor
  · intro ha
    subst ha
    simp [Server.appendHandler, Server.handler, hform, hseed, hbody, appendStatusPending]
  · intro ha st1 res hl
    simp [Server.appendHandler, Server.handler, hform, hseed, hbody, ha, hl,
      appendStatusSequenced]

/-- Witness of C21: the request of `TestServerAsyncWrite` in front of a ledger that rejects
every append for a seed mismatch, and the request of `TestServerAppendOK` in front of the
ledger of the tests, which returns the last index 234. -/
theorem append_answer_witness :
    Server.handler (Server.appendHandler
        { ledger := sample.failing (.NetworkSeedMismatchError (str "right seed")),
          options := defaultOptions } 0 sample.appendAsync) =
      some { status := 200, seedHeader := [],
             body := some (.append { LastIndex := 0, Status := "pending", Error := "" }) } ∧
    Server.handler (Server.appendHandler
        { ledger := sample.dummyLedger, options := defaultOptions } none sample.appendOK) =
      some { status := 200, seedHeader := [str "72696768742073656564"],
             body := some (.append { LastIndex := 234, Status := "sequenced", Error := "" }) } :=
  ⟨((append_answer
      { ledger := sample.failing (.NetworkSeedMismatchError (str "right seed")),
        options := defaultOptions } 0 sample.appendAsync (some true) [] _ rfl (by decide)
      decode_letterA).1 rfl).1,
   ((append_answer { ledger := sample.dummyLedger, options := defaultOptions } none
      sample.appendOK none (str "right seed") _ rfl (by decide) decode_letterA).2 rfl none
      ⟨str "right seed", 234⟩ (by decide)).1⟩

/-- C22, counterexample. A gateway configured with the default count 2000 and the default
maximum 1000 passes the count 1000 to the ledger for a read request without `max_count`, not
the configured default count. -/
theorem default_count_capped :
    (Server.readHandler
      { ledger := sample.dummyLedger, options := { defaultOptions with defaultCount := 2000 } }
      none (sample.readAt 1)).state = some ⟨[], 1, 1000⟩ := by
  decide

/-- C22, amended. For every read request that decodes and every configuration, the count
the gateway passes to the ledger is `min(default count, maximum)` when `max_count` is absent
and `min(max_count, maximum)` when it is given, so it never exceeds the configured maximum;
with the default count not above the maximum, as in the default options (100 and 1000), it is
the default count when `max_count` is absent. The ledger here is the one of the tests, which
keeps the request it was called with. -/
theorem gateway_count (o : options) (st : Option ReadRequest) (r : ReadHTTP) (f : ReadForm)
    (seed : Bytes) (hform : r.form = some f)
    (hseed : hex.DecodeString r.seedHeader = some seed) (hidx : r.index < 2 ^ 63) :
    (Server.readHandler { ledger := sample.dummyLedger, options := o } st r).state =
      some ⟨seed, r.index, min (f.max_count.getD o.defaultCount) o.maxCount⟩ ∧
    min (f.max_count.getD o.defaultCount) o.maxCount ≤ o.maxCount ∧
    (f.max_count = none → o.defaultCount ≤ o.maxCount →
      min (f.max_count.getD o.defaultCount) o.maxCount = o.defaultCount) ∧
    (∀ m, f.max_count = some m →
      min (f.max_count.getD o.defaultCount) o.maxCount = min m o.maxCount) ∧
    defaultOptions.defaultCount = 100 ∧ defaultOptions.maxCount = 1000 := by
  have hidx2 : ¬ 9223372036854775808 ≤ r.index := by
    have h3 : r.index < 9223372036854775808 := by simpa using hidx
    omega
  refine ⟨?_, min_le_right _ _, ?_, ?_, rfl, rfl⟩
  · have hmin : (if f.max_count.getD o.defaultCount > o.maxCount then o.maxCount
        else f.max_count.getD o.defaultCount) =
        min (f.max_count.getD o.defaultCount) o.maxCount := by
      split_ifs with h
      · exact (min_eq_right (le_of_lt h)).symm
      · exact (min_eq_left (not_lt.mp h)).symm
    simp only [Server.readHandler, hform, hseed, hidx2, sample.dummyLedger]
    simp only [hmin]
    split_ifs <;> simp
  · intro hn hle
    simp [hn, hle]
  · intro m hm
    simp [hm]

/-- Witness of C22, amended: with the default options, the request of
`TestServerReadParams` (`max_count=42`) passes the count 42 and a request without parameters
the count 100. -/
theorem gateway_count_witness :
    (Server.readHandler { ledger := sample.dummyLedger, options := defaultOptions } none
      sample.readParams).state = some ⟨[], 1, 42⟩ ∧
    (Server.readHandler { ledger := sample.dummyLedger, options := defaultOptions } none
      (sample.readAt 1)).state = some ⟨[], 1, 100⟩ :=
  ⟨(gateway_count defaultOptions none sample.readParams
      { max_count := some 42, metadata_only := none, timeout := some 12345 } [] rfl
      (by decide) (by decide)).1,
   (gateway_count defaultOptions none (sample.readAt 1)
      { max_count := none, metadata_only := none, timeout := none } [] rfl
      (by decide) (by decide)).1⟩

end rest

/-! ## The client: deadlines -/

namespace client

open api

/-- C23, counterexample. With a deadline 300 years (of 365 days) after the clock's reading,
the difference does not fit a `time.Duration`: `Time.Sub` returns the greatest `Duration`, and
the timeout sent is half of that, 4611686018427387903 ns, not `(d - now) / 2`, which is
4730400000000000000 ns. -/
theorem deadline_saturates :
    (genReadContextAndURL defaultOptions 1473412023099563000
      (some (1473412023099563000 + 9460800000000000000)) ⟨sample.seed, 1, 0⟩).timeout =
      4611686018427387903 ∧
    ((1473412023099563000 + 9460800000000000000 : Int) - 1473412023099563000).tdiv 2 =
      4730400000000000000 := by
  constructor <;> decide

/-- C23, amended. Client deadline negotiation: for every read call, if the context has a
deadline `d`, the context keeps it and the `timeout` parameter sent is half the `Duration`
that `Time.Sub` returns, truncated toward zero: `(d - now) / 2` in integer nanoseconds when
`d - now` fits a `Duration` (an `int64` of nanoseconds), half the greatest or least `Duration`
otherwise; with a deadline not yet passed it is at most half the remaining time and never
exceeds the time the client itself waits. If the context has no deadline, the timeout sent is
the configured poll timeout, and when the sum of the poll timeout and the call timeout fits an
`int64`, the call gets the deadline `now + poll timeout + call timeout`, so that with a call
timeout that is not negative the timeout sent never exceeds the time the client itself
waits. -/
theorem deadline_negotiation (o : options) (now : Int) (req : ReadRequest) :
    (∀ d : Int,
      (genReadContextAndURL o now (some d) req).timeout = (timeSub d now).tdiv 2 ∧
      (genReadContextAndURL o now (some d) req).deadline = d ∧
      (minDuration ≤ d - now → d - now ≤ maxDuration →
        (genReadContextAndURL o now (some d) req).timeout = (d - now).tdiv 2) ∧
      (maxDuration < d - now →
        (genReadContextAndURL o now (some d) req).timeout = maxDuration.tdiv 2) ∧
      (d - now < minDuration →
        (genReadContextAndURL o now (some d) req).timeout = minDuration.tdiv 2) ∧
      (now ≤ d →
        0 ≤ (genReadContextAndURL o now (some d) req).timeout ∧
        2 * (genReadContextAndURL o now (some d) req).timeout ≤ d - now ∧
        (genReadContextAndURL o now (some d) req).timeout ≤
          (genReadContextAndURL o now (some d) req).deadline - now)) ∧
    (genReadContextAndURL o now none req).timeout = o.pollTimeout ∧
    (minDuration ≤ o.pollTimeout + o.callTimeout → o.pollTimeout + o.callTimeout ≤ maxDuration →
      (genReadContextAndURL o now none req).deadline - now = o.pollTimeout + o.callTimeout ∧
      (0 ≤ o.callTimeout →
        (genReadContextAndURL o now none req).timeout ≤
          (genReadContextAndURL o now none req).deadline - now)) := by
  refine ⟨fun d => ⟨rfl, rfl, fun h1 h2 => ?_, fun h => ?_, fun h => ?_, fun hd => ?_⟩, rfl,
    fun h1 h2 => ?_⟩
  · have hs : timeSub d now = d - now := by
      unfold timeSub
      rw [if_neg (by omega), if_neg (by omega)]
    simp only [genReadContextAndURL, hs]
  · have hs : timeSub d now = maxDuration := by
      unfold timeSub
      rw [if_pos (by omega)]
    simp only [genReadContextAndURL, hs]
  · have hs : timeSub d now = minDuration := by
      unfold timeSub
      unfold minDuration maxDuration at *
      rw [if_neg (by omega), if_pos (by omega)]
    simp only [genReadContextAndURL, hs]
  · have h0 : 0 ≤ timeSub d now ∧ timeSub d now ≤ d - now := by
      unfold timeSub minDuration maxDuration
      split_ifs <;> omega
    have hq : (timeSub d now).tdiv 2 = timeSub d now / 2 :=
      Int.tdiv_eq_ediv h0.1 (by decide)
    simp only [genReadContextAndURL]
    rw [hq]
    omega
  · have hsum : addDuration o.pollTimeout o.callTimeout = o.pollTimeout + o.callTimeout := by
      unfold addDuration
      unfold minDuration at h1
      unfold maxDuration at h2
      omega
    simp only [genReadContextAndURL, hsum]
    constructor
    · omega
    · intro hc
      omega

/-- Witness of C23, amended: the client of `TestClientParams` (poll timeout 123 s, no
deadline) sends 123 s and waits 125 s; the client of `TestPollTimeoutContextOverride` (a
deadline 20 minutes ahead) sends 10 minutes. -/
theorem deadline_negotiation_witness :
    (genReadContextAndURL { defaultOptions with pollTimeout := 123 * 1000000000, maxCount := 42 }
      1473412023099563000 none ⟨str "some seed", 1, 0⟩).timeout = 123 * 1000000000 ∧
    (genReadContextAndURL { defaultOptions with pollTimeout := 123 * 1000000000, maxCount := 42 }
      1473412023099563000 none ⟨str "some seed", 1, 0⟩).deadline - 1473412023099563000 =
      123 * 1000000000 + 2 * 1000000000 ∧
    (genReadContextAndURL defaultOptions 1473412023099563000
      (some (1473412023099563000 + 20 * 60 * 1000000000)) ⟨sample.seed, 1, 0⟩).timeout =
      10 * 60 * 1000000000 ∧
    (genReadContextAndURL defaultOptions 1473412023099563000
      (some (1473412023099563000 + 20 * 60 * 1000000000)) ⟨sample.seed, 1, 0⟩).timeout ≤
      (genReadContextAndURL defaultOptions 1473412023099563000
        (some (1473412023099563000 + 20 * 60 * 1000000000)) ⟨sample.seed, 1, 0⟩).deadline -
        1473412023099563000 :=
  ⟨(deadline_negotiation { defaultOptions with pollTimeout := 123 * 1000000000, maxCount := 42 }
      1473412023099563000 ⟨str "some seed", 1, 0⟩).2.1,
   ((deadline_negotiation { defaultOptions with pollTimeout := 123 * 1000000000, maxCount := 42 }
      1473412023099563000 ⟨str "some seed", 1, 0⟩).2.2 (by decide) (by decide)).1,
   (((deadline_negotiation defaultOptions 1473412023099563000 ⟨sample.seed, 1, 0⟩).1
      (1473412023099563000 + 20 * 60 * 1000000000)).2.2.1 (by decide) (by decide)).trans
      (by decide),
   (((deadline_negotiation defaultOptions 1473412023099563000 ⟨sample.seed, 1, 0⟩).1
      (1473412023099563000 + 20 * 60 * 1000000000)).2.2.2.2.2 (by decide)).2.2⟩

end client

/-! ## The scanner: retries, emission and cursor -/

namespace scanner

open api

theorem scanLoop_error {σ : Type} (o : options) (c : Client σ) (seed : Bytes) (fuel : Nat)
    (s : ScanState σ) (e : Error)
    (h : (c.ReadTransactions s.client ⟨seed, s.index, 0⟩).2 = .error e) :
    scanLoop o c seed (fuel + 1) s =
      if o.retries > s.retried ∨ o.retries = InfiniteRetries then
        scanLoop o c seed fuel
          { s with client := (c.ReadTransactions s.client ⟨seed, s.index, 0⟩).1,
                   reads := s.reads ++ [⟨seed, s.index, 0⟩],
                   retried := s.retried + 1, sleeps := s.sleeps + 1 }
      else
        { s with client := (c.ReadTransactions s.client ⟨seed, s.index, 0⟩).1,
                 reads := s.reads ++ [⟨seed, s.index, 0⟩], err := some e, closed := true } := by
  cases hr : c.ReadTransactions s.client ⟨seed, s.index, 0⟩ with
  | mk cl out =>
    rw [hr] at h
    simp only at h
    subst h
    simp only [scanLoop, hr]

theorem scanLoop_ok {σ : Type} (o : options) (c : Client σ) (seed : Bytes) (fuel : Nat)
    (s : ScanState σ) (res : ReadResult)
    (h : (c.ReadTransactions s.client ⟨seed, s.index, 0⟩).2 = .ok res) :
    scanLoop o c seed (fuel + 1) s =
      scanLoop o c seed fuel
        (emitLoop o { s with client := (c.ReadTransactions s.client ⟨seed, s.index, 0⟩).1,
                             reads := s.reads ++ [⟨seed, s.index, 0⟩],
                             retried := 0 } res.Transactions) := by
  cases hr : c.ReadTransactions s.client ⟨seed, s.index, 0⟩ with
  | mk cl out =>
    rw [hr] at h
    simp only at h
    subst h
    simp only [scanLoop, hr]

theorem emitLoop_retried {σ : Type} (o : options) (s : ScanState σ)
    (txs : List SequencedTransaction) : (emitLoop o s txs).retried = s.retried := by
  induction txs generalizing s with
  | nil => rfl
  | cons tx rest ih =>
    simp only [emitLoop]
    split_ifs
    · rfl
    · rw [ih]
    · rw [ih]

end scanner

namespace scanner

open api

theorem retry_aux {σ : Type} (o : options) (c : Client σ) (seed : Bytes)
    (hinf : o.retries ≠ InfiniteRetries) (last : Error) (extra : Nat) :
    ∀ (es : List Error) (s : ScanState σ), s.retried + (es.length : Int) = o.retries →
      failsWith c ⟨seed, s.index, 0⟩ s.client (es ++ [last]) →
      (scanLoop o c seed (extra + (es.length + 1)) s).closed = true ∧
      (scanLoop o c seed (extra + (es.length + 1)) s).err = some last ∧
      (scanLoop o c seed (extra + (es.length + 1)) s).reads =
        s.reads ++ List.replicate (es.length + 1) ⟨seed, s.index, 0⟩ ∧
      (scanLoop o c seed (extra + (es.length + 1)) s).sleeps = s.sleeps + es.length ∧
      (scanLoop o c seed (extra + (es.length + 1)) s).emitted = s.emitted ∧
      (scanLoop o c seed (extra + (es.length + 1)) s).crashed = s.crashed := by
  intro es
  induction es with
  | nil =>
    intro s hk hf
    have hfail : (c.ReadTransactions s.client ⟨seed, s.index, 0⟩).2 = .error last := hf.1
    have hno : ¬ (o.retries > s.retried ∨ o.retries = InfiniteRetries) := by
      simp only [List.length_nil, Nat.cast_zero, add_zero] at hk
      rintro (h | h)
      · omega
      · exact hinf h
    have hrun : scanLoop o c seed (extra + (([] : List Error).length + 1)) s =
        { s with client := (c.ReadTransactions s.client ⟨seed, s.index, 0⟩).1,
                 reads := s.reads ++ [⟨seed, s.index, 0⟩], err := some last,
                 closed := true } := by
      show scanLoop o c seed (extra + 0 + 1) s = _
      rw [scanLoop_error o c seed _ s last hfail, if_neg hno]
    rw [hrun]
    simp
  | cons e es ih =>
    intro s hk hf
    have hfail : (c.ReadTransactions s.client ⟨seed, s.index, 0⟩).2 = .error e := hf.1
    have hyes : o.retries > s.retried ∨ o.retries = InfiniteRetries := by
      left
      simp only [List.length_cons, Nat.cast_add, Nat.cast_one] at hk
      omega
    have hstep := scanLoop_error o c seed (extra + (es.length + 1)) s e hfail
    rw [if_pos hyes] at hstep
    have hrec := ih
      { s with client := (c.ReadTransactions s.client ⟨seed, s.index, 0⟩).1,
               reads := s.reads ++ [⟨seed, s.index, 0⟩],
               retried := s.retried + 1, sleeps := s.sleeps + 1 }
      (by simp only [List.length_cons, Nat.cast_add, Nat.cast_one] at hk ⊢; omega) hf.2
    have hrun : scanLoop o c seed (extra + ((e :: es).length + 1)) s =
        scanLoop o c seed (extra + (es.length + 1))
          { s with client := (c.ReadTransactions s.client ⟨seed, s.index, 0⟩).1,
                   reads := s.reads ++ [⟨seed, s.index, 0⟩],
                   retried := s.retried + 1, sleeps := s.sleeps + 1 } := hstep
    rw [hrun]
    obtain ⟨h1, h2, h3, h4, h5, h6⟩ := hrec
    refine ⟨h1, h2, ?_, ?_, h5, h6⟩
    · rw [h3]
      simp [List.replicate_succ, List.append_assoc]
    · rw [h4]
      simp only [List.length_cons]
      omega

theorem infinite_aux {σ : Type} (o : options) (c : Client σ) (seed : Bytes)
    (hinf : o.retries = InfiniteRetries) :
    ∀ (es : List Error) (s : ScanState σ), failsWith c ⟨seed, s.index, 0⟩ s.client es →
      (scanLoop o c seed es.length s).closed = s.closed ∧
      (scanLoop o c seed es.length s).err = s.err ∧
      (scanLoop o c seed es.length s).reads =
        s.reads ++ List.replicate es.length ⟨seed, s.index, 0⟩ ∧
      (scanLoop o c seed es.length s).sleeps = s.sleeps + es.length := by
  intro es
  induction es with
  | nil => intro s _; simp [scanLoop]
  | cons e es ih =>
    intro s hf
    have hfail : (c.ReadTransactions s.client ⟨seed, s.index, 0⟩).2 = .error e := hf.1
    have hstep := scanLoop_error o c seed es.length s e hfail
    rw [if_pos (Or.inr hinf)] at hstep
    have hrec := ih
      { s with client := (c.ReadTransactions s.client ⟨seed, s.index, 0⟩).1,
               reads := s.reads ++ [⟨seed, s.index, 0⟩],
               retried := s.retried + 1, sleeps := s.sleeps + 1 } hf.2
    have hrun : scanLoop o c seed (e :: es).length s =
        scanLoop o c seed es.length
          { s with client := (c.ReadTransactions s.client ⟨seed, s.index, 0⟩).1,
                   reads := s.reads ++ [⟨seed, s.index, 0⟩],
                   retried := s.retried + 1, sleeps := s.sleeps + 1 } := hstep
    rw [hrun]
    obtain ⟨h1, h2, h3, h4⟩ := hrec
    refine ⟨h1, h2, ?_, ?_⟩
    · rw [h3]
      simp [List.replicate_succ, List.append_assoc]
    · rw [h4]
      simp only [List.length_cons]
      omega

/-- C24. Scanner retry budget: with a retry count `r ≥ 0`, a scanner that has used none of
its retries (at the start of `Scan`, or after a successful read, which sets the count of
retries used to 0 before the scanner goes on) and whose next `r + 1` reads fail makes exactly these `r + 1` reads, all
for the same index, sleeps `r` times between them, then closes the output channel, and
`Error()` is the error of the last failed read; nothing is emitted meanwhile. With
`InfiniteRetries`, however many reads fail in a row, the scanner has read and slept as many
times, has not closed the channel and has not set its error. -/
theorem retry_budget {σ : Type} (o : options) (c : Client σ) (seed : Bytes) :
    (∀ (s : ScanState σ) (es : List Error) (last : Error) (extra : Nat),
      0 ≤ o.retries → s.retried = 0 → (es.length : Int) = o.retries →
      failsWith c ⟨seed, s.index, 0⟩ s.client (es ++ [last]) →
      (scanLoop o c seed (es.length + 1 + extra) s).closed = true ∧
      (scanLoop o c seed (es.length + 1 + extra) s).err = some last ∧
      (scanLoop o c seed (es.length + 1 + extra) s).reads =
        s.reads ++ List.replicate (es.length + 1) ⟨seed, s.index, 0⟩ ∧
      (scanLoop o c seed (es.length + 1 + extra) s).sleeps = s.sleeps + es.length ∧
      (scanLoop o c seed (es.length + 1 + extra) s).emitted = s.emitted ∧
      (scanLoop o c seed (es.length + 1 + extra) s).crashed = s.crashed) ∧
    (∀ (s : ScanState σ) (res : ReadResult) (fuel : Nat),
      (c.ReadTransactions s.client ⟨seed, s.index, 0⟩).2 = .ok res →
      (emitLoop o { s with client := (c.ReadTransactions s.client ⟨seed, s.index, 0⟩).1,
                           reads := s.reads ++ [⟨seed, s.index, 0⟩],
                           retried := 0 } res.Transactions).retried = 0 ∧
      scanLoop o c seed (fuel + 1) s =
        scanLoop o c seed fuel
          (emitLoop o { s with client := (c.ReadTransactions s.client ⟨seed, s.index, 0⟩).1,
                               reads := s.reads ++ [⟨seed, s.index, 0⟩],
                               retried := 0 } res.Transactions)) ∧
    (∀ (s : ScanState σ) (es : List Error), o.retries = InfiniteRetries →
      failsWith c ⟨seed, s.index, 0⟩ s.client es →
      (scanLoop o c seed es.length s).closed = s.closed ∧
      (scanLoop o c seed es.length s).err = s.err ∧
      (scanLoop o c seed es.length s).reads =
        s.reads ++ List.replicate es.length ⟨seed, s.index, 0⟩ ∧
      (scanLoop o c seed es.length s).sleeps = s.sleeps + es.length) := by
  refine ⟨?_, ?_, fun s es hinf hf => infinite_aux o c seed hinf es s hf⟩
  · intro s es last extra hr hs hlen hf
    have hinf : o.retries ≠ InfiniteRetries := by
      intro h
      rw [h] at hr
      simp [InfiniteRetries] at hr
    have hfuel : es.length + 1 + extra = extra + (es.length + 1) := by omega
    rw [hfuel]
    exact retry_aux o c seed hinf last extra es s (by rw [hs, hlen]; simp) hf
  · intro s res fuel hok
    exact ⟨emitLoop_retried o _ res.Transactions, scanLoop_ok o c seed fuel s res hok⟩

/-- Witness of C24: the scanner of `TestScannerOK` (default options, no retry) after its two
successful reads: the third read fails with `done`, the channel is closed and `Error()` is
`done`; transactions 1 to 3 have been emitted. -/
theorem retry_budget_witness :
    (0 : Int) ≤ defaultOptions.retries ∧
    (Scan defaultOptions sample.mockClient sample.okResults none 1 (str "some seed") 2).retried =
      0 ∧
    (Scan defaultOptions sample.mockClient sample.okResults none 1 (str "some seed") 3).closed =
      true ∧
    (Scan defaultOptions sample.mockClient sample.okResults none 1 (str "some seed") 3).err =
      some (.other "done") ∧
    (Scan defaultOptions sample.mockClient sample.okResults none 1 (str "some seed")
      3).emitted.map (fun tx => tx.Index) = [1, 2, 3] :=
  ⟨by decide, by decide,
    ((retry_budget defaultOptions sample.mockClient (str "some seed")).1
      (Scan defaultOptions sample.mockClient sample.okResults none 1 (str "some seed") 2)
      [] (.other "done") 0 (by decide) (by decide) rfl ⟨by decide, trivial⟩).1,
    ((retry_budget defaultOptions sample.mockClient (str "some seed")).1
      (Scan defaultOptions sample.mockClient sample.okResults none 1 (str "some seed") 2)
      [] (.other "done") 0 (by decide) (by decide) rfl ⟨by decide, trivial⟩).2.1,
    by decide⟩

end scanner

namespace scanner

open api

theorem contiguous_append (index : Int) (xs ys : List SequencedTransaction) :
    contiguous index (xs ++ ys) ↔ contiguous index xs ∧ contiguous (index + xs.length) ys := by
  induction xs generalizing index with
  | nil => simp [contiguous]
  | cons x rest ih =>
    show (x.Index = index ∧ contiguous (index + 1) (rest ++ ys)) ↔
      (x.Index = index ∧ contiguous (index + 1) rest) ∧
        contiguous (index + ((rest.length + 1 : Nat) : Int)) ys
    have h : index + 1 + (rest.length : Int) = index + ((rest.length + 1 : Nat) : Int) := by
      push_cast
      omega
    rw [ih (index + 1), h, and_assoc]

theorem emitLoop_contiguous {σ : Type} (o : options) (s : ScanState σ)
    (txs : List SequencedTransaction) (h : contiguous s.index txs) :
    emitLoop o s txs =
      { s with
        emitted := s.emitted ++
          txs.filter (fun tx => ! o.filter || decide (tx.Typ = o.transactionType))
        index := s.index + txs.length } := by
  induction txs generalizing s with
  | nil => simp [emitLoop]
  | cons tx rest ih =>
    obtain ⟨h1, h2⟩ := h
    have hne : ¬ tx.Index ≠ s.index := by simp [h1]
    simp only [emitLoop, if_neg hne]
    rw [ih _ h2]
    by_cases hp : (! o.filter || decide (tx.Typ = o.transactionType)) = true
    · simp only [hp, if_true, List.filter_cons_of_pos, List.length_cons, Nat.cast_add,
        Nat.cast_one, List.append_assoc, List.singleton_append]
      congr 1
      omega
    · simp only [hp, if_false, List.filter_cons_of_neg, List.length_cons, Nat.cast_add,
        Nat.cast_one, Bool.false_eq_true, not_false_eq_true]
      congr 1
      omega

theorem received_cons (r : ReadResult) (rs : List ReadResult) :
    received (r :: rs) = r.Transactions ++ received rs := by
  simp [received]

theorem scan_ok_aux {σ : Type} (o : options) (c : Client σ) (seed : Bytes) :
    ∀ (rs : List ReadResult) (s : ScanState σ), succeedsWith c seed s.client s.index rs →
      contiguous s.index (received rs) →
      (scanLoop o c seed rs.length s).emitted = s.emitted ++
        (received rs).filter (fun tx => ! o.filter || decide (tx.Typ = o.transactionType)) ∧
      (scanLoop o c seed rs.length s).reads = s.reads ++
        (List.range rs.length).map
          (fun i => ⟨seed, s.index + ((received (rs.take i)).length : Int), 0⟩) ∧
      (scanLoop o c seed rs.length s).index = s.index + ((received rs).length : Int) ∧
      (scanLoop o c seed rs.length s).err = s.err ∧
      (scanLoop o c seed rs.length s).closed = s.closed ∧
      (scanLoop o c seed rs.length s).crashed = s.crashed ∧
      (scanLoop o c seed rs.length s).sleeps = s.sleeps ∧
      ∀ k, scanLoop o c seed (k + rs.length) s =
        scanLoop o c seed k (scanLoop o c seed rs.length s) := by
  intro rs
  induction rs with
  | nil => intro s _ _; simp [scanLoop, received]
  | cons r rs ih =>
    intro s hok hcont
    obtain ⟨hread, hrest⟩ := hok
    rw [received_cons, contiguous_append] at hcont
    obtain ⟨hc1, hc2⟩ := hcont
    have hemit := emitLoop_contiguous o
      { s with client := (c.ReadTransactions s.client ⟨seed, s.index, 0⟩).1,
               reads := s.reads ++ [⟨seed, s.index, 0⟩], retried := 0 } r.Transactions hc1
    have hstep : ∀ fuel, scanLoop o c seed (fuel + 1) s = scanLoop o c seed fuel
        { s with client := (c.ReadTransactions s.client ⟨seed, s.index, 0⟩).1,
                 reads := s.reads ++ [⟨seed, s.index, 0⟩], retried := 0,
                 emitted := s.emitted ++ r.Transactions.filter
                   (fun tx => ! o.filter || decide (tx.Typ = o.transactionType)),
                 index := s.index + r.Transactions.length } := by
      intro fuel
      rw [scanLoop_ok o c seed fuel s r hread, hemit]
    obtain ⟨h1, h2, h3, h4, h5, h6, h7, h8⟩ := ih
      { s with client := (c.ReadTransactions s.client ⟨seed, s.index, 0⟩).1,
               reads := s.reads ++ [⟨seed, s.index, 0⟩], retried := 0,
               emitted := s.emitted ++ r.Transactions.filter
                 (fun tx => ! o.filter || decide (tx.Typ = o.transactionType)),
               index := s.index + r.Transactions.length } hrest hc2
    have hrun : scanLoop o c seed (r :: rs).length s = scanLoop o c seed rs.length
        { s with client := (c.ReadTransactions s.client ⟨seed, s.index, 0⟩).1,
                 reads := s.reads ++ [⟨seed, s.index, 0⟩], retried := 0,
                 emitted := s.emitted ++ r.Transactions.filter
                   (fun tx => ! o.filter || decide (tx.Typ = o.transactionType)),
                 index := s.index + r.Transactions.length } := hstep rs.length
    rw [hrun]
    refine ⟨?_, ?_, ?_, h4, h5, h6, h7, ?_⟩
    · rw [h1, received_cons]
      simp [List.filter_append, List.append_assoc]
    · rw [h2]
      simp only [List.length_cons, List.range_succ_eq_map, List.map_cons, List.map_map,
        List.take_zero, List.append_assoc, List.singleton_append]
      have h0 : (received ([] : List ReadResult)).length = 0 := rfl
      simp only [h0, Nat.cast_zero, add_zero]
      refine congrArg _ (congrArg _ (List.map_congr_left ?_))
      intro i _
      simp only [Function.comp, List.take_succ_cons, received_cons, List.length_append,
        Nat.cast_add, add_assoc]
    · rw [h3, received_cons]
      simp only [List.length_append, Nat.cast_add]
      omega
    · intro k
      have hk : k + (r :: rs).length = (k + rs.length) + 1 := by simp; omega
      rw [hk, hstep, h8 k]

/-- C25. Scanner emission and cursor: for every start index and every sequence of successful
reads `rs` whose transactions have contiguous indexes from the start index, after these reads
the transactions emitted on the output channel are, in the order received, exactly those whose
`Type` equals the configured filter type, and all of them when no filter is configured; read
number `i` (from 0) was issued for the start index plus the number of transactions received in
the reads before it, the filtered-out ones included; the scanner has not stopped, its error is
what it was, and it goes on with a read for the start index plus the number of all the
transactions received. -/
theorem emission_and_cursor {σ : Type} (o : options) (c : Client σ) (client : σ)
    (err : Option Error) (start : Int) (seed : Bytes) (rs : List ReadResult)
    (hok : succeedsWith c seed client start rs) (hcont : contiguous start (received rs)) :
    (Scan o c client err start seed rs.length).emitted =
      (received rs).filter (fun tx => ! o.filter || decide (tx.Typ = o.transactionType)) ∧
    (o.filter = false → (Scan o c client err start seed rs.length).emitted = received rs) ∧
    (Scan o c client err start seed rs.length).reads =
      (List.range rs.length).map
        (fun i => ⟨seed, start + ((received (rs.take i)).length : Int), 0⟩) ∧
    (Scan o c client err start seed rs.length).index = start + ((received rs).length : Int) ∧
    (Scan o c client err start seed rs.length).err = err ∧
    (Scan o c client err start seed rs.length).closed = false ∧
    (Scan o c client err start seed rs.length).crashed = false ∧
    ∀ k, Scan o c client err start seed (k + rs.length) =
      scanLoop o c seed k (Scan o c client err start seed rs.length) := by
  obtain ⟨h1, h2, h3, h4, h5, h6, _, h8⟩ := scan_ok_aux o c seed rs
    { client := client, err := err, index := start, retried := 0, emitted := [], reads := [],
      sleeps := 0, closed := false, crashed := false } hok hcont
  refine ⟨by simpa [Scan] using h1, ?_, by simpa [Scan] using h2, h3, h4, h5, h6, h8⟩
  intro hf
  have h : (Scan o c client err start seed rs.length).emitted = _ := h1
  rw [h, hf]
  simp

/-- Witness of C25: the scanner of `TestScannerWithFilter` (types a, b, a, filter `a`) emits
transactions 1 and 3, and the scanner of `TestScannerWithType` (types a, b, none, a, no filter)
emits transactions 1 to 4; both make their second read for the index after the last
transaction. -/
theorem emission_and_cursor_witness :
    (succeedsWith sample.mockClient [] sample.withFilterResults 1 sample.withFilterResults ∧
      contiguous 1 (received sample.withFilterResults)) ∧
    ((Scan sample.filterA sample.mockClient sample.withFilterResults none 1 [] 1).emitted.map
        (fun tx => (tx.Index, tx.Typ)) = [(1, str "a"), (3, str "a")] ∧
      (Scan sample.filterA sample.mockClient sample.withFilterResults none 1 [] 1).index = 4) ∧
    ((Scan defaultOptions sample.mockClient sample.withTypeResults none 1 [] 1).emitted.map
        (fun tx => tx.Index) = [1, 2, 3, 4] ∧
      (Scan defaultOptions sample.mockClient sample.withTypeResults none 1 [] 1).index = 5) := by
  have hok1 : succeedsWith sample.mockClient [] sample.withFilterResults 1
      sample.withFilterResults := ⟨rfl, trivial⟩
  have hc1 : contiguous 1 (received sample.withFilterResults) := by
    simp [received, sample.withFilterResults, contiguous, sample.MockTypedSequencedTransaction]
  have hok2 : succeedsWith sample.mockClient [] sample.withTypeResults 1
      sample.withTypeResults := ⟨rfl, trivial⟩
  have hc2 : contiguous 1 (received sample.withTypeResults) := by
    simp [received, sample.withTypeResults, contiguous, sample.MockTypedSequencedTransaction]
  have h1 := emission_and_cursor sample.filterA sample.mockClient sample.withFilterResults none
    1 [] sample.withFilterResults hok1 hc1
  have h2 := emission_and_cursor defaultOptions sample.mockClient sample.withTypeResults none
    1 [] sample.withTypeResults hok2 hc2
  refine ⟨⟨hok1, hc1⟩, ⟨?_, ?_⟩, ⟨?_, ?_⟩⟩
  · have h : (Scan sample.filterA sample.mockClient sample.withFilterResults none 1 []
        1).emitted = _ := h1.1
    rw [h]
    decide
  · have h : (Scan sample.filterA sample.mockClient sample.withFilterResults none 1 []
        1).index = _ := h1.2.2.2.1
    rw [h]
    decide
  · have h : (Scan defaultOptions sample.mockClient sample.withTypeResults none 1 []
        1).emitted = _ := h2.1
    rw [h]
    decide
  · have h : (Scan defaultOptions sample.mockClient sample.withTypeResults none 1 []
        1).index = _ := h2.2.2.2.1
    rw [h]
    decide

end scanner

/-! ## The first state hash -/

namespace mock

open api

/-- C26, counterexample. After the appends of `ExampleVerifyStateHash`, the first stored
transaction (`semper`) has the hash `59aa...` and the state hash `123a...`, as the example
prints them: its state hash is not its hash. -/
theorem first_state_hash_differs :
    ((NewLedger sample.seed).runAppends sample.semperFidelis).data.head?.map
        (fun tx => (hex.EncodeToString tx.Hash, hex.EncodeToString tx.StateHash,
          decide (tx.StateHash = tx.Hash))) =
      some (str "59aa9f6655437abe7a29fd1093641131b61d9f5c827141476a42169a64ecc04f",
        str "123a8b99fcce348cc9fa531ed641eccf9d8afb233e4ba8dbfacbd6a34035edfe", false) := by
  decide

/-- C26, amended. In every state of a ledger, the `StateHash` of the first transaction is
`SHA256(Hash)`, the formula of the wire-type documentation with an empty previous state hash,
and the `StateHash` of every later transaction is `SHA256(previous StateHash ++ Hash)`, all
taken as raw bytes. -/
theorem first_state_hash (seed : Bytes) (l : Ledger) (hl : Reachable seed l) :
    (∀ tx, l.data.head? = some tx → tx.StateHash = SHA256.Sum256 ([] ++ tx.Hash) ∧
      tx.StateHash = SHA256.Sum256 tx.Hash) ∧
    (∀ (k : Nat) (hk : k + 1 < l.data.length),
      (l.data[k + 1]).StateHash =
        SHA256.Sum256 ((l.data[k]).StateHash ++ (l.data[k + 1]).Hash)) := by
  have hinv := hl.inv
  refine ⟨?_, fun k hk => chainFrom_step [] _ hinv.chain k hk⟩
  intro tx htx
  cases hd : l.data with
  | nil => rw [hd] at htx; simp at htx
  | cons x rest =>
    rw [hd] at htx
    have hx : x = tx := by simpa using htx
    have h0 : 0 < l.data.length := by rw [hd]; simp
    have h := chainFrom_head [] _ hinv.chain h0
    simp only [hd, List.getElem_cons_zero, hx] at h
    exact ⟨h, by simpa using h⟩

/-- Witness of C26, amended: the ledger of `ExampleVerifyStateHash`. -/
theorem first_state_hash_witness :
    Reachable sample.seed ((NewLedger sample.seed).runAppends sample.semperFidelis) ∧
    (∀ (k : Nat)
      (hk : k + 1 < ((NewLedger sample.seed).runAppends sample.semperFidelis).data.length),
      (((NewLedger sample.seed).runAppends sample.semperFidelis).data[k + 1]).StateHash =
        SHA256.Sum256
          ((((NewLedger sample.seed).runAppends sample.semperFidelis).data[k]).StateHash ++
          (((NewLedger sample.seed).runAppends sample.semperFidelis).data[k + 1]).Hash)) :=
  ⟨Reachable.fresh.runAppends sample.semperFidelis,
    (first_state_hash sample.seed _ (Reachable.fresh.runAppends sample.semperFidelis)).2⟩

end mock

/-! ## The classification of the errors -/

namespace api

/-- C27. Retry classification of the typed errors: for every error value of the four
types, `Temporary()` is true for a `NotFoundError` and a `ServerError` and false for a
`BadRequestError` and a `NetworkSeedMismatchError`, and `Timeout()` is false for all four. -/
theorem error_classification (m : String) (s : Bytes) :
    (Error.NotFoundError m).Temporary = some true ∧
    (Error.ServerError m).Temporary = some true ∧
    (Error.BadRequestError m).Temporary = some false ∧
    (Error.NetworkSeedMismatchError s).Temporary = some false ∧
    (Error.NotFoundError m).Timeout = some false ∧
    (Error.ServerError m).Timeout = some false ∧
    (Error.BadRequestError m).Timeout = some false ∧
    (Error.NetworkSeedMismatchError s).Timeout = some false :=
  ⟨rfl, rfl, rfl, rfl, rfl, rfl, rfl, rfl⟩

end api

/-! ## Wake-ups, slice bounds and empty appends -/

namespace mock

open api

theorem step_newData (l : Ledger) (op : Op) : l.newData ≤ (l.step op).newData := by
  cases op with
  | readLocked ctx req => simp [Ledger.step, readLocked_ledger]
  | readWoken ctx req w =>
    simp only [Ledger.step]
    cases h : l.readWoken ctx req w with
    | none => exact Nat.le_refl _
    | some r => simp [readWoken_eq l ctx req w r h, readResult_ledger]
  | append now req => exact AppendTransactions_newData l now req
  | status now => exact Nat.le_refl _

theorem run_newData (l : Ledger) (ops : List Op) : l.newData ≤ (l.run ops).newData := by
  induction ops generalizing l with
  | nil => exact Nat.le_refl _
  | cons op rest ih => exact Nat.le_trans (step_newData l op) (ih _)

theorem run_append (l : Ledger) (pre post : List Op) :
    l.run (pre ++ post) = (l.run pre).run post := by
  induction pre generalizing l with
  | nil => rfl
  | cons op rest ih => simp [Ledger.run, ih]

/-- C28. No lost wake-up: a read that found `index = L + 1` copied the channel `w` in its
first critical section, on the ledger `l`. Whatever operations of other goroutines take the
mutex after that, in any order (`pre`, an accepted append, `post`: further reads, appends and
the wake-ups of other readers), the channel `w` is closed on the ledger they leave, at
whatever moment the reader reaches its select statement: the reader gets past it even when its
context is not done, takes the lock and returns the result of `readData` on the ledger it
finds. This holds for every reader that copied the channel on `l`, and the second critical
section of a reader leaves the ledger as it is, so that no reader changes what another one
finds. -/
theorem no_lost_wakeup (l : Ledger) (ctx : Context) (req : ReadRequest) (w : Nat)
    (pre post : List Op) (now : Nat → Int) (areq : AppendRequest)
    (hcap : (l.readLocked ctx req).2 = .waiting w)
    (hacc : (l.run pre).verifySeed areq.NetworkSeed = true) :
    w < (l.run (pre ++ .append now areq :: post)).newData ∧
    (l.run (pre ++ .append now areq :: post)).selectReady ⟨false⟩ w = true ∧
    (l.run (pre ++ .append now areq :: post)).readWoken ctx req w =
      some ((l.run (pre ++ .append now areq :: post)).readResult req) ∧
    (l.run (pre ++ .append now areq :: post)).step (.readWoken ctx req w) =
      l.run (pre ++ .append now areq :: post) := by
  have hw : w = l.newData := by
    unfold Ledger.readLocked at hcap
    split_ifs at hcap
    simp_all
  have hlt : w < (l.run (pre ++ .append now areq :: post)).newData := by
    rw [run_append]
    simp only [Ledger.run, Ledger.step]
    refine Nat.lt_of_lt_of_le ?_ (run_newData _ post)
    rw [AppendTransactions_accept _ now areq hacc, hw]
    exact Nat.lt_succ_of_le (run_newData l pre)
  have hready : ∀ c : Context,
      (l.run (pre ++ .append now areq :: post)).selectReady c w = true := by
    intro c
    simp [Ledger.selectReady, hlt]
  refine ⟨hlt, hready _, ?_, ?_⟩
  · simp [Ledger.readWoken, hready]
  · simp [Ledger.step, Ledger.readWoken, hready, readResult_ledger]

/-- Witness of C28: two readers wait for transaction 1 of a fresh ledger; the append of
`semper` runs after the first reader has given up the lock, and the second reader is woken
before the first one reaches its select statement. -/
theorem no_lost_wakeup_witness :
    ((NewLedger sample.seed).readLocked ⟨false⟩ ⟨[], 1, 10⟩).2 = .waiting 0 ∧
    ((NewLedger sample.seed).run [.readLocked ⟨false⟩ ⟨[], 1, 5⟩]).verifySeed
      (sample.call sample.seed [sample.hashed "semper"]).req.NetworkSeed = true ∧
    0 < ((NewLedger sample.seed).run ([.readLocked ⟨false⟩ ⟨[], 1, 5⟩] ++
      .append sample.clock (sample.call sample.seed [sample.hashed "semper"]).req ::
        [.readWoken ⟨false⟩ ⟨[], 1, 5⟩ 0])).newData :=
  ⟨by decide, by decide,
    (no_lost_wakeup (NewLedger sample.seed) ⟨false⟩ ⟨[], 1, 10⟩ 0
      [.readLocked ⟨false⟩ ⟨[], 1, 5⟩] [.readWoken ⟨false⟩ ⟨[], 1, 5⟩ 0] sample.clock
      (sample.call sample.seed [sample.hashed "semper"]).req (by decide) (by decide)).1⟩

end mock

namespace mock

open api

theorem readData_zero (l : Ledger) (count : Int) : l.readData 0 count = none := by
  simp [Ledger.readData, sliceOf]

theorem readData_negative (l : Ledger) (index count : Int) (hc : count < 0) :
    l.readData index count = none := by
  unfold Ledger.readData sliceOf
  simp only
  rw [if_neg]
  split_ifs <;> omega

/-- C29. The read of index 0 and a read with a negative `max_count` end in a run-time panic:
for every ledger and every count, the slice expression of `readData` at index 0 has the lower
bound -1, and for every ledger and every index a count `-(n + 1)` puts the upper bound below
the lower one. Through the gateway in front of a fresh mock ledger, `GET /transactions/0` and
`GET /transactions/1?max_count=-1` both panic in the handler, so that no response is
written. -/
theorem read_out_of_range :
    (∀ (l : Ledger) (count : Int), l.readData 0 count = none) ∧
    (∀ (l : Ledger) (index : Int) (n : Nat), l.readData index (-((n : Int) + 1)) = none) ∧
    (NewLedger sample.seed).ReadTransactions ⟨true⟩ ⟨[], 0, 100⟩ =
      some (NewLedger sample.seed, .panic) ∧
    (NewLedger sample.seed).ReadTransactions ⟨true⟩ ⟨[], 1, -1⟩ =
      some (NewLedger sample.seed, .panic) ∧
    rest.Server.handler (sample.gateway.readHandler (NewLedger sample.seed) (sample.readAt 0)) =
      none ∧
    rest.Server.handler (sample.gateway.readHandler (NewLedger sample.seed)
      (sample.readNegative 1)) = none := by
  refine ⟨readData_zero, fun l index n => readData_negative l index _ (by omega), by decide,
    by decide, by decide, by decide⟩

/-- C30. A reader waits at index 1 of a fresh ledger with the count -1; an append with an
empty transaction list, which is accepted and returns `LastIndex = 0`, wakes it, and it ends
in a run-time panic in `readData` instead of returning an empty result. -/
theorem empty_append_negative_count :
    (NewLedger sample.seed).readLocked ⟨false⟩ ⟨[], 1, -1⟩ =
      (NewLedger sample.seed, .waiting 0) ∧
    ((NewLedger sample.seed).AppendTransactions sample.clock ⟨[], []⟩).2 =
      .ok ⟨sample.seed, 0⟩ ∧
    ((NewLedger sample.seed).AppendTransactions sample.clock ⟨[], []⟩).1.readWoken ⟨false⟩
        ⟨[], 1, -1⟩ 0 =
      some (((NewLedger sample.seed).AppendTransactions sample.clock ⟨[], []⟩).1, .panic) := by
  refine ⟨by decide, by decide, by decide⟩

/-- An `AppendTransactions` call with an empty transaction list that passes the seed check
leaves the log and the running state hash unchanged and returns `LastIndex = L`,
yet closes the new-data channel: a reader at `index = L + 1` with a count that is not
negative, whose context is not done, is blocked before the call, and after it gets past its
select statement and returns the ledger's seed and an empty transaction list with no error. -/
theorem empty_append_wakes (l : Ledger) (now : Nat → Int) (areq : AppendRequest)
    (ctx : Context) (req : ReadRequest)
    (hempty : areq.Transactions = []) (hacc : l.verifySeed areq.NetworkSeed = true)
    (hseed : l.verifySeed req.NetworkSeed = true)
    (hidx : req.Index = (l.data.length : Int) + 1) (hc : 0 ≤ req.Count) :
    (l.AppendTransactions now areq).1.data = l.data ∧
    (l.AppendTransactions now areq).1.stateHash = l.stateHash ∧
    (l.AppendTransactions now areq).2 = .ok ⟨l.seed, l.data.length⟩ ∧
    l.readLocked ctx req = (l, .waiting l.newData) ∧
    l.readWoken ⟨false⟩ req l.newData = none ∧
    (l.AppendTransactions now areq).1.readWoken ⟨false⟩ req l.newData =
      some ((l.AppendTransactions now areq).1, .ok ⟨l.seed, []⟩) := by
  have happ := AppendTransactions_accept l now areq hacc
  rw [hempty] at happ
  simp only [entries, lastStateHash, List.append_nil, List.length_nil, Nat.cast_zero,
    add_zero] at happ
  rw [happ]
  refine ⟨rfl, rfl, rfl, readLocked_next l ctx req hseed hidx,
    by simp [Ledger.readWoken, Ledger.selectReady], ?_⟩
  have hr := readResult_next { l with newData := l.newData + 1 } req hidx hc
  simp [Ledger.readWoken, Ledger.selectReady, hr]

/-- A reader of up to 10 transactions waits at index 1 of a fresh ledger when an empty append
arrives. -/
theorem empty_append_wakes_witness :
    (NewLedger sample.seed).readLocked ⟨false⟩ ⟨[], 1, 10⟩ =
      (NewLedger sample.seed, .waiting 0) ∧
    (NewLedger sample.seed).readWoken ⟨false⟩ ⟨[], 1, 10⟩ 0 = none ∧
    ((NewLedger sample.seed).AppendTransactions sample.clock ⟨sample.seed, []⟩).1.readWoken
        ⟨false⟩ ⟨[], 1, 10⟩ 0 =
      some (((NewLedger sample.seed).AppendTransactions sample.clock ⟨sample.seed, []⟩).1,
        .ok ⟨(NewLedger sample.seed).seed, []⟩) :=
  ⟨(empty_append_wakes (NewLedger sample.seed) sample.clock ⟨sample.seed, []⟩ ⟨false⟩
      ⟨[], 1, 10⟩ rfl (by decide) (by decide) (by decide) (by decide)).2.2.2.1,
    (empty_append_wakes (NewLedger sample.seed) sample.clock ⟨sample.seed, []⟩ ⟨false⟩
      ⟨[], 1, 10⟩ rfl (by decide) (by decide) (by decide) (by decide)).2.2.2.2.1,
    (empty_append_wakes (NewLedger sample.seed) sample.clock ⟨sample.seed, []⟩ ⟨false⟩
      ⟨[], 1, 10⟩ rfl (by decide) (by decide) (by decide) (by decide)).2.2.2.2.2⟩

end mock
